import Mathlib

/-!
A verification development for the lead-resolution pipeline of
`seo_leads_to_trello.py`.

Python text values are modelled as `List Char` (`Str`): byte/character
identity of outputs is list equality.  Python-library primitives used by the
script (`str.strip`, `str.splitlines`, `str.lower`, `urllib.parse.urlparse`,
regular-expression label matching, …) are embedded as executable Lean
functions next to the functions of the script that use them.  External
collaborators (network responses, `tldextract`, `random.shuffle`, the
floating-point haversine kernel) enter as explicit parameters.
-/

set_option maxRecDepth 20000

abbrev Str := List Char

def str (s : String) : Str := s.data

/-- Python `str` whitespace (the ASCII part, which is all the script uses). -/
def isPySpace (c : Char) : Bool :=
  c = ' ' || c = Char.ofNat 9 || c = Char.ofNat 10 || c = Char.ofNat 13 ||
  c = Char.ofNat 11 || c = Char.ofNat 12

def asciiLower (c : Char) : Char :=
  if 'A' ≤ c ∧ c ≤ 'Z' then Char.ofNat (c.toNat + 32) else c

def lowerStr (s : Str) : Str := s.map asciiLower

/-- Python `str.lstrip()`. -/
def pyLstrip (s : Str) : Str := s.dropWhile isPySpace

/-- Python `str.rstrip()`. -/
def pyRstrip (s : Str) : Str := (s.reverse.dropWhile isPySpace).reverse

/-- Python `str.strip()`. -/
def pyStrip (s : Str) : Str := pyLstrip (pyRstrip s)

/-- Python `str.strip(ch)` for a single character (used as `u.strip("/")`). -/
def stripCharBoth (ch : Char) (s : Str) : Str :=
  ((s.dropWhile (· = ch)).reverse.dropWhile (· = ch)).reverse

/-- The line boundaries recognised by Python `str.splitlines`. -/
def isLineBreak (c : Char) : Bool :=
  c = Char.ofNat 10 || c = Char.ofNat 13 || c = Char.ofNat 11 ||
  c = Char.ofNat 12 || c = Char.ofNat 0x1c || c = Char.ofNat 0x1d ||
  c = Char.ofNat 0x1e || c = Char.ofNat 0x85 || c = Char.ofNat 0x2028 ||
  c = Char.ofNat 0x2029

/-- Python `str.splitlines`: accumulator-passing scan so that the kernel can
evaluate it on closed inputs.  A lone final line-break closes the last line
without opening an empty one, as in Python. -/
def pySplitlinesAux : List Char → List Char → List Str
  | [], acc => if acc.isEmpty then [] else [acc.reverse]
  | [c], acc =>
      if isLineBreak c then [acc.reverse] else [(c :: acc).reverse]
  | c :: c2 :: rest, acc =>
      if c = Char.ofNat 13 ∧ c2 = Char.ofNat 10 then
        acc.reverse :: pySplitlinesAux rest []
      else if isLineBreak c then acc.reverse :: pySplitlinesAux (c2 :: rest) []
      else pySplitlinesAux (c2 :: rest) (c :: acc)

def pySplitlines (s : Str) : List Str := pySplitlinesAux s []

/-- `"\n".join(lines)`. -/
def joinNl : List Str → Str
  | [] => []
  | [l] => l
  | l :: l2 :: rest => l ++ Char.ofNat 10 :: joinNl (l2 :: rest)

/-- Python `str.rstrip("\n")`. -/
def pyRstripNl (s : Str) : Str :=
  (s.reverse.dropWhile (· = Char.ofNat 10)).reverse

/-- `s.replace("\r\n", "\n")`: left-to-right non-overlapping replacement. -/
def pyReplaceCRLF : Str → Str
  | [] => []
  | [c] => [c]
  | c :: c2 :: rest =>
      if c = Char.ofNat 13 ∧ c2 = Char.ofNat 10 then
        Char.ofNat 10 :: pyReplaceCRLF rest
      else c :: pyReplaceCRLF (c2 :: rest)

/-- `s.replace("\r", "\n")`. -/
def pyReplaceCR (s : Str) : Str :=
  s.map (fun c => if c = Char.ofNat 13 then Char.ofNat 10 else c)

/-- `(desc or "").replace("\r\n", "\n").replace("\r", "\n")`. -/
def pyNormNl (s : Str) : Str := pyReplaceCR (pyReplaceCRLF s)

def dropTrailingEmpties (L : List Str) : List Str :=
  (L.reverse.dropWhile List.isEmpty).reverse

/- ---------------------------------------------------------------------
   Trello header labels: `TARGET_LABELS` and the per-label regular
   expression `(?mi)^\s*{label}\s*:\s*(.*)$`, embedded as a matcher that
   returns the text captured by the group.
   --------------------------------------------------------------------- -/

def labCompany : Str := str "Company"
def labFirst : Str := str "First"
def labEmail : Str := str "Email"
def labHook : Str := str "Hook"
def labVariant : Str := str "Variant"
def labWebsite : Str := str "Website"

def TARGET_LABELS : List Str :=
  [labCompany, labFirst, labEmail, labHook, labVariant, labWebsite]

/-- Case-insensitive literal-prefix matcher: on success returns the remainder
of the line after the label text. -/
def ciPrefixRest : Str → Str → Option Str
  | [], rest => some rest
  | _ :: _, [] => none
  | a :: as, b :: bs =>
      if asciiLower a = asciiLower b then ciPrefixRest as bs else none

/-- After the label: `\s*:\s*(.*)$` — optional spaces, a colon, then the
group, which starts after the following spaces. -/
def colonThenGroup (r : Str) : Option Str :=
  match r.dropWhile isPySpace with
  | c :: r2 => if c = ':' then some (r2.dropWhile isPySpace) else none
  | [] => none

/-- `LABEL_RE[lab].match(line)`, returning `group(1)` on success:
`^\s*lab\s*:\s*(.*)$` with the ignore-case flag. -/
def labelGroup (lab : Str) (line : Str) : Option Str :=
  match ciPrefixRest lab (pyLstrip line) with
  | none => none
  | some r => colonThenGroup r

/-- Scan `TARGET_LABELS` in order for the first matching label. -/
def firstLabelMatchAux : List Str → Str → Option (Str × Str)
  | [], _ => none
  | lab :: labs, line =>
      match labelGroup lab line with
      | some g => some (lab, g)
      | none => firstLabelMatchAux labs line

def firstLabelMatch (line : Str) : Option (Str × Str) :=
  firstLabelMatchAux TARGET_LABELS line

/-- `any(LABEL_RE[L].match(line) for L in TARGET_LABELS)`. -/
def isLabelLine (line : Str) : Bool := (firstLabelMatch line).isSome

/- ---------------------------------------------------------------------
   `_split_header_rest`
   --------------------------------------------------------------------- -/

/-- The scanning loop of `_split_header_rest`, with the `seen_labels`
set reduced to the only membership it is queried for (`"Website"`), and
the `started` flag carried as in the source. -/
def shrLoop : List Str → Bool → Bool → List Str × List Str
  | [], _, _ => ([], [])
  | line :: rest, seenW, started =>
      match firstLabelMatch line with
      | some lg =>
          let seenW2 := seenW || decide (lg.1 = labWebsite)
          match rest with
          | nxt :: rest2 =>
              if pyStrip lg.2 = [] ∧ pyStrip nxt ≠ [] ∧ ¬ isLabelLine nxt then
                let p := shrLoop rest2 seenW2 true
                (line :: nxt :: p.1, p.2)
              else
                let p := shrLoop (nxt :: rest2) seenW2 true
                (line :: p.1, p.2)
          | [] => ([line], [])
      | none =>
          if pyStrip line = [] then
            if seenW then ([line], rest)
            else
              let p := shrLoop rest seenW started
              (line :: p.1, p.2)
          else if started then ([], line :: rest)
          else shrLoop rest seenW started

def split_header_rest (desc : Str) : List Str × List Str :=
  let lines := pySplitlines (pyNormNl desc)
  let rest0 := lines.dropWhile (fun l => (pyStrip l).isEmpty)
  match rest0 with
  | [] => ([], lines)
  | l :: _ => if isLabelLine l then shrLoop rest0 false false else ([], lines)

/- ---------------------------------------------------------------------
   `normalize_header_block`
   --------------------------------------------------------------------- -/

structure Preserved where
  first : Str
  email : Str
  hook : Str
  variant : Str
deriving DecidableEq, Repr

def presEmpty : Preserved := ⟨[], [], [], []⟩

/-- `if lab in preserved and preserved[lab] == "": preserved[lab] = val`. -/
def presUpdate (p : Preserved) (lab : Str) (v : Str) : Preserved :=
  if lab = labFirst then (if p.first = [] then { p with first := v } else p)
  else if lab = labEmail then (if p.email = [] then { p with email := v } else p)
  else if lab = labHook then (if p.hook = [] then { p with hook := v } else p)
  else if lab = labVariant then (if p.variant = [] then { p with variant := v } else p)
  else p

/-- The value-collection loop of `normalize_header_block` over the header
lines (with the same one-line continuation lookahead as the splitter). -/
def extractLoop : List Str → Preserved → Preserved
  | [], p => p
  | line :: rest, p =>
      match firstLabelMatch line with
      | none => extractLoop rest p
      | some lg =>
          match rest with
          | nxt :: rest2 =>
              if pyStrip lg.2 = [] ∧ pyStrip nxt ≠ [] ∧ ¬ isLabelLine nxt then
                extractLoop rest2 (presUpdate p lg.1 (pyStrip nxt))
              else
                extractLoop (nxt :: rest2) (presUpdate p lg.1 (pyStrip lg.2))
          | [] => presUpdate p lg.1 (pyStrip lg.2)

/-- `(line or "").rstrip() + "  "`. -/
def hard (line : Str) : Str := pyRstrip line ++ str "  "

def newHeaderLines (company website : Str) (pres : Preserved) : List Str :=
  [hard (str "Company: " ++ company),
   hard (str "First: " ++ pres.first),
   hard (str "Email: " ++ pres.email),
   hard (str "Hook: " ++ pres.hook),
   hard (str "Variant: " ++ pres.variant),
   hard (str "Website: " ++ website),
   []]

/-- The batch-marker block of `normalize_header_block`. -/
def appendBatch (rest : List Str) (batch : Option Str) : List Str :=
  match batch with
  | none => rest
  | some b =>
      if b = [] then rest
      else if rest.any (fun l => pyStrip l = b) then rest
      else
        (if rest ≠ [] ∧ pyStrip (rest.getLastD []) ≠ [] then rest ++ [[]] else rest)
          ++ [b]

def normalize_header_block (desc : Str) (company website : Str)
    (batch : Option Str) : Str :=
  let d := pyNormNl desc
  let hr := split_header_rest d
  let pres := extractLoop hr.1 presEmpty
  let rest2 := appendBatch hr.2 batch
  pyRstripNl (joinNl (newHeaderLines company website pres ++ rest2)) ++
    str "\n\n@lead\n"

/-- A line holds no character at which Python `splitlines` would break. -/
def lineFree (l : Str) : Prop := ∀ ch ∈ l, isLineBreak ch = false

/-- The preserved-field values collected by a merge over `desc`. -/
def mergePres (desc : Str) : Preserved :=
  extractLoop (split_header_rest (pyNormNl desc)).1 presEmpty

/-- The six emitted label lines of the merged header (without the blank
separator). -/
def headerSix (c w : Str) (pres : Preserved) : List Str :=
  [hard (labCompany ++ str ": " ++ c),
   hard (labFirst ++ str ": " ++ pres.first),
   hard (labEmail ++ str ": " ++ pres.email),
   hard (labHook ++ str ": " ++ pres.hook),
   hard (labVariant ++ str ": " ++ pres.variant),
   hard (labWebsite ++ str ": " ++ w)]

/-- The output of `normalize_header_block`, viewed as its list of lines. -/
def mergeLines (desc : Str) (company website : Str) (batch : Option Str) :
    List Str :=
  let hr := split_header_rest (pyNormNl desc)
  dropTrailingEmpties
      (newHeaderLines company website (extractLoop hr.1 presEmpty) ++
        appendBatch hr.2 batch) ++ [[], str "@lead"]

/-- `pat` begins `s` (byte-level). -/
def strHasPre : Str → Str → Bool
  | [], _ => true
  | _ :: _, [] => false
  | a :: as, b :: bs => a = b && strHasPre as bs

/-- `pat` occurs contiguously inside `s` (Python `pat in s`). -/
def isSubstr (pat : Str) : Str → Bool
  | [] => strHasPre pat []
  | c :: rest => strHasPre pat (c :: rest) || isSubstr pat rest

/- ---------------------------------------------------------------------
   `urllib.parse` (the slice `normalize_url` consults) and `normalize_url`
   --------------------------------------------------------------------- -/

def isAsciiAlpha (c : Char) : Bool :=
  ('a' ≤ c && c ≤ 'z') || ('A' ≤ c && c ≤ 'Z')

def isAsciiDigit (c : Char) : Bool := '0' ≤ c && c ≤ '9'

/-- The characters CPython allows in a URL scheme. -/
def isSchemeChar (c : Char) : Bool :=
  isAsciiAlpha c || isAsciiDigit c || c = '+' || c = '-' || c = '.'

/-- Split at the first occurrence of `d`: `some (before, after)`. -/
def splitAtFirst (d : Char) : Str → Option (Str × Str)
  | [] => none
  | c :: r =>
      if c = d then some ([], r)
      else (splitAtFirst d r).map (fun p => (c :: p.1, p.2))

/-- `partition(d)[0]`. -/
def takeUntilChar (d : Char) : Str → Str
  | [] => []
  | c :: r => if c = d then [] else c :: takeUntilChar d r

/-- `partition(d)[2]` (empty when `d` is absent). -/
def afterFirstChar (d : Char) : Str → Str
  | [] => []
  | c :: r => if c = d then r else afterFirstChar d r

/-- `rpartition('@')[0]`. -/
def beforeLastAt (s : Str) : Str :=
  ((s.reverse.dropWhile (fun c => decide (c ≠ '@'))).drop 1).reverse

/-- `rpartition('@')[2]` (the whole string when `'@'` is absent). -/
def afterLastAt (s : Str) : Str :=
  (s.reverse.takeWhile (fun c => decide (c ≠ '@'))).reverse

/-- CPython `urlsplit` sanitization: strip C0-control-or-space at both
ends, then drop every tab, CR and LF. -/
def urlSanitize (u : Str) : Str :=
  (((u.dropWhile (fun c => decide (c.toNat ≤ 32))).reverse.dropWhile
      (fun c => decide (c.toNat ≤ 32))).reverse).filter
    (fun c => !(c = Char.ofNat 9 || c = Char.ofNat 13 || c = Char.ofNat 10))

/-- `some (scheme.lower(), rest)` when the URL carries a valid scheme
delimiter, per CPython `urlsplit`. -/
def splitScheme (u : Str) : Option (Str × Str) :=
  match splitAtFirst ':' u with
  | none => none
  | some (before, after) =>
      match before with
      | [] => none
      | b0 :: _ =>
          if isAsciiAlpha b0 && before.all isSchemeChar then
            some (lowerStr before, after)
          else none

/-- The netloc: the text after `//` up to the next `/`, `?` or `#`. -/
def takeNetloc : Str → Str
  | [] => []
  | c :: r =>
      if c = '/' || c = '?' || c = '#' then [] else c :: takeNetloc r

structure UrlParts where
  scheme : Str
  netloc : Str
deriving DecidableEq, Repr

def urlparse (u0 : Str) : UrlParts :=
  match splitScheme (urlSanitize u0) with
  | some (sch, rest) =>
      ⟨sch, if strHasPre (str "//") rest then takeNetloc (rest.drop 2)
        else []⟩
  | none =>
      ⟨[], if strHasPre (str "//") (urlSanitize u0) then
        takeNetloc ((urlSanitize u0).drop 2) else []⟩

/-- `SplitResult.username` (read off the netloc). -/
def pUsername (netloc : Str) : Option Str :=
  if ('@' : Char) ∈ netloc then some (takeUntilChar ':' (beforeLastAt netloc))
  else none

/-- `SplitResult.password`. -/
def pPassword (netloc : Str) : Option Str :=
  if ('@' : Char) ∈ netloc then
    (match splitAtFirst ':' (beforeLastAt netloc) with
     | some p => some p.2
     | none => none)
  else none

/-- `SplitResult.hostname`, with `""` standing for CPython `None`. -/
def pHost (netloc : Str) : Str :=
  if ('[' : Char) ∈ afterLastAt netloc then
    lowerStr (takeUntilChar ']' (afterFirstChar '[' (afterLastAt netloc)))
  else lowerStr (takeUntilChar ':' (afterLastAt netloc))

def pyTruthyS : Option Str → Bool
  | none => false
  | some s => decide (s ≠ [])

def noAtWs (s : Str) : Bool :=
  s.all (fun c => decide (c ≠ '@') && !(isPySpace c))

/-- `re.match(r"^[^@\s]+@[^@\s]+\.[^@\s]+$", u)` is not `None`. -/
def emailLike (u : Str) : Bool :=
  match splitAtFirst '@' u with
  | none => false
  | some (a, b) =>
      decide (a ≠ []) && noAtWs a && noAtWs b &&
        decide (('.' : Char) ∈ (b.drop 1).dropLast)

/-- The final scheme/netloc/credential checks of `normalize_url`. -/
def nuCheck (u2 : Str) : Option Str :=
  if ¬ ((urlparse u2).scheme = str "http" ∨
      (urlparse u2).scheme = str "https") then none
  else if (urlparse u2).netloc = [] then none
  else if pyTruthyS (pUsername (urlparse u2).netloc) = true ∨
      pyTruthyS (pPassword (urlparse u2).netloc) = true ∨
      ('@' : Char) ∈ (urlparse u2).netloc then none
  else some u2

def normalize_url (u0 : Str) : Option Str :=
  if u0 = [] then none
  else if strHasPre (str "mailto:") (lowerStr (pyStrip u0)) then none
  else if ('@' : Char) ∈ pyStrip u0 ∧
      isSubstr (str "://") (pyStrip u0) = false ∧
      emailLike (pyStrip u0) = true then none
  else
    nuCheck
      (if (urlparse (pyStrip u0)).scheme = [] then
        str "https://" ++ stripCharBoth '/' (pyStrip u0)
      else pyStrip u0)

def normalize_url_opt : Option Str → Option Str
  | none => none
  | some u => normalize_url u

def optOrEmpty : Option Str → Str
  | none => []
  | some s => s

/- ---------------------------------------------------------------------
   `_norm_name` and `overpass_lookup_website_by_name`
   --------------------------------------------------------------------- -/

def LEGAL_SUFFIXES : List Str :=
  [str "ag", str "gmbh", str "sa", str "sarl", str "sàrl", str "llc",
   str "ltd", str "limited", str "inc", str "corp", str "s.p.a",
   str "spa", str "bv", str "nv", str "kg", str "ohg", str "ug",
   str "gbr", str "kft", str "sro", str "s.r.o", str "oy", str "ab",
   str "as", str "aps"]

/-- The character class of `_norm_name`'s `re.sub`; `\\-_` is a range
from `0x5C` to `0x5F`, so `-` itself is not a member. -/
def isNormPunct (c : Char) : Bool :=
  c = Char.ofNat 0x2019 || c = '\'' || c = Char.ofNat 0x60 || c = '"' ||
  c = '.' || c = ',' || c = ':' || c = ';' || c = '(' || c = ')' ||
  (Char.ofNat 0x5C ≤ c && c ≤ Char.ofNat 0x5F) || c = '/'

/-- Python `str.split()` (whitespace runs, empties discarded). -/
def splitWSAux : Str → Str → List Str
  | [], acc => if acc = [] then [] else [acc.reverse]
  | c :: rest, acc =>
      if isPySpace c then
        (if acc = [] then splitWSAux rest []
         else acc.reverse :: splitWSAux rest [])
      else splitWSAux rest (c :: acc)

def splitWS (s : Str) : List Str := splitWSAux s []

def joinSpace : List Str → Str
  | [] => []
  | [x] => x
  | x :: y :: r => x ++ ' ' :: joinSpace (y :: r)

/-- `_norm_name` (`.lower()` modelled on its ASCII action). -/
def norm_name (s : Str) : Str :=
  joinSpace
    (((lowerStr (pyStrip s)).map
        (fun c => if isNormPunct c then ' ' else c)
      |> splitWS).filter (fun p => decide (p ∉ LEGAL_SUFFIXES)))

/-- `len(set(a.split()) & set(b.split()))`. -/
def sharedTokenCount (a b : Str) : ℕ :=
  ((splitWS a).dedup.filter (fun t => decide (t ∈ splitWS b))).length

/-- `x or y` on optional strings (`None` and `""` are falsy). -/
def pyOrS : Option Str → Option Str → Option Str
  | some s, b => if s = [] then b else some s
  | none, b => b

structure Tags3 where
  website : Option Str
  contactWebsite : Option Str
  url : Option Str
deriving DecidableEq, Repr

def tags3W (t : Tags3) : Option Str :=
  pyOrS (pyOrS t.website t.contactWebsite) t.url

/-- An Overpass element as the name lookup reads it: its name tag, its
website tags, and the value `_haversine_km` computes for it (float
arithmetic abstracted to an exact rational). -/
structure OElem where
  tagName : Option Str
  tags : Tags3
  dist : ℚ
deriving DecidableEq

/-- The score the lookup assigns to an element whose website chain
produced the (truthy) string `w`. -/
def scoreElem (n : Str) (etld1 : Str → Str) (el : OElem) (w : Str) : ℚ :=
  (if norm_name (pyStrip (optOrEmpty el.tagName)) = n then (50 : ℚ)
   else if n ≠ [] ∧
       isSubstr n (norm_name (pyStrip (optOrEmpty el.tagName))) = true then
     (30 : ℚ)
   else (6 : ℚ) *
     (sharedTokenCount n (norm_name (pyStrip (optOrEmpty el.tagName))) : ℚ)) +
  max (0 : ℚ) ((20 : ℚ) - el.dist) +
  (if etld1 (optOrEmpty (normalize_url w)) ≠ [] then (5 : ℚ) else (0 : ℚ))

/-- The `best`/`best_score` accumulation loop. -/
def lookupLoop (n : Str) (etld1 : Str → Str) :
    List OElem → Option Str → ℚ → Option Str × ℚ
  | [], best, bestScore => (best, bestScore)
  | el :: rest, best, bestScore =>
      match tags3W el.tags with
      | none => lookupLoop n etld1 rest best bestScore
      | some w =>
          if w = [] then lookupLoop n etld1 rest best bestScore
          else if bestScore < scoreElem n etld1 el w then
            lookupLoop n etld1 rest (some w) (scoreElem n etld1 el w)
          else lookupLoop n etld1 rest best bestScore

def overpass_lookup_website_by_name (enabled : Bool) (name : Str)
    (js : Option (List OElem)) (etld1 : Str → Str) : Option Str :=
  if ¬ enabled then none
  else if name = [] then none
  else if norm_name name = [] then none
  else match js with
  | none => none
  | some els =>
      match (lookupLoop (norm_name name) etld1 els none
          (-(1000000000 : ℚ))).1 with
      | some best => if best = [] then none else normalize_url best
      | none => none

/-- Spec-side: the websites the elements declare, with their scores. -/
def scoredElems (n : Str) (etld1 : Str → Str) (els : List OElem) :
    List (Str × ℚ) :=
  els.filterMap (fun el =>
    match tags3W el.tags with
    | none => none
    | some w =>
        if w = [] then none else some (w, scoreElem n etld1 el w))

/-- Spec-side: the first-seen highest scorer (the first entry whose
score is at least every later score). -/
def specSelect : List (Str × ℚ) → Option Str
  | [] => none
  | p :: rest =>
      if rest.all (fun q => decide (q.2 ≤ p.2)) then some p.1
      else specSelect rest

/- ---------------------------------------------------------------------
   The other resolver strategies and `resolve_website` (network
   responses appear as explicit data)
   --------------------------------------------------------------------- -/

/-- `for cl in claims["P856"]: w = normalize_url(dv); if w: return w`. -/
def wdLoop : List Str → Option Str
  | [] => none
  | dv :: rest =>
      match normalize_url dv with
      | some w => some w
      | none => wdLoop rest

/-- `wikidata_website_from_qid`; `resp` is the P856 datavalue strings of
a 200 response (`none`: non-200 or a raised exception). -/
def wikidata_website_from_qid (qid : Str) (resp : Option (List Str)) :
    Option Str :=
  if qid = [] ∨ strHasPre (str "Q") qid = false then none
  else match resp with
  | none => none
  | some dvs => wdLoop dvs

def nomLoop : List Tags3 → Option Str
  | [] => none
  | it :: rest =>
      match normalize_url_opt (tags3W it) with
      | some w => some w
      | none => nomLoop rest

/-- `nominatim_lookup_website`; `resp` is the per-item extratags of a
200 response. -/
def nominatim_lookup_website (name : Str) (resp : Option (List Tags3)) :
    Option Str :=
  if name = [] then none
  else match resp with
  | none => none
  | some items => nomLoop items

/-- The first Foursquare search result, with the optional detail call. -/
structure FsqFirst where
  website : Option Str
  fsqId : Option Str
  detailW : Option (Option Str)
deriving DecidableEq, Repr

def fsqTail (f : FsqFirst) : Option Str :=
  match f.fsqId with
  | none => none
  | some fid =>
      if fid = [] then none
      else match f.detailW with
      | none => none
      | some wq =>
          match wq with
          | none => none
          | some w => if w = [] then none else normalize_url w

/-- `fsq_find_website`; `resp = none`: non-200 or exception,
`some none`: 200 with empty results. -/
def fsq_find_website (hasKey : Bool) (resp : Option (Option FsqFirst)) :
    Option Str :=
  if ¬ hasKey then none
  else match resp with
  | none => none
  | some none => none
  | some (some f) =>
      match f.website with
      | some website =>
          if website = [] then fsqTail f else normalize_url website
      | none => fsqTail f

/-- The external data `resolve_website` consults: the direct hint, the
knowledge-graph id and each backend's response, plus the `tldextract`
oracle. -/
structure ResolveEnv where
  direct : Option Str
  qid : Option Str
  wdResp : Option (List Str)
  nomResp : Option (List Tags3)
  ovEnabled : Bool
  ovJs : Option (List OElem)
  etld1 : Str → Str
  fsqKey : Bool
  fsqResp : Option (Option FsqFirst)

def resolve_website (name : Str) (env : ResolveEnv) : Option Str :=
  match normalize_url_opt env.direct with
  | some w => some w
  | none =>
  match wikidata_website_from_qid (optOrEmpty env.qid) env.wdResp with
  | some w => some w
  | none =>
  match nominatim_lookup_website name env.nomResp with
  | some w => some w
  | none =>
  match overpass_lookup_website_by_name env.ovEnabled name env.ovJs
      env.etld1 with
  | some w => some w
  | none => normalize_url_opt (fsq_find_website env.fsqKey env.fsqResp)

/- ---------------------------------------------------------------------
   JSON values and the acquisition functions (`_overpass_post`,
   `overpass_local_businesses`, `nominatim_poi_candidates`)
   --------------------------------------------------------------------- -/

/-- A parsed JSON body (numbers as exact rationals; objects taken
duplicate-key-free as Python `json.loads` collapses them). -/
inductive JVal where
  | jnull : JVal
  | jbool : Bool → JVal
  | jnum : ℚ → JVal
  | jstr : Str → JVal
  | jarr : List JVal → JVal
  | jobj : List (Str × JVal) → JVal

def isJNull : JVal → Bool
  | .jnull => true
  | _ => false

def isJObj : JVal → Bool
  | .jobj _ => true
  | _ => false

def isJStr : JVal → Bool
  | .jstr _ => true
  | _ => false

def jTruthy : JVal → Bool
  | .jnull => false
  | .jbool b => b
  | .jnum q => decide (q ≠ 0)
  | .jstr s => !s.isEmpty
  | .jarr xs => !xs.isEmpty
  | .jobj kvs => !kvs.isEmpty

def jFind (kvs : List (Str × JVal)) (k : Str) : Option JVal :=
  match kvs.find? (fun p => decide (p.1 = k)) with
  | some p => some p.2
  | none => none

/-- Python `j.get(k, d)`: raises unless `j` is a dict. -/
def jGetD (j : JVal) (k : Str) (d : JVal) : Except Unit JVal :=
  match j with
  | .jobj kvs => .ok ((jFind kvs k).getD d)
  | _ => .error ()

/-- Total variant of the lookup (for the well-typedness predicates). -/
def jGetTot (j : JVal) (k : Str) (d : JVal) : JVal :=
  match j with
  | .jobj kvs => (jFind kvs k).getD d
  | _ => d

def pyOrJ (a b : JVal) : JVal := if jTruthy a then a else b

/-- A Python string method on a JSON value: raises off strings. -/
def asStr : JVal → Except Unit Str
  | .jstr s => .ok s
  | _ => .error ()

/-- `(v or "").strip()`. -/
def asStripped (v : JVal) : Except Unit Str :=
  match pyOrJ v (.jstr []) with
  | .jstr s => .ok (pyStrip s)
  | _ => .error ()

/-- `(v or "").lower()`. -/
def asLowered (v : JVal) : Except Unit Str :=
  match pyOrJ v (.jstr []) with
  | .jstr s => .ok (lowerStr s)
  | _ => .error ()

/-- `for el in x`: the element list when iteration is possible and the
first element does not blow up `el.get`; empty iterables pass. -/
def jIterForGet : JVal → Except Unit (List JVal)
  | .jarr xs => .ok xs
  | .jobj [] => .ok []
  | .jstr [] => .ok []
  | _ => .error ()

/-- One HTTP attempt as `_overpass_post` sees it: a raised exception, or
a status with the parsed body (`none`: `r.json()` raised). -/
inductive HResp where
  | err : HResp
  | resp : ℕ → Option JVal → HResp

/-- `_overpass_post` over the flattened endpoint × retry attempts. -/
def overpass_post : List HResp → Option JVal
  | [] => none
  | .err :: rest => overpass_post rest
  | .resp st body :: rest =>
      if st = 200 then
        match body with
        | some j => some j
        | none => overpass_post rest
      else overpass_post rest

structure Row where
  business_name : Str
  website : Option Str
  wikidata : JVal
  lat : JVal
  lon : JVal

/-- One element of the Overpass rows loop: `none` = `continue`. -/
def ovRow (el : JVal) : Except Unit (Option Row) := do
  let t0 ← jGetD el (str "tags") (.jobj [])
  let t1 := pyOrJ t0 (.jobj [])
  let nmv ← jGetD t1 (str "name") .jnull
  let nm ← asStripped nmv
  if nm = [] then return none
  else do
    let wv1 ← jGetD t1 (str "website") .jnull
    let wv2 ← jGetD t1 (str "contact:website") .jnull
    let wv3 ← jGetD t1 (str "url") .jnull
    let wd ← jGetD t1 (str "wikidata") .jnull
    let la0 ← jGetD el (str "lat") .jnull
    let lo0 ← jGetD el (str "lon") .jnull
    let ce ← jGetD el (str "center") .jnull
    let ll ←
      if (isJNull la0 || isJNull lo0) && isJObj ce then do
        let cla ← jGetD ce (str "lat") .jnull
        let clo ← jGetD ce (str "lon") .jnull
        Except.ok (cla, clo)
      else Except.ok (la0, lo0)
    let w ←
      if jTruthy (pyOrJ (pyOrJ wv1 wv2) wv3) then do
        let s ← asStr (pyOrJ (pyOrJ wv1 wv2) wv3)
        Except.ok (normalize_url s)
      else Except.ok (none : Option Str)
    return some ⟨nm, w, wd, ll.1, ll.2⟩

def ovRowsLoop : List JVal → Except Unit (List Row)
  | [] => .ok []
  | el :: rest => do
      let r ← ovRow el
      let rs ← ovRowsLoop rest
      match r with
      | some row => .ok (row :: rs)
      | none => .ok rs

def rowKey (etld1 : Str → Str) (r : Row) : Str × Str :=
  (lowerStr r.business_name, etld1 (optOrEmpty r.website))

def dedupRowsAux (etld1 : Str → Str) :
    List Row → List (Str × Str) → List Row
  | [], _ => []
  | r :: rest, ks =>
      if rowKey etld1 r ∈ ks then dedupRowsAux etld1 rest ks
      else r :: dedupRowsAux etld1 rest (rowKey etld1 r :: ks)

def overpass_local_businesses (enabled : Bool) (attempts : List HResp)
    (etld1 : Str → Str) (shuffle : List Row → List Row) :
    Except Unit (List Row) :=
  if ¬ enabled then .ok []
  else match overpass_post attempts with
  | none => .ok []
  | some js =>
      if jTruthy js = false then .ok []
      else do
        let elements ← jGetD js (str "elements") (.jarr [])
        let els ← jIterForGet elements
        let rows ← ovRowsLoop els
        .ok (shuffle (dedupRowsAux etld1 rows []))

/-- `_guess_name_from_nominatim`. -/
def guessName (it : JVal) : Except Unit Str := do
  let nd0 ← jGetD it (str "namedetails") .jnull
  let nd := pyOrJ nd0 (.jobj [])
  let a ← jGetD nd (str "name") .jnull
  let b ← jGetD it (str "name") .jnull
  let nm0 ← asStripped (pyOrJ a b)
  if nm0 ≠ [] then return nm0
  else do
    let dnv ← jGetD it (str "display_name") .jnull
    let dn ← asStripped dnv
    if dn ≠ [] ∧ (',' : Char) ∈ dn then return pyStrip (takeUntilChar ',' dn)
    else return dn

structure NRow where
  business_name : Str
  website : Option Str
  wikidata : JVal
  lat : Option ℚ
  lon : Option ℚ

/-- The dedup key of `nominatim_poi_candidates` (`inr`: the
`f"{lat2},{lon2}"` fallback, formatting injectivity assumed). -/
abbrev NKeyT := Str × (Str ⊕ (Option ℚ × Option ℚ))

def keyMem (k : NKeyT) : List NKeyT → Bool
  | [] => false
  | x :: r => if k = x then true else keyMem k r

/-- One item of the POI loop: `none` = filtered out (`continue`). -/
def nomItem (etld1 : Str → Str) (pyFloat : JVal → Option ℚ) (it : JVal) :
    Except Unit (Option (NRow × NKeyT)) := do
  let g ← guessName it
  let nm := pyStrip g
  if nm = [] then return none
  else do
    let kv ← jGetD it (str "class") .jnull
    let klass ← asLowered kv
    let tv ← jGetD it (str "type") .jnull
    let typ ← asLowered tv
    if klass ≠ [] ∧ klass ∉ [str "office", str "shop", str "amenity",
        str "tourism", str "leisure", str "craft"] then return none
    else if typ ∈ [str "house", str "residential", str "road", str "yes",
        str "city", str "town", str "village", str "suburb",
        str "neighbourhood"] then return none
    else do
      let xt0 ← jGetD it (str "extratags") .jnull
      let xt := pyOrJ xt0 (.jobj [])
      let wv1 ← jGetD xt (str "website") .jnull
      let wv2 ← jGetD xt (str "contact:website") .jnull
      let wv3 ← jGetD xt (str "url") .jnull
      let wv := pyOrJ (pyOrJ wv1 wv2) wv3
      let lav ← jGetD it (str "lat") .jnull
      let lov ← jGetD it (str "lon") .jnull
      let ll :=
        match (if isJNull lav then some none else (pyFloat lav).map some),
            (if isJNull lov then some none else (pyFloat lov).map some) with
        | some a, some bq => (a, bq)
        | _, _ => (none, none)
      let w ←
        if jTruthy wv then do
          let s ← asStr wv
          Except.ok (normalize_url s)
        else Except.ok (none : Option Str)
      let wd ← jGetD xt (str "wikidata") .jnull
      return some (⟨nm, w, wd, ll.1, ll.2⟩,
        (lowerStr nm,
         if etld1 (optOrEmpty w) ≠ [] then Sum.inl (etld1 (optOrEmpty w))
         else Sum.inr ll))

def nomItemsLoop (etld1 : Str → Str) (pyFloat : JVal → Option ℚ) :
    List JVal → List NKeyT → List NRow →
    Except Unit (List NKeyT × List NRow)
  | [], sk, acc => .ok (sk, acc)
  | it :: rest, sk, acc => do
      let r ← nomItem etld1 pyFloat it
      match r with
      | none => nomItemsLoop etld1 pyFloat rest sk acc
      | some rk =>
          if keyMem rk.2 sk then nomItemsLoop etld1 pyFloat rest sk acc
          else nomItemsLoop etld1 pyFloat rest (rk.2 :: sk) (acc ++ [rk.1])

def nomQueriesLoop (etld1 : Str → Str) (pyFloat : JVal → Option ℚ) :
    List (Option JVal) → List NKeyT → List NRow →
    Except Unit (List NKeyT × List NRow)
  | [], sk, acc => .ok (sk, acc)
  | none :: rest, sk, acc => nomQueriesLoop etld1 pyFloat rest sk acc
  | some j :: rest, sk, acc => do
      let its ← jIterForGet (if jTruthy j then j else .jarr [])
      let r ← nomItemsLoop etld1 pyFloat its sk acc
      nomQueriesLoop etld1 pyFloat rest r.1 r.2

def nominatim_poi_candidates (enabled : Bool)
    (qresps : List (Option JVal)) (etld1 : Str → Str)
    (pyFloat : JVal → Option ℚ) (shuffle : List NRow → List NRow) :
    Except Unit (List NRow) :=
  if ¬ enabled then .ok []
  else do
    let r ← nomQueriesLoop etld1 pyFloat qresps [] []
    .ok (shuffle r.2)

def exOk {α : Type} : Except Unit α → Bool
  | .ok _ => true
  | .error _ => false

/- well-typedness of response bodies (spec-side sufficient condition) -/

def wtStrable (v : JVal) : Bool := !jTruthy v || isJStr v

def wtOvEl (el : JVal) : Bool :=
  isJObj el &&
  (isJObj (pyOrJ (jGetTot el (str "tags") (.jobj [])) (.jobj [])) &&
   (wtStrable (jGetTot
      (pyOrJ (jGetTot el (str "tags") (.jobj [])) (.jobj []))
      (str "name") .jnull) &&
    wtStrable (pyOrJ (pyOrJ
      (jGetTot (pyOrJ (jGetTot el (str "tags") (.jobj [])) (.jobj []))
        (str "website") .jnull)
      (jGetTot (pyOrJ (jGetTot el (str "tags") (.jobj [])) (.jobj []))
        (str "contact:website") .jnull))
      (jGetTot (pyOrJ (jGetTot el (str "tags") (.jobj [])) (.jobj []))
        (str "url") .jnull))))

def wtOverpassBody (js : JVal) : Bool :=
  !jTruthy js ||
  (isJObj js &&
   (match jGetTot js (str "elements") (.jarr []) with
    | .jarr els => els.all wtOvEl
    | .jobj [] => true
    | .jstr [] => true
    | _ => false))

def wtNomIt (it : JVal) : Bool :=
  isJObj it &&
  (isJObj (pyOrJ (jGetTot it (str "namedetails") .jnull) (.jobj [])) &&
   wtStrable (jGetTot
     (pyOrJ (jGetTot it (str "namedetails") .jnull) (.jobj []))
     (str "name") .jnull)) &&
  wtStrable (jGetTot it (str "name") .jnull) &&
  wtStrable (jGetTot it (str "display_name") .jnull) &&
  wtStrable (jGetTot it (str "class") .jnull) &&
  wtStrable (jGetTot it (str "type") .jnull) &&
  (isJObj (pyOrJ (jGetTot it (str "extratags") .jnull) (.jobj [])) &&
   wtStrable (pyOrJ (pyOrJ
     (jGetTot (pyOrJ (jGetTot it (str "extratags") .jnull) (.jobj []))
       (str "website") .jnull)
     (jGetTot (pyOrJ (jGetTot it (str "extratags") .jnull) (.jobj []))
       (str "contact:website") .jnull))
     (jGetTot (pyOrJ (jGetTot it (str "extratags") .jnull) (.jobj []))
       (str "url") .jnull)))

def wtNomBody (j : JVal) : Bool :=
  match (if jTruthy j then j else .jarr []) with
  | .jarr its => its.all wtNomIt
  | .jobj [] => true
  | .jstr [] => true
  | _ => false

/- ---------------------------------------------------------------------
   The filter gate of `main` and the SeenSet store
   --------------------------------------------------------------------- -/

def utf8Len (s : Str) : ℕ := (s.map Char.utf8Size).sum

/-- Occurrences of `pat` at each position; equal to Python `str.count`
for patterns that cannot overlap themselves, such as `"<script"`. -/
def countSub (pat : Str) : Str → ℕ
  | [] => 0
  | c :: rest =>
      (if strHasPre pat (c :: rest) then 1 else 0) + countSub pat rest

structure GateCfg where
  smallOnly : Bool
  maxKb : ℕ
  maxScripts : ℕ
deriving DecidableEq, Repr

def is_probably_small_site (cfg : GateCfg) (html : Str) : Bool :=
  if ¬ cfg.smallOnly then true
  else if html = [] then true
  else if cfg.maxKb * 1024 < utf8Len html then false
  else if cfg.maxScripts < countSub (str "<script") (lowerStr html) then
    false
  else true

/-- A candidate at the gate: its resolved website and what the network
interactions for it yield (the `contentLanguage` response header is
carried because the fetch returns it; the code reads only the body). -/
structure GCand where
  website : Option Str
  robotsOk : Bool
  fetchOk : Bool
  htmlText : Str
  contentLanguage : Option Str
deriving DecidableEq, Repr

inductive Outcome where
  | accepted
  | skipNoWebsite
  | skipDupe
  | skipRobots
  | skipFetch
  | skipBig
deriving DecidableEq, Repr

def seen_domain_write (domain : Str) (store : List Str) : List Str :=
  if domain = [] then store
  else store ++ [lowerStr (pyStrip domain)]

/-- One candidate through the gate of `main`: the outcome, the
in-memory seen set, and the durable store. -/
def processCandidate (cfg : GateCfg) (etld1 : Str → Str)
    (seen store : List Str) (c : GCand) : Outcome × List Str × List Str :=
  match c.website with
  | none => (.skipNoWebsite, seen, store)
  | some w =>
      if etld1 w ≠ [] ∧ etld1 w ∈ seen then (.skipDupe, seen, store)
      else if c.robotsOk = false then (.skipRobots, seen, store)
      else if c.fetchOk = false then (.skipFetch, seen, store)
      else if is_probably_small_site cfg c.htmlText = false then
        (.skipBig, seen, store)
      else (.accepted,
        (if etld1 w ≠ [] then etld1 w :: seen else seen),
        (if etld1 w ≠ [] then seen_domain_write (etld1 w) store
         else store))

def runGate (cfg : GateCfg) (etld1 : Str → Str) :
    List GCand → List Str → List Str →
    List Outcome × List Str × List Str
  | [], seen, store => ([], seen, store)
  | c :: rest, seen, store =>
      let r := processCandidate cfg etld1 seen store c
      let rr := runGate cfg etld1 rest r.2.1 r.2.2
      (r.1 :: rr.1, rr.2)

def dedupKeepFirst : List Str → List Str → List Str
  | [], _ => []
  | x :: r, ks =>
      if x ∈ ks then dedupKeepFirst r ks
      else x :: dedupKeepFirst r (x :: ks)

/-- `load_seen` over the store's lines. -/
def load_seen (store : List Str) : List Str :=
  dedupKeepFirst
    ((store.filter (fun l => decide (pyStrip l ≠ []))).map
      (fun l => lowerStr (pyStrip l))) []

def strLt : Str → Str → Bool
  | [], [] => false
  | [], _ :: _ => true
  | _ :: _, [] => false
  | a :: as, b :: bs =>
      if a < b then true else if b < a then false else strLt as bs

def insertSorted (x : Str) : List Str → List Str
  | [] => [x]
  | y :: r => if strLt x y then x :: y :: r else y :: insertSorted x r

def sortStrs (l : List Str) : List Str := l.foldr insertSorted []

/-- `save_seen`: opened with mode `"w"`, the store's previous lines are
discarded and the sorted in-memory set is written out. -/
def save_seen (seen : List Str) (_oldStore : List Str) : List Str :=
  sortStrs seen

/- =====================================================================
   THEOREMS
   ===================================================================== -/

/- ---- dropWhile / strip toolbox ---- -/

theorem dropWhile_append_ne {α} (p : α → Bool) {a : List α} (b : List α)
    (h : a.dropWhile p ≠ []) : (a ++ b).dropWhile p = a.dropWhile p ++ b := by
  rw [List.dropWhile_append]
  split
  · next hc => exact absurd (List.isEmpty_iff.mp hc) h
  · rfl

theorem dropWhile_append_nil {α} (p : α → Bool) {a : List α} (b : List α)
    (h : a.dropWhile p = []) : (a ++ b).dropWhile p = b.dropWhile p := by
  rw [List.dropWhile_append]
  split
  · rfl
  · next hc => exact absurd (by simp [h] : (a.dropWhile p).isEmpty = true) hc

theorem head_dropWhile_false {α} (p : α → Bool) :
    ∀ (l : List α) (c : α) (t : List α), l.dropWhile p = c :: t → p c = false := by
  intro l
  induction l with
  | nil => intro c t h; simp [List.dropWhile] at h
  | cons a as ih =>
      intro c t h
      rw [List.dropWhile_cons] at h
      by_cases hp : p a = true
      · rw [if_pos hp] at h; exact ih c t h
      · rw [if_neg hp] at h
        cases h
        simpa using hp

theorem pyRstrip_nil : pyRstrip [] = [] := rfl

theorem pyLstrip_nil : pyLstrip [] = [] := rfl

theorem pyStrip_nil : pyStrip [] = [] := rfl

theorem pyRstrip_append_ne {y : Str} (h : pyRstrip y ≠ []) (x : Str) :
    pyRstrip (x ++ y) = x ++ pyRstrip y := by
  have h2 : y.reverse.dropWhile isPySpace ≠ [] := by
    intro hc
    apply h
    unfold pyRstrip
    rw [hc]
    rfl
  unfold pyRstrip
  rw [List.reverse_append, dropWhile_append_ne _ _ h2, List.reverse_append,
    List.reverse_reverse]

theorem pyRstrip_append_nilr {y : Str} (h : pyRstrip y = []) (x : Str) :
    pyRstrip (x ++ y) = pyRstrip x := by
  have h2 : y.reverse.dropWhile isPySpace = [] := by
    have := congrArg List.reverse h
    rwa [pyRstrip, List.reverse_reverse, List.reverse_nil] at this
  unfold pyRstrip
  rw [List.reverse_append, dropWhile_append_nil _ _ h2]

theorem pyRstrip_eq_nil_iff {s : Str} :
    pyRstrip s = [] ↔ ∀ c ∈ s, isPySpace c := by
  unfold pyRstrip
  rw [List.reverse_eq_nil_iff, List.dropWhile_eq_nil_iff]
  constructor
  · intro h c hc; exact h c (List.mem_reverse.mpr hc)
  · intro h c hc; exact h c (List.mem_reverse.mp hc)

theorem pyLstrip_eq_nil_iff {s : Str} :
    pyLstrip s = [] ↔ ∀ c ∈ s, isPySpace c := by
  unfold pyLstrip
  rw [List.dropWhile_eq_nil_iff]

theorem pyStrip_eq_nil_of_rstrip {s : Str} (h : pyRstrip s = []) :
    pyStrip s = [] := by
  unfold pyStrip
  rw [h, pyLstrip_nil]

theorem pyRstrip_eq_nil_of_strip {s : Str} (h : pyStrip s = []) :
    pyRstrip s = [] := by
  cases hr : pyRstrip s with
  | nil => rfl
  | cons c t =>
      exfalso
      unfold pyStrip at h
      rw [hr] at h
      have hall : ∀ x ∈ c :: t, isPySpace x := pyLstrip_eq_nil_iff.mp h
      have h5 : s.reverse.dropWhile isPySpace = (c :: t).reverse := by
        have h4 : (s.reverse.dropWhile isPySpace).reverse = c :: t := hr
        rw [← h4, List.reverse_reverse]
      rcases hx : (c :: t).reverse with _ | ⟨d, u⟩
      · simp at hx
      · have hd : isPySpace d = false :=
          head_dropWhile_false isPySpace s.reverse d u (by rw [h5, hx])
        have hdm : d ∈ c :: t := List.mem_reverse.mp (by rw [hx]; exact List.mem_cons_self d u)
        have := hall d hdm
        simp_all

theorem pyStrip_eq_nil_iff {s : Str} :
    pyStrip s = [] ↔ ∀ c ∈ s, isPySpace c := by
  constructor
  · intro h
    exact pyRstrip_eq_nil_iff.mp (pyRstrip_eq_nil_of_strip h)
  · intro h
    exact pyStrip_eq_nil_of_rstrip (pyRstrip_eq_nil_iff.mpr h)

theorem pyLstrip_idem (s : Str) : pyLstrip (pyLstrip s) = pyLstrip s :=
  List.dropWhile_idempotent isPySpace s

theorem pyRstrip_idem (s : Str) : pyRstrip (pyRstrip s) = pyRstrip s := by
  unfold pyRstrip
  rw [List.reverse_reverse, List.dropWhile_idempotent]

theorem pyRstrip_singleton_space {c : Char} (h : isPySpace c = true) :
    pyRstrip [c] = [] := by
  unfold pyRstrip
  simp [List.dropWhile, h]

theorem pyRstrip_singleton_nonspace {c : Char} (h : isPySpace c = false) :
    pyRstrip [c] = [c] := by
  unfold pyRstrip
  simp [List.dropWhile, h]

theorem lstrip_rstrip_comm (s : Str) :
    pyLstrip (pyRstrip s) = pyRstrip (pyLstrip s) := by
  induction s using List.reverseRecOn with
  | nil => rfl
  | append_singleton t c ih =>
      by_cases hc : isPySpace c = true
      · rw [pyRstrip_append_nilr (pyRstrip_singleton_space hc)]
        cases hl : pyLstrip t with
        | nil =>
            have hlc : pyLstrip (t ++ [c]) = [] := by
              unfold pyLstrip at *
              rw [dropWhile_append_nil _ _ hl]
              simp [List.dropWhile, hc]
            rw [hlc, pyRstrip_nil]
            have : pyRstrip t = [] :=
              pyRstrip_eq_nil_iff.mpr (pyLstrip_eq_nil_iff.mp hl)
            rw [this, pyLstrip_nil]
        | cons d u =>
            have hlc : pyLstrip (t ++ [c]) = pyLstrip t ++ [c] := by
              unfold pyLstrip at *
              exact dropWhile_append_ne _ _ (by rw [hl]; simp)
            rw [hlc, pyRstrip_append_nilr (pyRstrip_singleton_space hc)]
            exact ih
      · have hc2 : isPySpace c = false := by simpa using hc
        rw [pyRstrip_append_ne (by rw [pyRstrip_singleton_nonspace hc2]; simp),
          pyRstrip_singleton_nonspace hc2]
        cases hl : pyLstrip t with
        | nil =>
            have hlc : pyLstrip (t ++ [c]) = [c] := by
              unfold pyLstrip at *
              rw [dropWhile_append_nil _ _ hl]
              simp [List.dropWhile, hc2]
            rw [hlc, pyRstrip_singleton_nonspace hc2]
        | cons d u =>
            have hne : pyLstrip t ≠ [] := by rw [hl]; simp
            have hlc : pyLstrip (t ++ [c]) = pyLstrip t ++ [c] := by
              unfold pyLstrip at *
              exact dropWhile_append_ne _ _ hne
            rw [hlc,
              pyRstrip_append_ne (by rw [pyRstrip_singleton_nonspace hc2]; simp),
              pyRstrip_singleton_nonspace hc2]

theorem pyStrip_idem (s : Str) : pyStrip (pyStrip s) = pyStrip s := by
  show pyLstrip (pyRstrip (pyLstrip (pyRstrip s))) = pyLstrip (pyRstrip s)
  rw [← lstrip_rstrip_comm (pyRstrip s), lstrip_rstrip_comm,
    lstrip_rstrip_comm, pyLstrip_idem, ← lstrip_rstrip_comm, pyRstrip_idem]

theorem pyStrip_append_spaces {y : Str} (h : pyRstrip y = []) (x : Str) :
    pyStrip (x ++ y) = pyStrip x := by
  unfold pyStrip
  rw [pyRstrip_append_nilr h]

theorem pyRstrip_two_spaces : pyRstrip (str "  ") = [] := by decide

theorem pyStrip_hard_pad (x : Str) : pyStrip (x ++ str "  ") = pyStrip x :=
  pyStrip_append_spaces pyRstrip_two_spaces x

theorem mem_of_mem_pyRstrip {c : Char} {s : Str} (h : c ∈ pyRstrip s) :
    c ∈ s := by
  unfold pyRstrip at h
  rw [List.mem_reverse] at h
  have := (List.dropWhile_sublist (l := s.reverse) (p := isPySpace)).mem h
  rwa [List.mem_reverse] at this

theorem mem_of_mem_pyStrip {c : Char} {s : Str} (h : c ∈ pyStrip s) :
    c ∈ s := by
  unfold pyStrip pyLstrip at h
  exact mem_of_mem_pyRstrip ((List.dropWhile_sublist _).mem h)

/- ---- splitlines / join toolbox ---- -/

theorem pySplitlinesAux_cons_nonbreak {c : Char} (h : isLineBreak c = false)
    (s : List Char) (acc : List Char) :
    pySplitlinesAux (c :: s) acc = pySplitlinesAux s (c :: acc) := by
  cases s with
  | nil => simp [pySplitlinesAux, h]
  | cons c2 rest =>
      have hc13 : ¬ (c = Char.ofNat 13 ∧ c2 = Char.ofNat 10) := by
        rintro ⟨h1, _⟩
        rw [h1] at h
        simp [isLineBreak] at h
      simp [pySplitlinesAux, hc13, h]

theorem pySplitlinesAux_cons_nl (s acc : List Char) :
    pySplitlinesAux (Char.ofNat 10 :: s) acc =
      acc.reverse :: pySplitlinesAux s [] := by
  cases s with
  | nil => simp [pySplitlinesAux, isLineBreak]
  | cons c2 rest =>
      have h13 : ¬ (Char.ofNat 10 = Char.ofNat 13 ∧ c2 = Char.ofNat 10) := by
        rintro ⟨h1, _⟩
        exact absurd h1 (by decide)
      simp [pySplitlinesAux, h13, isLineBreak]

theorem joinNl_nil : joinNl [] = [] := rfl

theorem joinNl_cons2 (x y : Str) (r : List Str) :
    joinNl (x :: y :: r) = x ++ Char.ofNat 10 :: joinNl (y :: r) := rfl

theorem joinNl_append {A B : List Str} (hA : A ≠ []) (hB : B ≠ []) :
    joinNl (A ++ B) = joinNl A ++ Char.ofNat 10 :: joinNl B := by
  induction A with
  | nil => exact absurd rfl hA
  | cons a A' ih =>
      cases A' with
      | nil =>
          cases B with
          | nil => exact absurd rfl hB
          | cons b B' => rfl
      | cons a2 A'' =>
          have h2 : joinNl ((a2 :: A'') ++ B) =
              joinNl (a2 :: A'') ++ Char.ofNat 10 :: joinNl B :=
            ih (by simp)
          rw [List.cons_append] at h2
          show joinNl (a :: ((a2 :: A'') ++ B)) = _
          rw [List.cons_append, joinNl_cons2, h2, joinNl_cons2]
          simp

theorem mem_joinNl {ch : Char} :
    ∀ {L : List Str}, ch ∈ joinNl L → ch = Char.ofNat 10 ∨ ∃ l ∈ L, ch ∈ l := by
  intro L
  induction L with
  | nil => intro h; simp [joinNl] at h
  | cons m L' ih =>
      intro h
      cases L' with
      | nil =>
          right
          exact ⟨m, by simp, h⟩
      | cons m2 L'' =>
          rw [joinNl_cons2] at h
          rcases List.mem_append.mp h with h1 | h1
          · right; exact ⟨m, by simp, h1⟩
          · rcases List.mem_cons.mp h1 with h2 | h2
            · left; exact h2
            · rcases ih h2 with h3 | ⟨l, hl, hcl⟩
              · left; exact h3
              · right; exact ⟨l, by simp [hl], hcl⟩

theorem pySplitlinesAux_line {l : Str} (hl : lineFree l) :
    ∀ (rest acc : List Char),
      pySplitlinesAux (l ++ Char.ofNat 10 :: rest) acc =
        (acc.reverse ++ l) :: pySplitlinesAux rest [] := by
  induction l with
  | nil =>
      intro rest acc
      simpa using pySplitlinesAux_cons_nl rest acc
  | cons c t ih =>
      intro rest acc
      have hc : isLineBreak c = false := hl c (List.mem_cons_self c t)
      rw [List.cons_append, pySplitlinesAux_cons_nonbreak hc,
        ih (fun ch hch => hl ch (List.mem_cons_of_mem _ hch)) rest (c :: acc)]
      simp

theorem pySplitlines_join {M : List Str} (hM : M ≠ [])
    (hF : ∀ l ∈ M, lineFree l) :
    pySplitlines (joinNl M ++ [Char.ofNat 10]) = M := by
  induction M with
  | nil => exact absurd rfl hM
  | cons m M' ih =>
      cases M' with
      | nil =>
          show pySplitlinesAux (joinNl [m] ++ [Char.ofNat 10]) [] = [m]
          have h1 := pySplitlinesAux_line (hF m (by simp)) [] []
          simpa [joinNl] using h1
      | cons m2 M'' =>
          show pySplitlinesAux (joinNl (m :: m2 :: M'') ++ [Char.ofNat 10]) [] = _
          rw [joinNl_cons2, List.append_assoc, List.cons_append]
          rw [pySplitlinesAux_line (hF m (by simp)) _ []]
          have h2 := ih (by simp) (fun l hl => hF l (List.mem_cons_of_mem _ hl))
          simp only [List.reverse_nil, List.nil_append]
          rw [show pySplitlinesAux (joinNl (m2 :: M'') ++ [Char.ofNat 10]) [] =
              pySplitlines (joinNl (m2 :: M'') ++ [Char.ofNat 10]) from rfl, h2]

theorem pyRstripNl_append_nl (s : Str) :
    pyRstripNl (s ++ [Char.ofNat 10]) = pyRstripNl s := by
  unfold pyRstripNl
  rw [List.reverse_append]
  simp [List.dropWhile]

theorem pyRstripNl_append_free {x : Str} (hx : x ≠ [])
    (hnl : Char.ofNat 10 ∉ x) (s : Str) : pyRstripNl (s ++ x) = s ++ x := by
  unfold pyRstripNl
  rw [List.reverse_append]
  rcases hx2 : x.reverse with _ | ⟨d, u⟩
  · exact absurd (by simpa using congrArg List.reverse hx2) hx
  · have hd : d ∈ x := by
      rw [← List.mem_reverse, hx2]
      exact List.mem_cons_self d u
    have hdnl : (d = Char.ofNat 10) = False := by
      simp only [eq_iff_iff, iff_false]
      intro hcon
      exact hnl (hcon ▸ hd)
    rw [List.cons_append, List.dropWhile_cons]
    simp only [decide_eq_true_eq, hdnl]
    rw [if_neg (by simp)]
    rw [← List.cons_append, ← hx2, List.reverse_append, List.reverse_reverse,
      List.reverse_reverse]

theorem mem_dropWhile_of_not {α} (p : α → Bool) {a : α} :
    ∀ {xs : List α}, a ∈ xs → p a = false → a ∈ xs.dropWhile p := by
  intro xs
  induction xs with
  | nil => intro h; simp at h
  | cons x t ih =>
      intro h hp
      rw [List.dropWhile_cons]
      by_cases hx : p x = true
      · rw [if_pos hx]
        rcases List.mem_cons.mp h with h1 | h1
        · rw [h1] at hp; rw [hp] at hx; cases hx
        · exact ih h1 hp
      · rw [if_neg hx]
        exact h

theorem dTE_nil : dropTrailingEmpties [] = [] := rfl

theorem dTE_append_ne {B : List Str} (h : dropTrailingEmpties B ≠ [])
    (A : List Str) :
    dropTrailingEmpties (A ++ B) = A ++ dropTrailingEmpties B := by
  have h2 : B.reverse.dropWhile List.isEmpty ≠ [] := by
    intro hc
    apply h
    unfold dropTrailingEmpties
    rw [hc]
    rfl
  unfold dropTrailingEmpties
  rw [List.reverse_append, dropWhile_append_ne _ _ h2, List.reverse_append,
    List.reverse_reverse]

theorem dTE_append_nil {B : List Str} (h : dropTrailingEmpties B = [])
    (A : List Str) :
    dropTrailingEmpties (A ++ B) = dropTrailingEmpties A := by
  have h2 : B.reverse.dropWhile List.isEmpty = [] := by
    have := congrArg List.reverse h
    rwa [dropTrailingEmpties, List.reverse_reverse, List.reverse_nil] at this
  unfold dropTrailingEmpties
  rw [List.reverse_append, dropWhile_append_nil _ _ h2]

theorem dTE_eq_nil_iff {L : List Str} :
    dropTrailingEmpties L = [] ↔ ∀ l ∈ L, l = [] := by
  unfold dropTrailingEmpties
  rw [List.reverse_eq_nil_iff, List.dropWhile_eq_nil_iff]
  constructor
  · intro h l hl
    exact List.isEmpty_iff.mp (h l (List.mem_reverse.mpr hl))
  · intro h l hl
    exact List.isEmpty_iff.mpr (h l (List.mem_reverse.mp hl))

theorem dTE_singleton_ne {x : Str} (hx : x ≠ []) :
    dropTrailingEmpties [x] = [x] := by
  unfold dropTrailingEmpties
  simp only [List.reverse_singleton, List.dropWhile]
  rw [show x.isEmpty = false by simp [List.isEmpty_iff, hx]]
  rfl

theorem dTE_append_singleton_ne {x : Str} (hx : x ≠ []) (A : List Str) :
    dropTrailingEmpties (A ++ [x]) = A ++ [x] := by
  rw [dTE_append_ne (by rw [dTE_singleton_ne hx]; simp) A, dTE_singleton_ne hx]

theorem dTE_cons_empty (R : List Str) :
    dropTrailingEmpties ([] :: R) =
      (if dropTrailingEmpties R = [] then []
       else [] :: dropTrailingEmpties R) := by
  split
  · next h =>
      rw [show ([] :: R : List Str) = [([] : Str)] ++ R from rfl,
        dTE_append_nil h]
      rfl
  · next h =>
      rw [show ([] :: R : List Str) = [([] : Str)] ++ R from rfl,
        dTE_append_ne h]
      rfl

theorem mem_dTE {l : Str} {L : List Str} (hl : l ∈ L) (hne : l ≠ []) :
    l ∈ dropTrailingEmpties L := by
  unfold dropTrailingEmpties
  rw [List.mem_reverse]
  exact mem_dropWhile_of_not _ (List.mem_reverse.mpr hl)
    (by simp [List.isEmpty_iff, hne])

theorem sublist_mem_dTE {l : Str} {L : List Str}
    (h : l ∈ dropTrailingEmpties L) : l ∈ L := by
  unfold dropTrailingEmpties at h
  rw [List.mem_reverse] at h
  have := (List.dropWhile_sublist (l := L.reverse) (p := List.isEmpty)).mem h
  rwa [List.mem_reverse] at this

/- ---- carriage-return / normalisation toolbox ---- -/

theorem pyReplaceCRLF_of_noCR :
    ∀ {s : Str}, Char.ofNat 13 ∉ s → pyReplaceCRLF s = s := by
  intro s
  induction s with
  | nil => intro _; rfl
  | cons c t ih =>
      intro h
      have hc : c ≠ Char.ofNat 13 := fun hcon => h (by rw [hcon]; simp)
      cases t with
      | nil => rfl
      | cons c2 u =>
          show pyReplaceCRLF (c :: c2 :: u) = _
          rw [pyReplaceCRLF]
          rw [if_neg (by rintro ⟨h1, _⟩; exact hc h1)]
          rw [ih (fun hm => h (List.mem_cons_of_mem _ hm))]

theorem pyReplaceCR_of_noCR {s : Str} (h : Char.ofNat 13 ∉ s) :
    pyReplaceCR s = s := by
  unfold pyReplaceCR
  induction s with
  | nil => rfl
  | cons c t ih =>
      rw [List.map_cons, if_neg (fun hcon => h (by rw [hcon]; simp)),
        ih (fun hm => h (List.mem_cons_of_mem _ hm))]

theorem pyNormNl_of_noCR {s : Str} (h : Char.ofNat 13 ∉ s) :
    pyNormNl s = s := by
  unfold pyNormNl
  rw [pyReplaceCRLF_of_noCR h, pyReplaceCR_of_noCR h]

theorem noCR_of_lineFree {l : Str} (h : lineFree l) : Char.ofNat 13 ∉ l := by
  intro hm
  have := h _ hm
  simp [isLineBreak] at this

theorem pySplitlinesAux_lineFree :
    ∀ (s acc : List Char), (∀ ch ∈ acc, isLineBreak ch = false) →
      ∀ l ∈ pySplitlinesAux s acc, lineFree l := by
  intro s acc
  induction s, acc using pySplitlinesAux.induct with
  | case1 acc he =>
      intro hacc l hl
      rw [pySplitlinesAux, if_pos he] at hl
      simp at hl
  | case2 acc he =>
      intro hacc l hl
      rw [pySplitlinesAux, if_neg he] at hl
      simp only [List.mem_singleton] at hl
      intro ch hch
      exact hacc ch (by rw [hl] at hch; simpa using hch)
  | case3 c acc hbr =>
      intro hacc l hl
      rw [pySplitlinesAux, if_pos hbr] at hl
      simp only [List.mem_singleton] at hl
      intro ch hch
      exact hacc ch (by rw [hl] at hch; simpa using hch)
  | case4 c acc hbr =>
      intro hacc l hl
      rw [pySplitlinesAux, if_neg hbr] at hl
      simp only [List.mem_singleton] at hl
      intro ch hch
      rw [hl] at hch
      simp only [List.mem_reverse, List.mem_cons] at hch
      rcases hch with h1 | h1
      · rw [h1]; simpa using hbr
      · exact hacc ch h1
  | case5 c c2 rest acc hcr ih =>
      intro hacc l hl
      rw [pySplitlinesAux, if_pos hcr] at hl
      rcases List.mem_cons.mp hl with h1 | h1
      · intro ch hch
        exact hacc ch (by rw [h1] at hch; simpa using hch)
      · exact ih (by intro ch hch; simp at hch) l h1
  | case6 c c2 rest acc hcr hbr ih =>
      intro hacc l hl
      rw [pySplitlinesAux, if_neg hcr, if_pos hbr] at hl
      rcases List.mem_cons.mp hl with h1 | h1
      · intro ch hch
        exact hacc ch (by rw [h1] at hch; simpa using hch)
      · exact ih (by intro ch hch; simp at hch) l h1
  | case7 c c2 rest acc hcr hbr ih =>
      intro hacc l hl
      rw [pySplitlinesAux, if_neg hcr, if_neg hbr] at hl
      refine ih ?_ l hl
      intro ch hch
      rcases List.mem_cons.mp hch with h1 | h1
      · rw [h1]; simpa using hbr
      · exact hacc ch h1

theorem pySplitlines_lineFree (s : Str) :
    ∀ l ∈ pySplitlines s, lineFree l :=
  pySplitlinesAux_lineFree s [] (by intro ch hch; simp at hch)

/- ---- label-line toolbox ---- -/

theorem ciPrefixRest_self (lab : Str) (r : Str) :
    ciPrefixRest lab (lab ++ r) = some r := by
  induction lab with
  | nil => rfl
  | cons a as ih => simp [ciPrefixRest, ih]

theorem pyRstrip_colon_pad (v : Str) : pyRstrip (str ": " ++ v) ≠ [] := by
  intro h
  have h2 := pyRstrip_eq_nil_iff.mp h ':' (by simp [str])
  simp [isPySpace] at h2

theorem hard_label_shape (lab v : Str) :
    hard (lab ++ str ": " ++ v) =
      lab ++ (pyRstrip (str ": " ++ v) ++ str "  ") := by
  unfold hard
  rw [List.append_assoc, pyRstrip_append_ne (pyRstrip_colon_pad v),
    List.append_assoc]

theorem labelGroup_of_ci {lab line r : Str}
    (h : ciPrefixRest lab (pyLstrip line) = some r) :
    labelGroup lab line = colonThenGroup r := by
  unfold labelGroup
  rw [h]

theorem colonThenGroup_pad (X : Str) :
    colonThenGroup (':' :: ' ' :: X) = some (X.dropWhile isPySpace) := by
  unfold colonThenGroup
  rw [List.dropWhile_cons]
  simp only [show isPySpace ':' = false by decide, Bool.false_eq_true,
    if_false]
  rw [List.dropWhile_cons]
  simp only [show isPySpace ' ' = true by decide, if_true, if_pos rfl]

theorem labelValue_hard_self {lab : Str} {c0 : Char} {labt : Str}
    (hlab : lab = c0 :: labt) (hc0 : isPySpace c0 = false) (v : Str) :
    ∃ g, labelGroup lab (hard (lab ++ str ": " ++ v)) = some g ∧
      pyStrip g = pyStrip v := by
  have hshape := hard_label_shape lab v
  have hlstrip : pyLstrip (hard (lab ++ str ": " ++ v)) =
      lab ++ (pyRstrip (str ": " ++ v) ++ str "  ") := by
    rw [hshape, hlab]
    unfold pyLstrip
    rw [List.cons_append, List.dropWhile_cons, hc0]
    simp
  by_cases hv : pyRstrip v = []
  · have hcolon : pyRstrip (str ": " ++ v) = [':'] := by
      have h1 : str ": " ++ v = [':'] ++ (str " " ++ v) := by simp [str]
      rw [h1, pyRstrip_append_nilr (y := str " " ++ v)
        (by
          rw [pyRstrip_append_nilr hv]
          exact pyRstrip_singleton_space (by decide))]
      exact pyRstrip_singleton_nonspace (by decide)
    refine ⟨[], ?_, ?_⟩
    · rw [labelGroup_of_ci (by rw [hlstrip]; exact ciPrefixRest_self lab _),
        hcolon]
      decide
    · rw [pyStrip_nil, pyStrip_eq_nil_of_rstrip hv]
  · have hcolon : pyRstrip (str ": " ++ v) = ':' :: ' ' :: pyRstrip v := by
      have h1 : str ": " ++ v = [':'] ++ ([' '] ++ v) := by simp [str]
      rw [h1, pyRstrip_append_ne (y := [' '] ++ v)
        (by rw [pyRstrip_append_ne hv]; simp),
        pyRstrip_append_ne hv]
      rfl
    refine ⟨pyLstrip (pyRstrip v ++ str "  "), ?_, ?_⟩
    · rw [labelGroup_of_ci (by rw [hlstrip]; exact ciPrefixRest_self lab _)]
      have hassoc : pyRstrip (str ": " ++ v) ++ str "  " =
          ':' :: ' ' :: (pyRstrip v ++ str "  ") := by
        rw [hcolon]
        rfl
      rw [hassoc, colonThenGroup_pad]
      rfl
    · have hstripne : pyStrip v ≠ [] := fun hcon => hv (pyRstrip_eq_nil_of_strip hcon)
      have h2 : pyLstrip (pyRstrip v ++ str "  ") = pyStrip v ++ str "  " := by
        unfold pyLstrip
        rw [dropWhile_append_ne _ _ (by exact hstripne)]
        rfl
      rw [h2, pyStrip_hard_pad, pyStrip_idem]

theorem labelGroup_hard_other {lab lab2 : Str} {c0 d0 : Char}
    {labt lab2t : Str} (hlab : lab = c0 :: labt) (hlab2 : lab2 = d0 :: lab2t)
    (hc0 : isPySpace c0 = false) (hne : asciiLower d0 ≠ asciiLower c0)
    (v : Str) : labelGroup lab2 (hard (lab ++ str ": " ++ v)) = none := by
  have hshape := hard_label_shape lab v
  have hlstrip : pyLstrip (hard (lab ++ str ": " ++ v)) =
      lab ++ (pyRstrip (str ": " ++ v) ++ str "  ") := by
    rw [hshape, hlab]
    unfold pyLstrip
    rw [List.cons_append, List.dropWhile_cons, hc0]
    simp
  unfold labelGroup
  rw [hlstrip, hlab, hlab2, List.cons_append]
  unfold ciPrefixRest
  rw [if_neg hne]

theorem labelGroup_nil_none {lab : Str} {c0 : Char} {labt : Str}
    (h : lab = c0 :: labt) : labelGroup lab [] = none := by
  unfold labelGroup
  rw [h]
  rfl

theorem firstLabelMatch_nil : firstLabelMatch [] = none := by decide

theorem labCompany_shape : labCompany = 'C' :: str "ompany" := by decide
theorem labFirst_shape : labFirst = 'F' :: str "irst" := by decide
theorem labEmail_shape : labEmail = 'E' :: str "mail" := by decide
theorem labHook_shape : labHook = 'H' :: str "ook" := by decide
theorem labVariant_shape : labVariant = 'V' :: str "ariant" := by decide
theorem labWebsite_shape : labWebsite = 'W' :: str "ebsite" := by decide

theorem firstLabelMatch_hard_company (v : Str) :
    ∃ g, firstLabelMatch (hard (labCompany ++ str ": " ++ v)) =
      some (labCompany, g) ∧ pyStrip g = pyStrip v := by
  obtain ⟨g, hg, hs⟩ := labelValue_hard_self labCompany_shape (by decide) v
  refine ⟨g, ?_, hs⟩
  show firstLabelMatchAux TARGET_LABELS _ = _
  simp only [TARGET_LABELS, firstLabelMatchAux, hg]

theorem firstLabelMatch_hard_first (v : Str) :
    ∃ g, firstLabelMatch (hard (labFirst ++ str ": " ++ v)) =
      some (labFirst, g) ∧ pyStrip g = pyStrip v := by
  obtain ⟨g, hg, hs⟩ := labelValue_hard_self labFirst_shape (by decide) v
  refine ⟨g, ?_, hs⟩
  have hC := labelGroup_hard_other labFirst_shape labCompany_shape
    (by decide) (by decide) v
  show firstLabelMatchAux TARGET_LABELS _ = _
  simp only [TARGET_LABELS, firstLabelMatchAux, hC, hg]

theorem firstLabelMatch_hard_email (v : Str) :
    ∃ g, firstLabelMatch (hard (labEmail ++ str ": " ++ v)) =
      some (labEmail, g) ∧ pyStrip g = pyStrip v := by
  obtain ⟨g, hg, hs⟩ := labelValue_hard_self labEmail_shape (by decide) v
  refine ⟨g, ?_, hs⟩
  have hC := labelGroup_hard_other labEmail_shape labCompany_shape
    (by decide) (by decide) v
  have hF := labelGroup_hard_other labEmail_shape labFirst_shape
    (by decide) (by decide) v
  show firstLabelMatchAux TARGET_LABELS _ = _
  simp only [TARGET_LABELS, firstLabelMatchAux, hC, hF, hg]

theorem firstLabelMatch_hard_hook (v : Str) :
    ∃ g, firstLabelMatch (hard (labHook ++ str ": " ++ v)) =
      some (labHook, g) ∧ pyStrip g = pyStrip v := by
  obtain ⟨g, hg, hs⟩ := labelValue_hard_self labHook_shape (by decide) v
  refine ⟨g, ?_, hs⟩
  have hC := labelGroup_hard_other labHook_shape labCompany_shape
    (by decide) (by decide) v
  have hF := labelGroup_hard_other labHook_shape labFirst_shape
    (by decide) (by decide) v
  have hE := labelGroup_hard_other labHook_shape labEmail_shape
    (by decide) (by decide) v
  show firstLabelMatchAux TARGET_LABELS _ = _
  simp only [TARGET_LABELS, firstLabelMatchAux, hC, hF, hE, hg]

theorem firstLabelMatch_hard_variant (v : Str) :
    ∃ g, firstLabelMatch (hard (labVariant ++ str ": " ++ v)) =
      some (labVariant, g) ∧ pyStrip g = pyStrip v := by
  obtain ⟨g, hg, hs⟩ := labelValue_hard_self labVariant_shape (by decide) v
  refine ⟨g, ?_, hs⟩
  have hC := labelGroup_hard_other labVariant_shape labCompany_shape
    (by decide) (by decide) v
  have hF := labelGroup_hard_other labVariant_shape labFirst_shape
    (by decide) (by decide) v
  have hE := labelGroup_hard_other labVariant_shape labEmail_shape
    (by decide) (by decide) v
  have hH := labelGroup_hard_other labVariant_shape labHook_shape
    (by decide) (by decide) v
  show firstLabelMatchAux TARGET_LABELS _ = _
  simp only [TARGET_LABELS, firstLabelMatchAux, hC, hF, hE, hH, hg]

theorem firstLabelMatch_hard_website (v : Str) :
    ∃ g, firstLabelMatch (hard (labWebsite ++ str ": " ++ v)) =
      some (labWebsite, g) ∧ pyStrip g = pyStrip v := by
  obtain ⟨g, hg, hs⟩ := labelValue_hard_self labWebsite_shape (by decide) v
  refine ⟨g, ?_, hs⟩
  have hC := labelGroup_hard_other labWebsite_shape labCompany_shape
    (by decide) (by decide) v
  have hF := labelGroup_hard_other labWebsite_shape labFirst_shape
    (by decide) (by decide) v
  have hE := labelGroup_hard_other labWebsite_shape labEmail_shape
    (by decide) (by decide) v
  have hH := labelGroup_hard_other labWebsite_shape labHook_shape
    (by decide) (by decide) v
  have hV := labelGroup_hard_other labWebsite_shape labVariant_shape
    (by decide) (by decide) v
  show firstLabelMatchAux TARGET_LABELS _ = _
  simp only [TARGET_LABELS, firstLabelMatchAux, hC, hF, hE, hH, hV, hg]

theorem firstLabelMatch_atLead : firstLabelMatch (str "@lead") = none := by
  decide

/- ---- header-scan step lemmas ---- -/

theorem shrLoop_step_label {line lab g nxt : Str} (rest2 : List Str)
    (sw st : Bool) (hm : firstLabelMatch line = some (lab, g))
    (hcond : ¬(pyStrip g = [] ∧ pyStrip nxt ≠ [] ∧ ¬ isLabelLine nxt)) :
    shrLoop (line :: nxt :: rest2) sw st =
      ((line :: (shrLoop (nxt :: rest2) (sw || decide (lab = labWebsite)) true).1),
       (shrLoop (nxt :: rest2) (sw || decide (lab = labWebsite)) true).2) := by
  rw [shrLoop]
  split
  · next lg heq =>
      rw [hm] at heq
      injection heq with heq2
      subst heq2
      split
      · next nxt2 rest22 heq2 =>
          injection heq2 with ha hb
          subst ha
          subst hb
          split
          · next hc => exact absurd hc hcond
          · rfl
      · next heq2 => cases heq2
  · next heq => rw [hm] at heq; cases heq

theorem shrLoop_step_blank_seen {line : Str} (rest : List Str) (st : Bool)
    (hm : firstLabelMatch line = none) (hblank : pyStrip line = []) :
    shrLoop (line :: rest) true st = ([line], rest) := by
  rw [shrLoop]
  split
  · next lg heq => rw [hm] at heq; cases heq
  · next heq =>
      rw [if_pos hblank]
      rfl

theorem extractLoop_step {line lab g nxt : Str} (rest2 : List Str)
    (p : Preserved) (hm : firstLabelMatch line = some (lab, g))
    (hcond : ¬(pyStrip g = [] ∧ pyStrip nxt ≠ [] ∧ ¬ isLabelLine nxt)) :
    extractLoop (line :: nxt :: rest2) p =
      extractLoop (nxt :: rest2) (presUpdate p lab (pyStrip g)) := by
  rw [extractLoop]
  split
  · next heq => rw [hm] at heq; cases heq
  · next lg heq =>
      rw [hm] at heq
      injection heq with heq2
      subst heq2
      split
      · next nxt2 rest22 heq2 =>
          injection heq2 with ha hb
          subst ha
          subst hb
          split
          · next hc => exact absurd hc hcond
          · rfl
      · next heq2 => cases heq2

theorem extractLoop_none {line : Str} (rest : List Str) (p : Preserved)
    (hm : firstLabelMatch line = none) :
    extractLoop (line :: rest) p = extractLoop rest p := by
  rw [extractLoop]
  split
  · next heq => rfl
  · next lg heq => rw [hm] at heq; cases heq

theorem presUpdate_other {lab : Str} (hF : lab ≠ labFirst) (hE : lab ≠ labEmail)
    (hH : lab ≠ labHook) (hV : lab ≠ labVariant) (p : Preserved) (v : Str) :
    presUpdate p lab v = p := by
  unfold presUpdate
  rw [if_neg hF, if_neg hE, if_neg hH, if_neg hV]

theorem presUpdate_first (p : Preserved) (v : Str) (hp : p.first = []) :
    presUpdate p labFirst v = { p with first := v } := by
  unfold presUpdate
  rw [if_pos rfl, if_pos hp]

theorem presUpdate_email (p : Preserved) (v : Str) (hp : p.email = []) :
    presUpdate p labEmail v = { p with email := v } := by
  unfold presUpdate
  rw [if_neg (by decide), if_pos rfl, if_pos hp]

theorem presUpdate_hook (p : Preserved) (v : Str) (hp : p.hook = []) :
    presUpdate p labHook v = { p with hook := v } := by
  unfold presUpdate
  rw [if_neg (by decide), if_neg (by decide), if_pos rfl, if_pos hp]

theorem presUpdate_variant (p : Preserved) (v : Str) (hp : p.variant = []) :
    presUpdate p labVariant v = { p with variant := v } := by
  unfold presUpdate
  rw [if_neg (by decide), if_neg (by decide), if_neg (by decide), if_pos rfl,
    if_pos hp]

theorem hard_ne_nil (x : Str) : hard x ≠ [] := by
  unfold hard
  intro h
  rcases List.append_eq_nil.mp h with ⟨_, h2⟩
  simp [str] at h2

/- ---- re-parsing an emitted header run ---- -/

theorem shrLoop_newHeader (c w f e h vv : Str) (REST : List Str) :
    shrLoop (hard (labCompany ++ str ": " ++ c) ::
      hard (labFirst ++ str ": " ++ f) :: hard (labEmail ++ str ": " ++ e) ::
      hard (labHook ++ str ": " ++ h) :: hard (labVariant ++ str ": " ++ vv) ::
      hard (labWebsite ++ str ": " ++ w) :: [] :: REST) false false =
      ([hard (labCompany ++ str ": " ++ c), hard (labFirst ++ str ": " ++ f),
        hard (labEmail ++ str ": " ++ e), hard (labHook ++ str ": " ++ h),
        hard (labVariant ++ str ": " ++ vv), hard (labWebsite ++ str ": " ++ w),
        []], REST) := by
  obtain ⟨gC, hC, _⟩ := firstLabelMatch_hard_company c
  obtain ⟨gF, hF, _⟩ := firstLabelMatch_hard_first f
  obtain ⟨gE, hE, _⟩ := firstLabelMatch_hard_email e
  obtain ⟨gH, hH, _⟩ := firstLabelMatch_hard_hook h
  obtain ⟨gV, hV, _⟩ := firstLabelMatch_hard_variant vv
  obtain ⟨gW, hW, _⟩ := firstLabelMatch_hard_website w
  have iF : isLabelLine (hard (labFirst ++ str ": " ++ f)) = true := by
    unfold isLabelLine
    rw [hF]
    rfl
  have iE : isLabelLine (hard (labEmail ++ str ": " ++ e)) = true := by
    unfold isLabelLine
    rw [hE]
    rfl
  have iH : isLabelLine (hard (labHook ++ str ": " ++ h)) = true := by
    unfold isLabelLine
    rw [hH]
    rfl
  have iV : isLabelLine (hard (labVariant ++ str ": " ++ vv)) = true := by
    unfold isLabelLine
    rw [hV]
    rfl
  have iW : isLabelLine (hard (labWebsite ++ str ": " ++ w)) = true := by
    unfold isLabelLine
    rw [hW]
    rfl
  rw [shrLoop_step_label _ _ _ hC (by rintro ⟨_, _, h3⟩; exact h3 iF)]
  rw [show (false || decide (labCompany = labWebsite)) = false from by decide]
  rw [shrLoop_step_label _ _ _ hF (by rintro ⟨_, _, h3⟩; exact h3 iE)]
  rw [show (false || decide (labFirst = labWebsite)) = false from by decide]
  rw [shrLoop_step_label _ _ _ hE (by rintro ⟨_, _, h3⟩; exact h3 iH)]
  rw [show (false || decide (labEmail = labWebsite)) = false from by decide]
  rw [shrLoop_step_label _ _ _ hH (by rintro ⟨_, _, h3⟩; exact h3 iV)]
  rw [show (false || decide (labHook = labWebsite)) = false from by decide]
  rw [shrLoop_step_label _ _ _ hV (by rintro ⟨_, _, h3⟩; exact h3 iW)]
  rw [show (false || decide (labVariant = labWebsite)) = false from by decide]
  rw [shrLoop_step_label _ _ _ hW (by rintro ⟨_, h2, _⟩; exact h2 rfl)]
  rw [show (false || decide (labWebsite = labWebsite)) = true from by decide]
  rw [shrLoop_step_blank_seen _ _ firstLabelMatch_nil rfl]

theorem extractLoop_newHeader (c w f e h vv : Str) :
    extractLoop [hard (labCompany ++ str ": " ++ c),
      hard (labFirst ++ str ": " ++ f), hard (labEmail ++ str ": " ++ e),
      hard (labHook ++ str ": " ++ h), hard (labVariant ++ str ": " ++ vv),
      hard (labWebsite ++ str ": " ++ w), []] presEmpty =
      ⟨pyStrip f, pyStrip e, pyStrip h, pyStrip vv⟩ := by
  obtain ⟨gC, hC, _⟩ := firstLabelMatch_hard_company c
  obtain ⟨gF, hF, sF⟩ := firstLabelMatch_hard_first f
  obtain ⟨gE, hE, sE⟩ := firstLabelMatch_hard_email e
  obtain ⟨gH, hH, sH⟩ := firstLabelMatch_hard_hook h
  obtain ⟨gV, hV, sV⟩ := firstLabelMatch_hard_variant vv
  obtain ⟨gW, hW, _⟩ := firstLabelMatch_hard_website w
  have iF : isLabelLine (hard (labFirst ++ str ": " ++ f)) = true := by
    unfold isLabelLine
    rw [hF]
    rfl
  have iE : isLabelLine (hard (labEmail ++ str ": " ++ e)) = true := by
    unfold isLabelLine
    rw [hE]
    rfl
  have iH : isLabelLine (hard (labHook ++ str ": " ++ h)) = true := by
    unfold isLabelLine
    rw [hH]
    rfl
  have iV : isLabelLine (hard (labVariant ++ str ": " ++ vv)) = true := by
    unfold isLabelLine
    rw [hV]
    rfl
  have iW : isLabelLine (hard (labWebsite ++ str ": " ++ w)) = true := by
    unfold isLabelLine
    rw [hW]
    rfl
  rw [extractLoop_step _ _ hC (by rintro ⟨_, _, h3⟩; exact h3 iF),
    presUpdate_other (by decide) (by decide) (by decide) (by decide)]
  rw [extractLoop_step _ _ hF (by rintro ⟨_, _, h3⟩; exact h3 iE),
    presUpdate_first _ _ rfl]
  rw [extractLoop_step _ _ hE (by rintro ⟨_, _, h3⟩; exact h3 iH),
    presUpdate_email _ _ rfl]
  rw [extractLoop_step _ _ hH (by rintro ⟨_, _, h3⟩; exact h3 iV),
    presUpdate_hook _ _ rfl]
  rw [extractLoop_step _ _ hV (by rintro ⟨_, _, h3⟩; exact h3 iW),
    presUpdate_variant _ _ rfl]
  rw [extractLoop_step _ _ hW (by rintro ⟨_, h2, _⟩; exact h2 rfl),
    presUpdate_other (by decide) (by decide) (by decide) (by decide)]
  rw [extractLoop_none _ _ firstLabelMatch_nil]
  rw [sF, sE, sH, sV]
  rfl

/- ---- character-provenance lemmas ---- -/

theorem mem_of_mem_ciPrefixRest :
    ∀ (lab x r : Str), ciPrefixRest lab x = some r → ∀ ch ∈ r, ch ∈ x := by
  intro lab
  induction lab with
  | nil =>
      intro x r h ch hch
      unfold ciPrefixRest at h
      injection h with h2
      rwa [h2]
  | cons a as ih =>
      intro x r h ch hch
      cases x with
      | nil => cases h
      | cons b bs =>
          unfold ciPrefixRest at h
          by_cases hab : asciiLower a = asciiLower b
          · rw [if_pos hab] at h
            exact List.mem_cons_of_mem _ (ih bs r h ch hch)
          · rw [if_neg hab] at h
            cases h

theorem mem_of_mem_colonThenGroup {r g : Str}
    (h : colonThenGroup r = some g) : ∀ ch ∈ g, ch ∈ r := by
  intro ch hch
  unfold colonThenGroup at h
  split at h
  · next c r2 hdw =>
      by_cases hc : c = ':'
      · rw [if_pos hc] at h
        injection h with h2
        rw [← h2] at hch
        have h3 : ch ∈ r2 := (List.dropWhile_sublist _).mem hch
        have h4 : ch ∈ c :: r2 := List.mem_cons_of_mem _ h3
        rw [← hdw] at h4
        exact (List.dropWhile_sublist _).mem h4
      · rw [if_neg hc] at h; cases h
  · cases h

theorem mem_of_mem_labelGroup {lab line g : Str}
    (h : labelGroup lab line = some g) : ∀ ch ∈ g, ch ∈ line := by
  intro ch hch
  unfold labelGroup at h
  rcases hci : ciPrefixRest lab (pyLstrip line) with _ | r
  · rw [hci] at h; cases h
  · rw [hci] at h
    have h2 : ch ∈ r := mem_of_mem_colonThenGroup h ch hch
    have h3 : ch ∈ pyLstrip line := mem_of_mem_ciPrefixRest _ _ _ hci ch h2
    exact (List.dropWhile_sublist _).mem h3

theorem mem_of_mem_firstLabelMatch {line lab g : Str}
    (h : firstLabelMatch line = some (lab, g)) : ∀ ch ∈ g, ch ∈ line := by
  have haux : ∀ (labs : List Str), firstLabelMatchAux labs line = some (lab, g) →
      ∀ ch ∈ g, ch ∈ line := by
    intro labs
    induction labs with
    | nil => intro h2; cases h2
    | cons l ls ih =>
        intro h2 ch hch
        unfold firstLabelMatchAux at h2
        rcases hlg : labelGroup l line with _ | g2
        · rw [hlg] at h2
          exact ih h2 ch hch
        · rw [hlg] at h2
          injection h2 with h3
          have h4 : g2 = g := congrArg Prod.snd h3
          rw [← h4] at hch
          exact mem_of_mem_labelGroup hlg ch hch
  exact haux TARGET_LABELS h

/- ---- shrLoop branch-evaluation lemmas ---- -/

theorem shrLoop_step_cont {line : Str} {lg : Str × Str} {nxt : Str}
    (rest2 : List Str) (sw st : Bool)
    (hm : firstLabelMatch line = some lg)
    (hcond : pyStrip lg.2 = [] ∧ pyStrip nxt ≠ [] ∧ ¬ isLabelLine nxt) :
    shrLoop (line :: nxt :: rest2) sw st =
      ((line :: nxt ::
          (shrLoop rest2 (sw || decide (lg.1 = labWebsite)) true).1),
       (shrLoop rest2 (sw || decide (lg.1 = labWebsite)) true).2) := by
  rw [shrLoop]
  split
  · next lg2 heq =>
      rw [hm] at heq
      injection heq with h2
      subst h2
      split
      · next nxt2 rest22 heq2 =>
          injection heq2 with ha hb
          subst ha
          subst hb
          split
          · rfl
          · next hc => exact absurd hcond hc
      · next heq2 => cases heq2
  · next heq => rw [hm] at heq; cases heq

theorem shrLoop_single_label {line : Str} {lg : Str × Str} (sw st : Bool)
    (hm : firstLabelMatch line = some lg) :
    shrLoop [line] sw st = ([line], []) := by
  rw [shrLoop]
  split
  · next lg2 heq => rfl
  · next heq => rw [hm] at heq; cases heq

theorem shrLoop_step_blank_notseen {line : Str} (rest : List Str) (st : Bool)
    (hm : firstLabelMatch line = none) (hblank : pyStrip line = []) :
    shrLoop (line :: rest) false st =
      ((line :: (shrLoop rest false st).1), (shrLoop rest false st).2) := by
  rw [shrLoop]
  split
  · next lg heq => rw [hm] at heq; cases heq
  · next heq =>
      rw [if_pos hblank]
      rfl

theorem shrLoop_step_nonblank_started {line : Str} (rest : List Str)
    (sw : Bool) (hm : firstLabelMatch line = none)
    (hblank : pyStrip line ≠ []) :
    shrLoop (line :: rest) sw true = ([], line :: rest) := by
  rw [shrLoop]
  split
  · next lg heq => rw [hm] at heq; cases heq
  · next heq =>
      rw [if_neg hblank]
      rfl

theorem shrLoop_step_nonblank_notstarted {line : Str} (rest : List Str)
    (sw : Bool) (hm : firstLabelMatch line = none)
    (hblank : pyStrip line ≠ []) :
    shrLoop (line :: rest) sw false = shrLoop rest sw false := by
  rw [shrLoop]
  split
  · next lg heq => rw [hm] at heq; cases heq
  · next heq =>
      rw [if_neg hblank]
      rfl

theorem shrLoop_subsets :
    ∀ (ls : List Str) (sw st : Bool),
      (∀ l ∈ (shrLoop ls sw st).1, l ∈ ls) ∧
      (∀ l ∈ (shrLoop ls sw st).2, l ∈ ls) := by
  intro ls sw st
  induction ls, sw, st using shrLoop.induct with
  | case1 sw st =>
      exact ⟨by intro l hl; simp [shrLoop] at hl,
        by intro l hl; simp [shrLoop] at hl⟩
  | case2 line sw st lg hm sW2 nxt rest2 hcond ih =>
      rw [shrLoop_step_cont rest2 sw st hm hcond]
      refine ⟨?_, ?_⟩
      · intro l hl
        rcases List.mem_cons.mp hl with h1 | h1
        · simp [h1]
        · rcases List.mem_cons.mp h1 with h2 | h2
          · simp [h2]
          · have := ih.1 l h2
            simp only [List.mem_cons]
            right
            right
            exact this
      · intro l hl
        have := ih.2 l hl
        simp only [List.mem_cons]
        right
        right
        exact this
  | case3 line sw st lg hm sW2 nxt rest2 hcond ih =>
      rw [shrLoop_step_label rest2 sw st hm hcond]
      refine ⟨?_, ?_⟩
      · intro l hl
        rcases List.mem_cons.mp hl with h1 | h1
        · simp [h1]
        · have := ih.1 l h1
          simp only [List.mem_cons]
          rcases List.mem_cons.mp this with h2 | h2
          · right; left; exact h2
          · right; right; exact h2
      · intro l hl
        have := ih.2 l hl
        simp only [List.mem_cons]
        rcases List.mem_cons.mp this with h2 | h2
        · right; left; exact h2
        · right; right; exact h2
  | case4 line sw st lg hm =>
      rw [shrLoop_single_label sw st hm]
      exact ⟨by intro l hl; simpa using hl, by intro l hl; simp at hl⟩
  | case5 line rest st hm hblank =>
      rw [shrLoop_step_blank_seen rest st hm hblank]
      refine ⟨?_, ?_⟩
      · intro l hl
        simp only [List.mem_singleton] at hl
        simp [hl]
      · intro l hl
        exact List.mem_cons_of_mem _ hl
  | case6 line rest sw st hm hblank hsw ih =>
      have hsw2 : sw = false := by
        cases sw
        · rfl
        · exact absurd rfl hsw
      subst hsw2
      rw [shrLoop_step_blank_notseen rest st hm hblank]
      refine ⟨?_, ?_⟩
      · intro l hl
        rcases List.mem_cons.mp hl with h1 | h1
        · simp [h1]
        · exact List.mem_cons_of_mem _ (ih.1 l h1)
      · intro l hl
        exact List.mem_cons_of_mem _ (ih.2 l hl)
  | case7 line rest sw hm hblank =>
      rw [shrLoop_step_nonblank_started rest sw hm hblank]
      exact ⟨by intro l hl; simp at hl, by intro l hl; exact hl⟩
  | case8 line rest sw st hm hblank hst ih =>
      have hst2 : st = false := by
        cases st
        · rfl
        · exact absurd rfl hst
      subst hst2
      rw [shrLoop_step_nonblank_notstarted rest sw hm hblank]
      exact ⟨fun l hl => List.mem_cons_of_mem _ (ih.1 l hl),
        fun l hl => List.mem_cons_of_mem _ (ih.2 l hl)⟩


theorem split_header_rest_nil_case {d : Str}
    (hdw : (pySplitlines (pyNormNl d)).dropWhile
        (fun l => (pyStrip l).isEmpty) = []) :
    split_header_rest d = ([], pySplitlines (pyNormNl d)) := by
  unfold split_header_rest
  simp only [hdw]

theorem split_header_rest_cons_case {d : Str} {l0 : Str} {ls0 : List Str}
    (hdw : (pySplitlines (pyNormNl d)).dropWhile
        (fun l => (pyStrip l).isEmpty) = l0 :: ls0) :
    split_header_rest d =
      if isLabelLine l0 then shrLoop (l0 :: ls0) false false
      else ([], pySplitlines (pyNormNl d)) := by
  unfold split_header_rest
  simp only [hdw]

theorem split_header_rest_subsets (d : Str) :
    (∀ l ∈ (split_header_rest d).1, l ∈ pySplitlines (pyNormNl d)) ∧
    (∀ l ∈ (split_header_rest d).2, l ∈ pySplitlines (pyNormNl d)) := by
  rcases hdw : (pySplitlines (pyNormNl d)).dropWhile
      (fun l => (pyStrip l).isEmpty) with _ | ⟨l0, ls0⟩
  · rw [split_header_rest_nil_case hdw]
    exact ⟨by intro l hl; simp at hl, fun l hl => hl⟩
  · rw [split_header_rest_cons_case hdw]
    have hdws : ∀ x ∈ l0 :: ls0, x ∈ pySplitlines (pyNormNl d) := by
      intro x hx
      rw [← hdw] at hx
      exact (List.dropWhile_sublist _).mem hx
    split
    · have hsub := shrLoop_subsets (l0 :: ls0) false false
      exact ⟨fun l hl => hdws l (hsub.1 l hl), fun l hl => hdws l (hsub.2 l hl)⟩
    · exact ⟨by intro l hl; simp at hl, fun l hl => hl⟩

theorem extractLoop_single_label {line : Str} {lg : Str × Str} (p : Preserved)
    (hm : firstLabelMatch line = some lg) :
    extractLoop [line] p = presUpdate p lg.1 (pyStrip lg.2) := by
  rw [extractLoop]
  split
  · next heq => rw [hm] at heq; cases heq
  · next lg2 heq =>
      rw [hm] at heq
      injection heq with h2
      subst h2
      rfl

theorem extractLoop_step_cont {line : Str} {lg : Str × Str} {nxt : Str}
    (rest2 : List Str) (p : Preserved)
    (hm : firstLabelMatch line = some lg)
    (hcond : pyStrip lg.2 = [] ∧ pyStrip nxt ≠ [] ∧ ¬ isLabelLine nxt) :
    extractLoop (line :: nxt :: rest2) p =
      extractLoop rest2 (presUpdate p lg.1 (pyStrip nxt)) := by
  rw [extractLoop]
  split
  · next heq => rw [hm] at heq; cases heq
  · next lg2 heq =>
      rw [hm] at heq
      injection heq with h2
      subst h2
      split
      · next nxt2 rest22 heq2 =>
          injection heq2 with ha hb
          subst ha
          subst hb
          split
          · rfl
          · next hc => exact absurd hcond hc
      · next heq2 => cases heq2

theorem presUpdate_field_cases (p : Preserved) (lab v : Str) :
    ((presUpdate p lab v).first = p.first ∨ (presUpdate p lab v).first = v) ∧
    ((presUpdate p lab v).email = p.email ∨ (presUpdate p lab v).email = v) ∧
    ((presUpdate p lab v).hook = p.hook ∨ (presUpdate p lab v).hook = v) ∧
    ((presUpdate p lab v).variant = p.variant ∨
      (presUpdate p lab v).variant = v) := by
  unfold presUpdate
  repeat' split
  all_goals refine ⟨?_, ?_, ?_, ?_⟩
  all_goals first
    | exact Or.inl rfl
    | exact Or.inr rfl

theorem extractLoop_chars :
    ∀ (lines : List Str) (p : Preserved) (ch : Char),
      (ch ∈ (extractLoop lines p).first →
        ch ∈ p.first ∨ ∃ l ∈ lines, ch ∈ l) ∧
      (ch ∈ (extractLoop lines p).email →
        ch ∈ p.email ∨ ∃ l ∈ lines, ch ∈ l) ∧
      (ch ∈ (extractLoop lines p).hook →
        ch ∈ p.hook ∨ ∃ l ∈ lines, ch ∈ l) ∧
      (ch ∈ (extractLoop lines p).variant →
        ch ∈ p.variant ∨ ∃ l ∈ lines, ch ∈ l) := by
  intro lines p
  induction lines, p using extractLoop.induct with
  | case1 p =>
      intro ch
      exact ⟨fun h => Or.inl h, fun h => Or.inl h, fun h => Or.inl h,
        fun h => Or.inl h⟩
  | case2 line rest p hm ih =>
      intro ch
      rw [extractLoop_none rest p hm]
      refine ⟨?_, ?_, ?_, ?_⟩ <;> intro h
      · rcases (ih ch).1 h with h1 | ⟨l, hl, hcl⟩
        · exact Or.inl h1
        · exact Or.inr ⟨l, List.mem_cons_of_mem _ hl, hcl⟩
      · rcases (ih ch).2.1 h with h1 | ⟨l, hl, hcl⟩
        · exact Or.inl h1
        · exact Or.inr ⟨l, List.mem_cons_of_mem _ hl, hcl⟩
      · rcases (ih ch).2.2.1 h with h1 | ⟨l, hl, hcl⟩
        · exact Or.inl h1
        · exact Or.inr ⟨l, List.mem_cons_of_mem _ hl, hcl⟩
      · rcases (ih ch).2.2.2 h with h1 | ⟨l, hl, hcl⟩
        · exact Or.inl h1
        · exact Or.inr ⟨l, List.mem_cons_of_mem _ hl, hcl⟩
  | case3 line p lg hm nxt rest2 hcond ih =>
      intro ch
      rw [extractLoop_step_cont rest2 p hm hcond]
      have hup := presUpdate_field_cases p lg.1 (pyStrip nxt)
      refine ⟨?_, ?_, ?_, ?_⟩ <;> intro h
      · rcases (ih ch).1 h with h1 | ⟨l, hl, hcl⟩
        · rcases hup.1 with h2 | h2
          · rw [h2] at h1; exact Or.inl h1
          · rw [h2] at h1
            exact Or.inr ⟨nxt, by simp, mem_of_mem_pyStrip h1⟩
        · exact Or.inr ⟨l, by simp [hl], hcl⟩
      · rcases (ih ch).2.1 h with h1 | ⟨l, hl, hcl⟩
        · rcases hup.2.1 with h2 | h2
          · rw [h2] at h1; exact Or.inl h1
          · rw [h2] at h1
            exact Or.inr ⟨nxt, by simp, mem_of_mem_pyStrip h1⟩
        · exact Or.inr ⟨l, by simp [hl], hcl⟩
      · rcases (ih ch).2.2.1 h with h1 | ⟨l, hl, hcl⟩
        · rcases hup.2.2.1 with h2 | h2
          · rw [h2] at h1; exact Or.inl h1
          · rw [h2] at h1
            exact Or.inr ⟨nxt, by simp, mem_of_mem_pyStrip h1⟩
        · exact Or.inr ⟨l, by simp [hl], hcl⟩
      · rcases (ih ch).2.2.2 h with h1 | ⟨l, hl, hcl⟩
        · rcases hup.2.2.2 with h2 | h2
          · rw [h2] at h1; exact Or.inl h1
          · rw [h2] at h1
            exact Or.inr ⟨nxt, by simp, mem_of_mem_pyStrip h1⟩
        · exact Or.inr ⟨l, by simp [hl], hcl⟩
  | case4 line p lg hm nxt rest2 hcond ih =>
      intro ch
      rw [extractLoop_step rest2 p hm hcond]
      have hup := presUpdate_field_cases p lg.1 (pyStrip lg.2)
      have hg : ∀ d ∈ pyStrip lg.2, d ∈ line := fun d hd =>
        mem_of_mem_firstLabelMatch hm d (mem_of_mem_pyStrip hd)
      refine ⟨?_, ?_, ?_, ?_⟩ <;> intro h
      · rcases (ih ch).1 h with h1 | ⟨l, hl, hcl⟩
        · rcases hup.1 with h2 | h2
          · rw [h2] at h1; exact Or.inl h1
          · rw [h2] at h1
            exact Or.inr ⟨line, by simp, hg ch h1⟩
        · exact Or.inr ⟨l, by simp [hl], hcl⟩
      · rcases (ih ch).2.1 h with h1 | ⟨l, hl, hcl⟩
        · rcases hup.2.1 with h2 | h2
          · rw [h2] at h1; exact Or.inl h1
          · rw [h2] at h1
            exact Or.inr ⟨line, by simp, hg ch h1⟩
        · exact Or.inr ⟨l, by simp [hl], hcl⟩
      · rcases (ih ch).2.2.1 h with h1 | ⟨l, hl, hcl⟩
        · rcases hup.2.2.1 with h2 | h2
          · rw [h2] at h1; exact Or.inl h1
          · rw [h2] at h1
            exact Or.inr ⟨line, by simp, hg ch h1⟩
        · exact Or.inr ⟨l, by simp [hl], hcl⟩
      · rcases (ih ch).2.2.2 h with h1 | ⟨l, hl, hcl⟩
        · rcases hup.2.2.2 with h2 | h2
          · rw [h2] at h1; exact Or.inl h1
          · rw [h2] at h1
            exact Or.inr ⟨line, by simp, hg ch h1⟩
        · exact Or.inr ⟨l, by simp [hl], hcl⟩
  | case5 line p lg hm =>
      intro ch
      rw [extractLoop_single_label p hm]
      have hup := presUpdate_field_cases p lg.1 (pyStrip lg.2)
      have hg : ∀ d ∈ pyStrip lg.2, d ∈ line := fun d hd =>
        mem_of_mem_firstLabelMatch hm d (mem_of_mem_pyStrip hd)
      refine ⟨?_, ?_, ?_, ?_⟩ <;> intro h
      · rcases hup.1 with h2 | h2
        · rw [h2] at h; exact Or.inl h
        · rw [h2] at h
          exact Or.inr ⟨line, by simp, hg ch h⟩
      · rcases hup.2.1 with h2 | h2
        · rw [h2] at h; exact Or.inl h
        · rw [h2] at h
          exact Or.inr ⟨line, by simp, hg ch h⟩
      · rcases hup.2.2.1 with h2 | h2
        · rw [h2] at h; exact Or.inl h
        · rw [h2] at h
          exact Or.inr ⟨line, by simp, hg ch h⟩
      · rcases hup.2.2.2 with h2 | h2
        · rw [h2] at h; exact Or.inl h
        · rw [h2] at h
          exact Or.inr ⟨line, by simp, hg ch h⟩

/- ---- the output of the merge, line by line ---- -/

theorem pyRstripNl_joinNl :
    ∀ (L : List Str), (∀ l ∈ L, Char.ofNat 10 ∉ l) →
      pyRstripNl (joinNl L) = joinNl (dropTrailingEmpties L) := by
  intro L
  induction L using List.reverseRecOn with
  | nil => intro _; rfl
  | append_singleton t x ih =>
      intro hF
      by_cases hx : x = []
      · subst hx
        have h2 : dropTrailingEmpties (t ++ [[]]) = dropTrailingEmpties t :=
          dTE_append_nil (by decide) t
        rw [h2]
        cases t with
        | nil => rfl
        | cons a t2 =>
            have h3 : joinNl ((a :: t2) ++ [[]]) =
                joinNl (a :: t2) ++ [Char.ofNat 10] := by
              rw [joinNl_append (by simp) (by simp)]
              rfl
            rw [h3, pyRstripNl_append_nl]
            refine ih (fun l hl => hF l ?_)
            rcases List.mem_cons.mp hl with h | h
            · simp [h]
            · simp [h]
      · have hnl : Char.ofNat 10 ∉ x := hF x (by simp)
        rw [dTE_append_singleton_ne hx]
        cases t with
        | nil =>
            show pyRstripNl (joinNl [x]) = joinNl [x]
            show pyRstripNl x = x
            have := pyRstripNl_append_free hx hnl []
            simpa using this
        | cons a t2 =>
            rw [joinNl_append (B := [x]) (by simp) (by simp)]
            show pyRstripNl (joinNl (a :: t2) ++ Char.ofNat 10 :: joinNl [x]) = _
            have h4 : joinNl (a :: t2) ++ Char.ofNat 10 :: joinNl [x] =
                (joinNl (a :: t2) ++ [Char.ofNat 10]) ++ x := by
              show _ = (joinNl (a :: t2) ++ [Char.ofNat 10]) ++ joinNl [x]
              simp
            rw [h4, pyRstripNl_append_free hx hnl]

theorem newHeaderLines_eq (c w : Str) (pres : Preserved) :
    newHeaderLines c w pres =
      [hard (labCompany ++ str ": " ++ c),
       hard (labFirst ++ str ": " ++ pres.first),
       hard (labEmail ++ str ": " ++ pres.email),
       hard (labHook ++ str ": " ++ pres.hook),
       hard (labVariant ++ str ": " ++ pres.variant),
       hard (labWebsite ++ str ": " ++ w), []] := by
  unfold newHeaderLines
  rw [show (str "Company: " : Str) = labCompany ++ str ": " from by decide,
    show (str "First: " : Str) = labFirst ++ str ": " from by decide,
    show (str "Email: " : Str) = labEmail ++ str ": " from by decide,
    show (str "Hook: " : Str) = labHook ++ str ": " from by decide,
    show (str "Variant: " : Str) = labVariant ++ str ": " from by decide,
    show (str "Website: " : Str) = labWebsite ++ str ": " from by decide]

theorem dTE_append_blank (A : List Str) (x : Str) (hx : x ≠ [])
    (R : List Str) :
    dropTrailingEmpties ((A ++ [x]) ++ ([] :: R)) =
      (A ++ [x]) ++ dropTrailingEmpties ([] :: R) := by
  by_cases hR : dropTrailingEmpties ([] :: R) = []
  · rw [dTE_append_nil hR, hR, List.append_nil, dTE_append_singleton_ne hx]
  · rw [dTE_append_ne hR]

theorem mem_hard {ch : Char} {x : Str} (h : ch ∈ hard x) :
    ch ∈ x ∨ ch = ' ' := by
  unfold hard at h
  rcases List.mem_append.mp h with h1 | h1
  · exact Or.inl (mem_of_mem_pyRstrip h1)
  · right
    rw [show (str "  " : Str) = [' ', ' '] from by decide] at h1
    simpa using h1

theorem nl_not_mem_of_lineFree {l : Str} (h : lineFree l) :
    Char.ofNat 10 ∉ l := by
  intro hm
  have := h _ hm
  simp [isLineBreak] at this

theorem mem_appendBatch {l : Str} {rest : List Str} {b : Option Str}
    (h : l ∈ appendBatch rest b) :
    l ∈ rest ∨ l = [] ∨ ∃ bv, b = some bv ∧ l = bv := by
  rcases b with _ | bv
  · exact Or.inl h
  · have he : appendBatch rest (some bv) =
        (if bv = [] then rest
         else if rest.any (fun x => pyStrip x = bv) then rest
         else (if rest ≠ [] ∧ pyStrip (rest.getLastD []) ≠ [] then
            rest ++ [[]] else rest) ++ [bv]) := rfl
    rw [he] at h
    by_cases hb : bv = []
    · rw [if_pos hb] at h
      exact Or.inl h
    · rw [if_neg hb] at h
      by_cases hany : rest.any (fun x => pyStrip x = bv)
      · rw [if_pos hany] at h
        exact Or.inl h
      · rw [if_neg hany] at h
        rcases List.mem_append.mp h with h1 | h1
        · split at h1
          · rcases List.mem_append.mp h1 with h2 | h2
            · exact Or.inl h2
            · simp at h2
              exact Or.inr (Or.inl h2)
          · exact Or.inl h1
        · simp at h1
          exact Or.inr (Or.inr ⟨bv, rfl, h1⟩)

theorem hard_label_nl_free {lab v : Str} (hlabnl : Char.ofNat 10 ∉ lab)
    (hv : Char.ofNat 10 ∉ v) :
    Char.ofNat 10 ∉ hard (lab ++ str ": " ++ v) := by
  intro hm
  rcases mem_hard hm with h1 | h1
  · rcases List.mem_append.mp h1 with h2 | h2
    · rcases List.mem_append.mp h2 with h3 | h3
      · exact hlabnl h3
      · rw [show (str ": " : Str) = [':', ' '] from by decide] at h3
        rcases List.mem_cons.mp h3 with h4 | h4
        · exact absurd h4 (by decide)
        · rcases List.mem_cons.mp h4 with h5 | h5
          · exact absurd h5 (by decide)
          · simp at h5
    · exact hv h2
  · exact absurd h1 (by decide)

theorem lab_nl_frees :
    Char.ofNat 10 ∉ labCompany ∧ Char.ofNat 10 ∉ labFirst ∧
    Char.ofNat 10 ∉ labEmail ∧ Char.ofNat 10 ∉ labHook ∧
    Char.ofNat 10 ∉ labVariant ∧ Char.ofNat 10 ∉ labWebsite := by
  decide

theorem normalize_header_block_eq_join (desc c w : Str) (b : Option Str)
    (hcf : Char.ofNat 10 ∉ c) (hwf : Char.ofNat 10 ∉ w)
    (hbf : ∀ bv, b = some bv → Char.ofNat 10 ∉ bv) :
    normalize_header_block desc c w b =
      joinNl (mergeLines desc c w b) ++ [Char.ofNat 10] := by
  have hsub := split_header_rest_subsets (pyNormNl desc)
  have hlf : ∀ l ∈ pySplitlines (pyNormNl (pyNormNl desc)), lineFree l :=
    pySplitlines_lineFree _
  have hpf : ∀ l ∈ (split_header_rest (pyNormNl desc)).1,
      Char.ofNat 10 ∉ l :=
    fun l hl => nl_not_mem_of_lineFree (hlf l (hsub.1 l hl))
  have hrf : ∀ l ∈ (split_header_rest (pyNormNl desc)).2,
      Char.ofNat 10 ∉ l :=
    fun l hl => nl_not_mem_of_lineFree (hlf l (hsub.2 l hl))
  have hch := extractLoop_chars (split_header_rest (pyNormNl desc)).1
    presEmpty (Char.ofNat 10)
  have hfieldF : Char.ofNat 10 ∉
      (extractLoop (split_header_rest (pyNormNl desc)).1 presEmpty).first := by
    intro hm
    rcases hch.1 hm with h1 | ⟨l, hl, hcl⟩
    · simp [presEmpty] at h1
    · exact hpf l hl hcl
  have hfieldE : Char.ofNat 10 ∉
      (extractLoop (split_header_rest (pyNormNl desc)).1 presEmpty).email := by
    intro hm
    rcases hch.2.1 hm with h1 | ⟨l, hl, hcl⟩
    · simp [presEmpty] at h1
    · exact hpf l hl hcl
  have hfieldH : Char.ofNat 10 ∉
      (extractLoop (split_header_rest (pyNormNl desc)).1 presEmpty).hook := by
    intro hm
    rcases hch.2.2.1 hm with h1 | ⟨l, hl, hcl⟩
    · simp [presEmpty] at h1
    · exact hpf l hl hcl
  have hfieldV : Char.ofNat 10 ∉
      (extractLoop (split_header_rest (pyNormNl desc)).1 presEmpty).variant := by
    intro hm
    rcases hch.2.2.2 hm with h1 | ⟨l, hl, hcl⟩
    · simp [presEmpty] at h1
    · exact hpf l hl hcl
  have hX : ∀ l ∈
      newHeaderLines c w
          (extractLoop (split_header_rest (pyNormNl desc)).1 presEmpty) ++
        appendBatch (split_header_rest (pyNormNl desc)).2 b,
      Char.ofNat 10 ∉ l := by
    intro l hl
    rcases List.mem_append.mp hl with h1 | h1
    · rw [newHeaderLines_eq] at h1
      simp only [List.mem_cons] at h1
      rcases h1 with h | h | h | h | h | h | h | h
      · rw [h]; exact hard_label_nl_free lab_nl_frees.1 hcf
      · rw [h]; exact hard_label_nl_free lab_nl_frees.2.1 hfieldF
      · rw [h]; exact hard_label_nl_free lab_nl_frees.2.2.1 hfieldE
      · rw [h]; exact hard_label_nl_free lab_nl_frees.2.2.2.1 hfieldH
      · rw [h]; exact hard_label_nl_free lab_nl_frees.2.2.2.2.1 hfieldV
      · rw [h]; exact hard_label_nl_free lab_nl_frees.2.2.2.2.2 hwf
      · rw [h]
        intro hm
        simp at hm
      · simp at h
    · rcases mem_appendBatch h1 with h2 | h2 | ⟨bv, hbv, h2⟩
      · exact hrf l h2
      · rw [h2]
        intro hm
        simp at hm
      · rw [h2]
        exact hbf bv hbv
  show pyRstripNl (joinNl
      (newHeaderLines c w
          (extractLoop (split_header_rest (pyNormNl desc)).1 presEmpty) ++
        appendBatch (split_header_rest (pyNormNl desc)).2 b)) ++
      str "\n\n@lead\n" = _
  rw [pyRstripNl_joinNl _ hX]
  have hMne : dropTrailingEmpties
      (newHeaderLines c w
          (extractLoop (split_header_rest (pyNormNl desc)).1 presEmpty) ++
        appendBatch (split_header_rest (pyNormNl desc)).2 b) ≠ [] := by
    intro hnil
    have hall := dTE_eq_nil_iff.mp hnil
    have hmem : hard (labCompany ++ str ": " ++ c) ∈
        newHeaderLines c w
            (extractLoop (split_header_rest (pyNormNl desc)).1 presEmpty) ++
          appendBatch (split_header_rest (pyNormNl desc)).2 b := by
      apply List.mem_append.mpr
      left
      rw [newHeaderLines_eq]
      simp
    exact hard_ne_nil _ (hall _ hmem)
  have hM : mergeLines desc c w b =
      dropTrailingEmpties
        (newHeaderLines c w
            (extractLoop (split_header_rest (pyNormNl desc)).1 presEmpty) ++
          appendBatch (split_header_rest (pyNormNl desc)).2 b) ++
        [[], str "@lead"] := rfl
  rw [hM, joinNl_append hMne (by simp)]
  rw [show (str "\n\n@lead\n" : Str) =
    Char.ofNat 10 :: (joinNl [[], str "@lead"] ++ [Char.ofNat 10]) from by decide]
  simp

/- ---- stripped-ness of extracted values ---- -/

theorem presUpdate_stripped {p : Preserved} {v : Str}
    (hp : pyStrip p.first = p.first ∧ pyStrip p.email = p.email ∧
      pyStrip p.hook = p.hook ∧ pyStrip p.variant = p.variant)
    (hv : pyStrip v = v) (lab : Str) :
    pyStrip (presUpdate p lab v).first = (presUpdate p lab v).first ∧
    pyStrip (presUpdate p lab v).email = (presUpdate p lab v).email ∧
    pyStrip (presUpdate p lab v).hook = (presUpdate p lab v).hook ∧
    pyStrip (presUpdate p lab v).variant = (presUpdate p lab v).variant := by
  have hc := presUpdate_field_cases p lab v
  refine ⟨?_, ?_, ?_, ?_⟩
  · rcases hc.1 with h | h <;> rw [h]
    · exact hp.1
    · exact hv
  · rcases hc.2.1 with h | h <;> rw [h]
    · exact hp.2.1
    · exact hv
  · rcases hc.2.2.1 with h | h <;> rw [h]
    · exact hp.2.2.1
    · exact hv
  · rcases hc.2.2.2 with h | h <;> rw [h]
    · exact hp.2.2.2
    · exact hv

theorem extractLoop_stripped :
    ∀ (lines : List Str) (p : Preserved),
      (pyStrip p.first = p.first ∧ pyStrip p.email = p.email ∧
       pyStrip p.hook = p.hook ∧ pyStrip p.variant = p.variant) →
      (pyStrip (extractLoop lines p).first = (extractLoop lines p).first ∧
       pyStrip (extractLoop lines p).email = (extractLoop lines p).email ∧
       pyStrip (extractLoop lines p).hook = (extractLoop lines p).hook ∧
       pyStrip (extractLoop lines p).variant =
         (extractLoop lines p).variant) := by
  intro lines p
  induction lines, p using extractLoop.induct with
  | case1 p => exact id
  | case2 line rest p hm ih =>
      intro hp
      rw [extractLoop_none rest p hm]
      exact ih hp
  | case3 line p lg hm nxt rest2 hcond ih =>
      intro hp
      rw [extractLoop_step_cont rest2 p hm hcond]
      exact ih (presUpdate_stripped hp (pyStrip_idem _) lg.1)
  | case4 line p lg hm nxt rest2 hcond ih =>
      intro hp
      rw [extractLoop_step rest2 p hm hcond]
      exact ih (presUpdate_stripped hp (pyStrip_idem _) lg.1)
  | case5 line p lg hm =>
      intro hp
      rw [extractLoop_single_label p hm]
      exact presUpdate_stripped hp (pyStrip_idem _) lg.1

theorem pyStrip_ne_of_mem_nonspace {s : Str} {ch : Char} (h : ch ∈ s)
    (hch : isPySpace ch = false) : pyStrip s ≠ [] := by
  intro hc
  have := pyStrip_eq_nil_iff.mp hc ch h
  simp_all

/- ---- batch-marker helper lemmas ---- -/

theorem appendBatch_some_eq {rest : List Str} {bv : Str} :
    appendBatch rest (some bv) =
      (if bv = [] then rest
       else if rest.any (fun x => pyStrip x = bv) then rest
       else (if rest ≠ [] ∧ pyStrip (rest.getLastD []) ≠ [] then
          rest ++ [[]] else rest) ++ [bv]) := rfl

theorem appendBatch_some_any {rest : List Str} {bv : Str} (hbv : bv ≠ [])
    (hany : rest.any (fun x => pyStrip x = bv) = true) :
    appendBatch rest (some bv) = rest := by
  rw [appendBatch_some_eq, if_neg hbv, if_pos hany]

theorem appendBatch_has_batch (rest : List Str) {bv : Str} (hbv : bv ≠ [])
    (hstr : pyStrip bv = bv) :
    ∃ l ∈ appendBatch rest (some bv), pyStrip l = bv ∧ l ≠ [] := by
  rw [appendBatch_some_eq, if_neg hbv]
  by_cases hany : rest.any (fun x => pyStrip x = bv) = true
  · rw [if_pos hany]
    rcases List.any_eq_true.mp hany with ⟨l, hl, hpl⟩
    refine ⟨l, hl, by simpa using hpl, ?_⟩
    intro hleq
    rw [hleq] at hpl
    simp at hpl
    exact hbv hpl.symm
  · rw [if_neg hany]
    exact ⟨bv, List.mem_append.mpr (Or.inr (by simp)), hstr, hbv⟩

/- ---- shape of the merged line list ---- -/

theorem newHeaderLines_headerSix (c w : Str) (pres : Preserved) :
    newHeaderLines c w pres = headerSix c w pres ++ [[]] := by
  rw [newHeaderLines_eq]
  rfl

theorem dTE_cons_batch (R : List Str) :
    ∃ Z : List Str,
      dropTrailingEmpties ([] :: R) ++ [[], str "@lead"] =
        [] :: (Z ++ [str "@lead"]) ∧
      ∀ l ∈ R, l ≠ [] → l ∈ Z := by
  rw [dTE_cons_empty]
  by_cases hE : dropTrailingEmpties R = []
  · rw [if_pos hE]
    refine ⟨[], rfl, ?_⟩
    intro l hl hlne
    exact absurd (dTE_eq_nil_iff.mp hE l hl) hlne
  · rw [if_neg hE]
    refine ⟨dropTrailingEmpties R ++ [[]], by simp, ?_⟩
    intro l hl hlne
    exact List.mem_append.mpr (Or.inl (mem_dTE hl hlne))

theorem mergeLines_shape (desc c w : Str) (b : Option Str) :
    ∃ Z : List Str,
      mergeLines desc c w b =
        headerSix c w (mergePres desc) ++ ([] :: (Z ++ [str "@lead"])) ∧
      ∀ bv, b = some bv → bv ≠ [] → pyStrip bv = bv →
        ∃ l ∈ Z, pyStrip l = bv := by
  obtain ⟨Z, hZ, hmem⟩ :=
    dTE_cons_batch (appendBatch (split_header_rest (pyNormNl desc)).2 b)
  refine ⟨Z, ?_, ?_⟩
  · have hml : mergeLines desc c w b =
        dropTrailingEmpties
            ((headerSix c w (mergePres desc) ++ [[]]) ++
              appendBatch (split_header_rest (pyNormNl desc)).2 b) ++
          [[], str "@lead"] := by
      rw [← newHeaderLines_headerSix]
      rfl
    have hsplit : (headerSix c w (mergePres desc) ++ [[]]) ++
        appendBatch (split_header_rest (pyNormNl desc)).2 b =
        ([hard (labCompany ++ str ": " ++ c),
          hard (labFirst ++ str ": " ++ (mergePres desc).first),
          hard (labEmail ++ str ": " ++ (mergePres desc).email),
          hard (labHook ++ str ": " ++ (mergePres desc).hook),
          hard (labVariant ++ str ": " ++ (mergePres desc).variant)] ++
          [hard (labWebsite ++ str ": " ++ w)]) ++
          ([] :: appendBatch (split_header_rest (pyNormNl desc)).2 b) := by
      simp [headerSix]
    rw [hsplit, dTE_append_blank _ _ (hard_ne_nil _) _,
      List.append_assoc, hZ] at hml
    rw [hml]
    simp [headerSix]
  · intro bv hbeq hbne hbstr
    obtain ⟨l, hl, hpl, hlne⟩ := appendBatch_has_batch
        (split_header_rest (pyNormNl desc)).2 hbne hbstr
    rw [← hbeq] at hl
    exact ⟨l, hmem l hl hlne, hpl⟩

/- ---- every merged line is break-free ---- -/

theorem hard_lineFree {x : Str} (hx : lineFree x) : lineFree (hard x) := by
  intro ch hch
  rcases mem_hard hch with h1 | h1
  · exact hx ch h1
  · rw [h1]; decide

theorem lineFree_label_line {lab v : Str} (hlab : lineFree lab)
    (hv : lineFree v) : lineFree (hard (lab ++ str ": " ++ v)) := by
  refine hard_lineFree ?_
  intro ch hch
  rcases List.mem_append.mp hch with h1 | h1
  · rcases List.mem_append.mp h1 with h2 | h2
    · exact hlab ch h2
    · have h3 : ch = ':' ∨ ch = ' ' := by
        rw [show (str ": " : Str) = [':', ' '] from by decide] at h2
        simpa using h2
      rcases h3 with h | h <;> (rw [h]; decide)
  · exact hv ch h1

theorem mergePres_lineFree (desc : Str) :
    lineFree (mergePres desc).first ∧ lineFree (mergePres desc).email ∧
    lineFree (mergePres desc).hook ∧ lineFree (mergePres desc).variant := by
  unfold mergePres
  have hsub := (split_header_rest_subsets (pyNormNl desc)).1
  have hline : ∀ l ∈ (split_header_rest (pyNormNl desc)).1, lineFree l :=
    fun l hl => pySplitlines_lineFree _ l (hsub l hl)
  refine ⟨?_, ?_, ?_, ?_⟩ <;> intro ch hch
  · rcases (extractLoop_chars (split_header_rest (pyNormNl desc)).1
        presEmpty ch).1 hch with h1 | ⟨l, hl, hcl⟩
    · simp [presEmpty] at h1
    · exact hline l hl ch hcl
  · rcases (extractLoop_chars (split_header_rest (pyNormNl desc)).1
        presEmpty ch).2.1 hch with h1 | ⟨l, hl, hcl⟩
    · simp [presEmpty] at h1
    · exact hline l hl ch hcl
  · rcases (extractLoop_chars (split_header_rest (pyNormNl desc)).1
        presEmpty ch).2.2.1 hch with h1 | ⟨l, hl, hcl⟩
    · simp [presEmpty] at h1
    · exact hline l hl ch hcl
  · rcases (extractLoop_chars (split_header_rest (pyNormNl desc)).1
        presEmpty ch).2.2.2 hch with h1 | ⟨l, hl, hcl⟩
    · simp [presEmpty] at h1
    · exact hline l hl ch hcl

theorem mergeLines_lineFree (desc c w : Str) (b : Option Str)
    (hc : lineFree c) (hw : lineFree w)
    (hb : ∀ bv, b = some bv → lineFree bv) :
    ∀ l ∈ mergeLines desc c w b, lineFree l := by
  intro l hl
  have hml : mergeLines desc c w b =
      dropTrailingEmpties
          (newHeaderLines c w (mergePres desc) ++
            appendBatch (split_header_rest (pyNormNl desc)).2 b) ++
        [[], str "@lead"] := rfl
  rw [hml] at hl
  rcases List.mem_append.mp hl with h1 | h1
  · have h2 := sublist_mem_dTE h1
    rcases List.mem_append.mp h2 with h3 | h3
    · obtain ⟨hP1, hP2, hP3, hP4⟩ := mergePres_lineFree desc
      rw [newHeaderLines_eq] at h3
      simp only [List.mem_cons, List.not_mem_nil, or_false] at h3
      rcases h3 with h | h | h | h | h | h | h <;> rw [h]
      · exact lineFree_label_line (by unfold lineFree; decide) hc
      · exact lineFree_label_line (by unfold lineFree; decide) hP1
      · exact lineFree_label_line (by unfold lineFree; decide) hP2
      · exact lineFree_label_line (by unfold lineFree; decide) hP3
      · exact lineFree_label_line (by unfold lineFree; decide) hP4
      · exact lineFree_label_line (by unfold lineFree; decide) hw
      · intro ch hch; simp at hch
    · rcases mem_appendBatch h3 with h4 | h4 | ⟨bv, hbeq, h4⟩
      · exact pySplitlines_lineFree _ l
          ((split_header_rest_subsets (pyNormNl desc)).2 l h4)
      · rw [h4]; intro ch hch; simp at hch
      · rw [h4]; exact hb bv hbeq
  · simp only [List.mem_cons, List.not_mem_nil, or_false] at h1
    rcases h1 with h | h <;> rw [h]
    · intro ch hch; simp at hch
    · unfold lineFree; decide

/- ---- re-parsing the merged output ---- -/

theorem merge_reparse (desc c w : Str) (b : Option Str)
    (hc : lineFree c) (hw : lineFree w)
    (hbL : ∀ bv, b = some bv → lineFree bv) :
    pySplitlines (pyNormNl (pyNormNl (normalize_header_block desc c w b))) =
      mergeLines desc c w b ∧
    pyNormNl (normalize_header_block desc c w b) =
      normalize_header_block desc c w b := by
  have hMf := mergeLines_lineFree desc c w b hc hw hbL
  have hout1 : normalize_header_block desc c w b =
      joinNl (mergeLines desc c w b) ++ [Char.ofNat 10] :=
    normalize_header_block_eq_join desc c w b (nl_not_mem_of_lineFree hc)
      (nl_not_mem_of_lineFree hw)
      (fun bv hbeq => nl_not_mem_of_lineFree (hbL bv hbeq))
  obtain ⟨Z, hshape, _⟩ := mergeLines_shape desc c w b
  have hMne : mergeLines desc c w b ≠ [] := by
    rw [hshape]; simp [headerSix]
  have hnoCR : Char.ofNat 13 ∉ normalize_header_block desc c w b := by
    rw [hout1]
    intro hm
    rcases List.mem_append.mp hm with h1 | h1
    · rcases mem_joinNl h1 with h2 | ⟨l, hl, h2⟩
      · exact absurd h2 (by decide)
      · exact noCR_of_lineFree (hMf l hl) h2
    · exact absurd (List.mem_singleton.mp h1) (by decide)
  have hnn : pyNormNl (normalize_header_block desc c w b) =
      normalize_header_block desc c w b := pyNormNl_of_noCR hnoCR
  refine ⟨?_, hnn⟩
  rw [hnn, hnn, hout1]
  exact pySplitlines_join hMne hMf

theorem merge_split (desc c w : Str) (b : Option Str)
    (hc : lineFree c) (hw : lineFree w)
    (hbL : ∀ bv, b = some bv → lineFree bv) :
    ∃ Z : List Str,
      split_header_rest (pyNormNl (normalize_header_block desc c w b)) =
        ([hard (labCompany ++ str ": " ++ c),
          hard (labFirst ++ str ": " ++ (mergePres desc).first),
          hard (labEmail ++ str ": " ++ (mergePres desc).email),
          hard (labHook ++ str ": " ++ (mergePres desc).hook),
          hard (labVariant ++ str ": " ++ (mergePres desc).variant),
          hard (labWebsite ++ str ": " ++ w), []], Z ++ [str "@lead"]) ∧
      mergeLines desc c w b =
        headerSix c w (mergePres desc) ++ ([] :: (Z ++ [str "@lead"])) ∧
      (∀ bv, b = some bv → bv ≠ [] → pyStrip bv = bv →
        ∃ l ∈ Z, pyStrip l = bv) := by
  obtain ⟨Z, hshape, hbatch⟩ := mergeLines_shape desc c w b
  obtain ⟨hlines, _⟩ := merge_reparse desc c w b hc hw hbL
  refine ⟨Z, ?_, hshape, hbatch⟩
  have hMcons : mergeLines desc c w b =
      hard (labCompany ++ str ": " ++ c) ::
      (hard (labFirst ++ str ": " ++ (mergePres desc).first) ::
       hard (labEmail ++ str ": " ++ (mergePres desc).email) ::
       hard (labHook ++ str ": " ++ (mergePres desc).hook) ::
       hard (labVariant ++ str ": " ++ (mergePres desc).variant) ::
       hard (labWebsite ++ str ": " ++ w) :: [] :: (Z ++ [str "@lead"])) := by
    rw [hshape]; rfl
  have hCmem : ('C' : Char) ∈ hard (labCompany ++ str ": " ++ c) := by
    rw [hard_label_shape]
    exact List.mem_append.mpr (Or.inl (by decide))
  have hClne := pyStrip_ne_of_mem_nonspace hCmem (by decide)
  have hisE : (pyStrip (hard (labCompany ++ str ": " ++ c))).isEmpty = false := by
    rcases hps : pyStrip (hard (labCompany ++ str ": " ++ c)) with _ | ⟨a, t⟩
    · exact absurd hps hClne
    · rfl
  have hdw : (pySplitlines (pyNormNl
        (pyNormNl (normalize_header_block desc c w b)))).dropWhile
      (fun l => (pyStrip l).isEmpty) =
      hard (labCompany ++ str ": " ++ c) ::
      (hard (labFirst ++ str ": " ++ (mergePres desc).first) ::
       hard (labEmail ++ str ": " ++ (mergePres desc).email) ::
       hard (labHook ++ str ": " ++ (mergePres desc).hook) ::
       hard (labVariant ++ str ": " ++ (mergePres desc).variant) ::
       hard (labWebsite ++ str ": " ++ w) :: [] :: (Z ++ [str "@lead"])) := by
    rw [hlines, hMcons, List.dropWhile_cons, if_neg (by simpa using hClne)]
  have hlab : isLabelLine (hard (labCompany ++ str ": " ++ c)) = true := by
    obtain ⟨g, hg, _⟩ := firstLabelMatch_hard_company c
    unfold isLabelLine
    rw [hg]
    rfl
  rw [split_header_rest_cons_case hdw, if_pos hlab]
  exact shrLoop_newHeader c w (mergePres desc).first (mergePres desc).email
    (mergePres desc).hook (mergePres desc).variant (Z ++ [str "@lead"])

theorem merge_mergePres (desc c w : Str) (b : Option Str)
    (hc : lineFree c) (hw : lineFree w)
    (hbL : ∀ bv, b = some bv → lineFree bv) :
    mergePres (normalize_header_block desc c w b) = mergePres desc := by
  obtain ⟨Z, hsr, _, _⟩ := merge_split desc c w b hc hw hbL
  have hsr1 : (split_header_rest
      (pyNormNl (normalize_header_block desc c w b))).1 =
      [hard (labCompany ++ str ": " ++ c),
       hard (labFirst ++ str ": " ++ (mergePres desc).first),
       hard (labEmail ++ str ": " ++ (mergePres desc).email),
       hard (labHook ++ str ": " ++ (mergePres desc).hook),
       hard (labVariant ++ str ": " ++ (mergePres desc).variant),
       hard (labWebsite ++ str ": " ++ w), []] := by
    rw [hsr]
  have hstr' : pyStrip (mergePres desc).first = (mergePres desc).first ∧
      pyStrip (mergePres desc).email = (mergePres desc).email ∧
      pyStrip (mergePres desc).hook = (mergePres desc).hook ∧
      pyStrip (mergePres desc).variant = (mergePres desc).variant :=
    extractLoop_stripped (split_header_rest (pyNormNl desc)).1 presEmpty
      ⟨rfl, rfl, rfl, rfl⟩
  show extractLoop (split_header_rest
      (pyNormNl (normalize_header_block desc c w b))).1 presEmpty =
    mergePres desc
  rw [hsr1, extractLoop_newHeader, hstr'.1, hstr'.2.1, hstr'.2.2.1,
    hstr'.2.2.2]

theorem merge_rest2 {Z : List Str} (b : Option Str)
    (hbat : ∀ bv, b = some bv →
      bv ≠ [] ∧ pyStrip bv = bv ∧ ∃ l ∈ Z, pyStrip l = bv) :
    appendBatch (Z ++ [str "@lead"]) b = Z ++ [str "@lead"] := by
  rcases b with _ | bv
  · rfl
  · obtain ⟨hbne, hbstr, l, hl, hpl⟩ := hbat bv rfl
    refine appendBatch_some_any hbne ?_
    refine List.any_eq_true.mpr ⟨l, List.mem_append.mpr (Or.inl hl), ?_⟩
    simp [hpl]

theorem merge_merge_law (desc c w : Str) (b : Option Str)
    (hc : lineFree c) (hw : lineFree w)
    (hb : ∀ bv, b = some bv → lineFree bv ∧ bv ≠ [] ∧ pyStrip bv = bv) :
    normalize_header_block (normalize_header_block desc c w b) c w b =
      normalize_header_block desc c w b ++ str "\n@lead\n" := by
  have hbL : ∀ bv, b = some bv → lineFree bv := fun bv h => (hb bv h).1
  obtain ⟨Z, hsr, hshape, hbatch⟩ := merge_split desc c w b hc hw hbL
  have hMf := mergeLines_lineFree desc c w b hc hw hbL
  have hout1 : normalize_header_block desc c w b =
      joinNl (mergeLines desc c w b) ++ [Char.ofNat 10] :=
    normalize_header_block_eq_join desc c w b (nl_not_mem_of_lineFree hc)
      (nl_not_mem_of_lineFree hw)
      (fun bv hbeq => nl_not_mem_of_lineFree (hbL bv hbeq))
  have hMne : mergeLines desc c w b ≠ [] := by
    rw [hshape]; simp [headerSix]
  have hP2 : mergePres (normalize_header_block desc c w b) = mergePres desc :=
    merge_mergePres desc c w b hc hw hbL
  have hsr2 : (split_header_rest
      (pyNormNl (normalize_header_block desc c w b))).2 =
      Z ++ [str "@lead"] := by
    rw [hsr]
  have hrest : appendBatch (Z ++ [str "@lead"]) b = Z ++ [str "@lead"] := by
    refine merge_rest2 b ?_
    intro bv hbeq
    obtain ⟨h1, h2, h3⟩ := hb bv hbeq
    exact ⟨h2, h3, hbatch bv hbeq h2 h3⟩
  have hML2 : mergeLines (normalize_header_block desc c w b) c w b =
      mergeLines desc c w b ++ [[], str "@lead"] := by
    have hd : mergeLines (normalize_header_block desc c w b) c w b =
        dropTrailingEmpties
            (newHeaderLines c w
                (mergePres (normalize_header_block desc c w b)) ++
              appendBatch (split_header_rest
                (pyNormNl (normalize_header_block desc c w b))).2 b) ++
          [[], str "@lead"] := rfl
    rw [hd, hP2, hsr2, hrest]
    have hA : newHeaderLines c w (mergePres desc) ++ (Z ++ [str "@lead"]) =
        (newHeaderLines c w (mergePres desc) ++ Z) ++ [str "@lead"] := by
      simp
    rw [hA, dTE_append_singleton_ne (by decide) _]
    rw [hshape, newHeaderLines_headerSix]
    simp
  have hout2 : normalize_header_block
      (normalize_header_block desc c w b) c w b =
      joinNl (mergeLines (normalize_header_block desc c w b) c w b) ++
        [Char.ofNat 10] :=
    normalize_header_block_eq_join _ c w b (nl_not_mem_of_lineFree hc)
      (nl_not_mem_of_lineFree hw)
      (fun bv hbeq => nl_not_mem_of_lineFree (hbL bv hbeq))
  rw [hout2, hML2, joinNl_append hMne (by decide), hout1]
  have htail : (Char.ofNat 10 :: joinNl [[], str "@lead"]) ++
      [Char.ofNat 10] = [Char.ofNat 10] ++ str "\n@lead\n" := by decide
  rw [List.append_assoc (joinNl (mergeLines desc c w b))
    (Char.ofNat 10 :: joinNl [[], str "@lead"]) [Char.ofNat 10], htail,
    ← List.append_assoc]

/- =====================================================================
   CLAIMS C2, C4, C5
   ===================================================================== -/

/-- Claim C2 counterexample: a concrete double merge differs from the
single merge, because every merge appends a fresh blank line and
`@lead` marker. -/
theorem merge_idempotence_cex :
    normalize_header_block
        (normalize_header_block (str "Company: Old\n") (str "A") (str "B")
          none) (str "A") (str "B") none ≠
      normalize_header_block (str "Company: Old\n") (str "A") (str "B")
        none := by decide

/-- Claim C2 (corrected): merging twice with identical company, website
and batch arguments is not idempotent; the second merge output equals
the first merge output with one extra blank-line-plus-`@lead` marker
block appended. -/
theorem merge_twice_appends_marker (desc c w : Str) (b : Option Str)
    (hc : lineFree c) (hw : lineFree w)
    (hb : ∀ bv, b = some bv → lineFree bv ∧ bv ≠ [] ∧ pyStrip bv = bv) :
    normalize_header_block (normalize_header_block desc c w b) c w b =
      normalize_header_block desc c w b ++ str "\n@lead\n" :=
  merge_merge_law desc c w b hc hw hb

/-- Claim C2 witness: the corrected law at a concrete input. -/
theorem merge_twice_appends_marker_witness :
    normalize_header_block
        (normalize_header_block (str "Company: Old\nFirst: Jane\n")
          (str "NewCo") (str "example.com") (some (str "batch-1")))
        (str "NewCo") (str "example.com") (some (str "batch-1")) =
      normalize_header_block (str "Company: Old\nFirst: Jane\n")
        (str "NewCo") (str "example.com") (some (str "batch-1")) ++
      str "\n@lead\n" :=
  merge_twice_appends_marker _ _ _ _
    (by unfold lineFree; decide) (by unfold lineFree; decide)
    (by
      intro bv h
      injection h with h2
      subst h2
      exact ⟨by unfold lineFree; decide, by decide, by decide⟩)

/-- Claim C4 (confirmed): the merged output emits the preserved labels
First, Email, Hook and Variant with exactly the values extracted from
the input header run, while Company and Website take the overwrite
values; concretely, merging a card whose header holds Company Old Co
and First Jane with Company overwritten to New Co keeps First Jane,
empty Email, Hook, Variant, and the Some notes trailer. -/
theorem merge_preserves_labels (desc c w : Str) (b : Option Str)
    (hc : lineFree c) (hw : lineFree w)
    (hbL : ∀ bv, b = some bv → lineFree bv) :
    (∃ TAIL : List Str,
      pySplitlines (pyNormNl (normalize_header_block desc c w b)) =
        hard (labCompany ++ str ": " ++ c) ::
        hard (labFirst ++ str ": " ++ (mergePres desc).first) ::
        hard (labEmail ++ str ": " ++ (mergePres desc).email) ::
        hard (labHook ++ str ": " ++ (mergePres desc).hook) ::
        hard (labVariant ++ str ": " ++ (mergePres desc).variant) ::
        hard (labWebsite ++ str ": " ++ w) :: TAIL) ∧
    normalize_header_block
        (str "Company: Old Co  \nFirst: Jane  \n\nSome notes\n")
        (str "New Co") (str "") none =
      str "Company: New Co  \nFirst: Jane  \nEmail:  \nHook:  \nVariant:  \nWebsite:  \n\nSome notes\n\n@lead\n" := by
  constructor
  · obtain ⟨Z, _, hshape, _⟩ := merge_split desc c w b hc hw hbL
    obtain ⟨hlines, hnn⟩ := merge_reparse desc c w b hc hw hbL
    have h2 := congrArg pyNormNl hnn
    refine ⟨[] :: (Z ++ [str "@lead"]), ?_⟩
    rw [← h2, hlines, hshape]
    rfl
  · decide

/-- Claim C4 witness: the preservation statement at a concrete input. -/
theorem merge_preserves_labels_witness :
    (∃ TAIL : List Str,
      pySplitlines (pyNormNl
          (normalize_header_block (str "First: J\n") (str "A") (str "B")
            none)) =
        hard (labCompany ++ str ": " ++ str "A") ::
        hard (labFirst ++ str ": " ++ (mergePres (str "First: J\n")).first) ::
        hard (labEmail ++ str ": " ++ (mergePres (str "First: J\n")).email) ::
        hard (labHook ++ str ": " ++ (mergePres (str "First: J\n")).hook) ::
        hard (labVariant ++ str ": " ++
          (mergePres (str "First: J\n")).variant) ::
        hard (labWebsite ++ str ": " ++ str "B") :: TAIL) ∧
    normalize_header_block
        (str "Company: Old Co  \nFirst: Jane  \n\nSome notes\n")
        (str "New Co") (str "") none =
      str "Company: New Co  \nFirst: Jane  \nEmail:  \nHook:  \nVariant:  \nWebsite:  \n\nSome notes\n\n@lead\n" :=
  merge_preserves_labels (str "First: J\n") (str "A") (str "B") none
    (by unfold lineFree; decide) (by unfold lineFree; decide)
    (by intro bv h; cases h)

/-- Claim C5 counterexample: the trailer is not byte-identical in the
output — trailing blank lines after the trailer text are dropped, so
the input trailer bytes need not occur in the merge output at all. -/
theorem merge_trailer_cex :
    isSubstr (str "notes\n\n\n") (str "Company: X\n\nnotes\n\n\n") = true ∧
    isSubstr (str "notes\n\n\n")
      (normalize_header_block (str "Company: X\n\nnotes\n\n\n") (str "C")
        (str "W") none) = false := by decide

/-- Claim C5 (corrected): the merged output reproduces the lines after
the header run with trailing empty lines dropped, after appending at
most the batch marker line (with at most one blank separator) when one
is supplied. -/
theorem merge_trailer_frame (desc c w : Str) (b : Option Str)
    (hc : lineFree c) (hw : lineFree w)
    (hbL : ∀ bv, b = some bv → lineFree bv) :
    ∃ R2 : List Str,
      (R2 = (split_header_rest (pyNormNl desc)).2 ∨
        ∃ bv, b = some bv ∧
          (R2 = (split_header_rest (pyNormNl desc)).2 ++ [bv] ∨
           R2 = (split_header_rest (pyNormNl desc)).2 ++ [[], bv])) ∧
      pySplitlines (pyNormNl (normalize_header_block desc c w b)) =
        dropTrailingEmpties
            (newHeaderLines c w (mergePres desc) ++ R2) ++
          [[], str "@lead"] := by
  refine ⟨appendBatch (split_header_rest (pyNormNl desc)).2 b, ?_, ?_⟩
  · rcases b with _ | bv
    · exact Or.inl rfl
    · rw [appendBatch_some_eq]
      split
      · exact Or.inl rfl
      · split
        · exact Or.inl rfl
        · split
          · exact Or.inr ⟨bv, rfl, Or.inr (by simp)⟩
          · exact Or.inr ⟨bv, rfl, Or.inl rfl⟩
  · obtain ⟨hlines, hnn⟩ := merge_reparse desc c w b hc hw hbL
    have h2 := congrArg pyNormNl hnn
    rw [← h2, hlines]
    rfl

/-- Claim C5 witness: the trailer frame statement at a concrete input. -/
theorem merge_trailer_frame_witness :
    ∃ R2 : List Str,
      (R2 = (split_header_rest (pyNormNl (str "x\n"))).2 ∨
        ∃ bv, (some (str "q") : Option Str) = some bv ∧
          (R2 = (split_header_rest (pyNormNl (str "x\n"))).2 ++ [bv] ∨
           R2 = (split_header_rest (pyNormNl (str "x\n"))).2 ++ [[], bv])) ∧
      pySplitlines (pyNormNl (normalize_header_block (str "x\n") (str "A")
          (str "B") (some (str "q")))) =
        dropTrailingEmpties
            (newHeaderLines (str "A") (str "B") (mergePres (str "x\n")) ++
              R2) ++
          [[], str "@lead"] :=
  merge_trailer_frame (str "x\n") (str "A") (str "B") (some (str "q"))
    (by unfold lineFree; decide) (by unfold lineFree; decide)
    (by
      intro bv h
      injection h with h2
      subst h2
      unfold lineFree; decide)

/- =====================================================================
   CLAIM C1: URL guarantees of resolve_website
   ===================================================================== -/

theorem nuCheck_ok {u2 u : Str} (h : nuCheck u2 = some u) :
    u = u2 ∧
    ((urlparse u2).scheme = str "http" ∨
      (urlparse u2).scheme = str "https") ∧
    (urlparse u2).netloc ≠ [] ∧
    pyTruthyS (pUsername (urlparse u2).netloc) = false ∧
    pyTruthyS (pPassword (urlparse u2).netloc) = false ∧
    ('@' : Char) ∉ (urlparse u2).netloc := by
  unfold nuCheck at h
  split at h
  · exact absurd h (by simp)
  · split at h
    · exact absurd h (by simp)
    · split at h
      · exact absurd h (by simp)
      · rename_i hc1 hc2 hc3
        injection h with h2
        refine ⟨h2.symm, not_not.mp hc1, hc2, ?_, ?_, ?_⟩
        · have h3 := (not_or.mp hc3).1
          simpa using h3
        · have h3 := (not_or.mp (not_or.mp hc3).2).1
          simpa using h3
        · exact (not_or.mp (not_or.mp hc3).2).2

theorem normalize_url_ok {v u : Str} (h : normalize_url v = some u) :
    ((urlparse u).scheme = str "http" ∨
      (urlparse u).scheme = str "https") ∧
    (urlparse u).netloc ≠ [] ∧
    pyTruthyS (pUsername (urlparse u).netloc) = false ∧
    pyTruthyS (pPassword (urlparse u).netloc) = false ∧
    ('@' : Char) ∉ (urlparse u).netloc := by
  unfold normalize_url at h
  split at h
  · exact absurd h (by simp)
  · split at h
    · exact absurd h (by simp)
    · split at h
      · exact absurd h (by simp)
      · obtain ⟨he, rest⟩ := nuCheck_ok h
        rw [he]
        exact rest

theorem normalize_url_opt_some {o : Option Str} {u : Str}
    (h : normalize_url_opt o = some u) :
    ∃ v, normalize_url v = some u := by
  cases o with
  | none => simp [normalize_url_opt] at h
  | some v => exact ⟨v, h⟩

theorem wdLoop_some {l : List Str} {u : Str} (h : wdLoop l = some u) :
    ∃ v, normalize_url v = some u := by
  induction l with
  | nil => simp [wdLoop] at h
  | cons dv rest ih =>
      unfold wdLoop at h
      split at h
      · next w hw =>
          injection h with h2
          exact ⟨dv, by rw [hw, h2]⟩
      · exact ih h

theorem wikidata_some {qid : Str} {resp : Option (List Str)} {u : Str}
    (h : wikidata_website_from_qid qid resp = some u) :
    ∃ v, normalize_url v = some u := by
  unfold wikidata_website_from_qid at h
  split at h
  · exact absurd h (by simp)
  · split at h
    · exact absurd h (by simp)
    · exact wdLoop_some h

theorem nomLoop_some {l : List Tags3} {u : Str} (h : nomLoop l = some u) :
    ∃ v, normalize_url v = some u := by
  induction l with
  | nil => simp [nomLoop] at h
  | cons it rest ih =>
      unfold nomLoop at h
      split at h
      · next w hw =>
          injection h with h2
          obtain ⟨v, hv⟩ := normalize_url_opt_some hw
          exact ⟨v, by rw [hv, h2]⟩
      · exact ih h

theorem nominatim_some {name : Str} {resp : Option (List Tags3)} {u : Str}
    (h : nominatim_lookup_website name resp = some u) :
    ∃ v, normalize_url v = some u := by
  unfold nominatim_lookup_website at h
  split at h
  · exact absurd h (by simp)
  · split at h
    · exact absurd h (by simp)
    · exact nomLoop_some h

theorem fsqTail_some {f : FsqFirst} {u : Str} (h : fsqTail f = some u) :
    ∃ v, normalize_url v = some u := by
  unfold fsqTail at h
  split at h
  · exact absurd h (by simp)
  · split at h
    · exact absurd h (by simp)
    · split at h
      · exact absurd h (by simp)
      · split at h
        · exact absurd h (by simp)
        · next w hweq =>
            split at h
            · exact absurd h (by simp)
            · exact ⟨w, h⟩

theorem fsq_some {hasKey : Bool} {resp : Option (Option FsqFirst)}
    {u : Str} (h : fsq_find_website hasKey resp = some u) :
    ∃ v, normalize_url v = some u := by
  unfold fsq_find_website at h
  split at h
  · exact absurd h (by simp)
  · split at h
    · exact absurd h (by simp)
    · exact absurd h (by simp)
    · next f =>
        split at h
        · next website hwb =>
            split at h
            · exact fsqTail_some h
            · exact ⟨website, h⟩
        · exact fsqTail_some h

theorem overpass_name_some {enabled : Bool} {name : Str}
    {js : Option (List OElem)} {etld1 : Str → Str} {u : Str}
    (h : overpass_lookup_website_by_name enabled name js etld1 = some u) :
    ∃ v, normalize_url v = some u := by
  unfold overpass_lookup_website_by_name at h
  split at h
  · exact absurd h (by simp)
  · split at h
    · exact absurd h (by simp)
    · split at h
      · exact absurd h (by simp)
      · split at h
        · exact absurd h (by simp)
        · split at h
          · next best hb =>
              split at h
              · exact absurd h (by simp)
              · exact ⟨best, h⟩
          · exact absurd h (by simp)

theorem resolve_some {name : Str} {env : ResolveEnv} {u : Str}
    (h : resolve_website name env = some u) :
    ∃ v, normalize_url v = some u := by
  unfold resolve_website at h
  split at h
  · next w hw =>
      injection h with h2
      obtain ⟨v, hv⟩ := normalize_url_opt_some hw
      exact ⟨v, by rw [hv, h2]⟩
  · split at h
    · next w hw =>
        injection h with h2
        obtain ⟨v, hv⟩ := wikidata_some hw
        exact ⟨v, by rw [hv, h2]⟩
    · split at h
      · next w hw =>
          injection h with h2
          obtain ⟨v, hv⟩ := nominatim_some hw
          exact ⟨v, by rw [hv, h2]⟩
      · split at h
        · next w hw =>
            injection h with h2
            obtain ⟨v, hv⟩ := overpass_name_some hw
            exact ⟨v, by rw [hv, h2]⟩
        · exact normalize_url_opt_some h

/-- Claim C1 counterexample: a direct hint of ":8080" resolves to
"https://:8080" — an accepted URL whose netloc is nonempty but whose
host is empty, against the non-empty-host guarantee. -/
theorem resolve_empty_host_cex :
    resolve_website (str "Biz")
      ⟨some (str ":8080"), none, none, none, false, none, fun _ => [],
        false, none⟩ = some (str "https://:8080") ∧
    pHost (urlparse (str "https://:8080")).netloc = [] ∧
    (urlparse (str "https://:8080")).netloc ≠ [] := by
  refine ⟨rfl, by decide, by decide⟩

/-- Claim C1 (corrected): every URL resolve_website returns — through
any of the five strategies — is absolute with scheme http or https,
carries no username, password or `@` in its netloc, and has a
non-empty netloc; a non-empty host is however not guaranteed. -/
theorem resolve_website_url_ok (name : Str) (env : ResolveEnv) (u : Str)
    (h : resolve_website name env = some u) :
    ((urlparse u).scheme = str "http" ∨
      (urlparse u).scheme = str "https") ∧
    (urlparse u).netloc ≠ [] ∧
    pyTruthyS (pUsername (urlparse u).netloc) = false ∧
    pyTruthyS (pPassword (urlparse u).netloc) = false ∧
    ('@' : Char) ∉ (urlparse u).netloc := by
  obtain ⟨v, hv⟩ := resolve_some h
  exact normalize_url_ok hv

/-- Claim C1 witness: the corrected guarantee at a concrete resolve. -/
theorem resolve_website_url_ok_witness :
    ((urlparse (str "https://example.com")).scheme = str "http" ∨
      (urlparse (str "https://example.com")).scheme = str "https") ∧
    (urlparse (str "https://example.com")).netloc ≠ [] ∧
    pyTruthyS (pUsername (urlparse (str "https://example.com")).netloc) =
      false ∧
    pyTruthyS (pPassword (urlparse (str "https://example.com")).netloc) =
      false ∧
    ('@' : Char) ∉ (urlparse (str "https://example.com")).netloc :=
  resolve_website_url_ok (str "Biz")
    ⟨some (str "https://example.com"), none, none, none, false, none,
      fun _ => [], false, none⟩
    (str "https://example.com") rfl

/- =====================================================================
   CLAIM C6: the fuzzy name-match scorer
   ===================================================================== -/

theorem scoreElem_nonneg (n : Str) (etld1 : Str → Str) (el : OElem)
    (w : Str) : 0 ≤ scoreElem n etld1 el w := by
  unfold scoreElem
  refine add_nonneg (add_nonneg ?_ (le_max_left 0 _)) ?_
  · split
    · norm_num
    · split
      · norm_num
      · positivity
  · split
    · norm_num
    · norm_num

theorem specSelect_cons_le {s : ℚ} {q : Str × ℚ} (hq : q.2 ≤ s)
    (w : Str) (L : List (Str × ℚ)) :
    specSelect ((w, s) :: q :: L) = specSelect ((w, s) :: L) := by
  by_cases hall : L.all (fun r => decide (r.2 ≤ s)) = true
  · have h1 : (q :: L).all (fun r => decide (r.2 ≤ s)) = true := by
      simp only [List.all_cons, hall, Bool.and_true, decide_eq_true_eq]
      exact hq
    simp [specSelect, h1, hall]
  · have h2 : (q :: L).all (fun r => decide (r.2 ≤ s)) = false := by
      simp only [List.all_cons, Bool.and_eq_false_iff]
      exact Or.inr (by simpa using hall)
    have h3 : L.all (fun r => decide (r.2 ≤ q.2)) = false := by
      rw [Bool.eq_false_iff]
      intro hq2
      apply hall
      rw [List.all_eq_true] at hq2 ⊢
      intro r hr
      have h4 : r.2 ≤ q.2 := by simpa using hq2 r hr
      simp [le_trans h4 hq]
    simp [specSelect, h2, hall, h3]

theorem scoredElems_cons_skip {n : Str} {etld1 : Str → Str} {el : OElem}
    (rest : List OElem) (h : tags3W el.tags = none ∨ tags3W el.tags = some []) :
    scoredElems n etld1 (el :: rest) = scoredElems n etld1 rest := by
  unfold scoredElems
  rcases h with h | h <;> simp [List.filterMap_cons, h]

theorem scoredElems_cons_w {n : Str} {etld1 : Str → Str} {el : OElem}
    {w : Str} (rest : List OElem) (hw : tags3W el.tags = some w)
    (hne : w ≠ []) :
    scoredElems n etld1 (el :: rest) =
      (w, scoreElem n etld1 el w) :: scoredElems n etld1 rest := by
  unfold scoredElems
  simp [List.filterMap_cons, hw, hne]

theorem lookupLoop_some_spec (n : Str) (etld1 : Str → Str) :
    ∀ (els : List OElem) (w : Str) (s : ℚ),
      (lookupLoop n etld1 els (some w) s).1 =
        specSelect ((w, s) :: scoredElems n etld1 els) := by
  intro els
  induction els with
  | nil =>
      intro w s
      simp [lookupLoop, scoredElems, specSelect]
  | cons el rest ih =>
      intro w s
      unfold lookupLoop
      split
      · next hw =>
          rw [scoredElems_cons_skip rest (Or.inl hw)]
          exact ih w s
      · next w2 hw =>
          split
          · next hne =>
              rw [scoredElems_cons_skip rest (Or.inr (hne ▸ hw))]
              exact ih w s
          · next hne =>
              rw [scoredElems_cons_w rest hw hne]
              split
              · next hlt =>
                  rw [ih w2 (scoreElem n etld1 el w2)]
                  have hfa : ((w2, scoreElem n etld1 el w2) ::
                      scoredElems n etld1 rest).all
                      (fun r => decide (r.2 ≤ s)) = false := by
                    simp only [List.all_cons, Bool.and_eq_false_iff]
                    exact Or.inl (by simp [not_le.mpr hlt])
                  simp [specSelect, hfa]
              · next hlt =>
                  rw [ih w s]
                  exact (specSelect_cons_le (not_lt.mp hlt) w
                    (scoredElems n etld1 rest)).symm

theorem lookupLoop_none_spec (n : Str) (etld1 : Str → Str) :
    ∀ (els : List OElem) (s : ℚ),
      (∀ p ∈ scoredElems n etld1 els, s < p.2) →
      (lookupLoop n etld1 els none s).1 =
        specSelect (scoredElems n etld1 els) := by
  intro els
  induction els with
  | nil =>
      intro s _
      simp [lookupLoop, scoredElems, specSelect]
  | cons el rest ih =>
      intro s hall
      unfold lookupLoop
      split
      · next hw =>
          rw [scoredElems_cons_skip rest (Or.inl hw)]
          rw [scoredElems_cons_skip rest (Or.inl hw)] at hall
          exact ih s hall
      · next w2 hw =>
          split
          · next hne =>
              rw [scoredElems_cons_skip rest (Or.inr (hne ▸ hw))]
              rw [scoredElems_cons_skip rest (Or.inr (hne ▸ hw))] at hall
              exact ih s hall
          · next hne =>
              have hsc : s < scoreElem n etld1 el w2 := by
                refine hall (w2, scoreElem n etld1 el w2) ?_
                rw [scoredElems_cons_w rest hw hne]
                simp
              rw [if_pos hsc, lookupLoop_some_spec n etld1 rest w2 _,
                scoredElems_cons_w rest hw hne]

/-- Claim C6 (confirmed): with the lookup enabled and a non-degenerate
name, the Overpass name resolver returns the normalized website of the
first-seen highest-scoring element that declares one (scores as in
scoreElem: 50 exact normalized-name match, else 30 substring, else 6
per shared token, plus max(0, 20 − distance) and +5 for a non-empty
registrable domain), and none when no element declares a website. -/
theorem overpass_lookup_matches_spec (name : Str) (els : List OElem)
    (etld1 : Str → Str) (h1 : name ≠ []) (h2 : norm_name name ≠ []) :
    overpass_lookup_website_by_name true name (some els) etld1 =
      (match specSelect (scoredElems (norm_name name) etld1 els) with
       | some best => if best = [] then none else normalize_url best
       | none => none) ∧
    (scoredElems (norm_name name) etld1 els = [] →
      overpass_lookup_website_by_name true name (some els) etld1 =
        none) := by
  have hgt : ∀ p ∈ scoredElems (norm_name name) etld1 els,
      -(1000000000 : ℚ) < p.2 := by
    intro p hp
    unfold scoredElems at hp
    rw [List.mem_filterMap] at hp
    obtain ⟨el, _, hel⟩ := hp
    split at hel
    · exact absurd hel (by simp)
    · next w2 hw =>
        split at hel
        · exact absurd hel (by simp)
        · injection hel with h3
          rw [← h3]
          have hs := scoreElem_nonneg (norm_name name) etld1 el w2
          have : (-(1000000000 : ℚ)) < 0 := by norm_num
          simpa using lt_of_lt_of_le this hs
  have hmain : overpass_lookup_website_by_name true name (some els)
      etld1 =
      (match specSelect (scoredElems (norm_name name) etld1 els) with
       | some best => if best = [] then none else normalize_url best
       | none => none) := by
    unfold overpass_lookup_website_by_name
    rw [if_neg (by simp), if_neg h1, if_neg h2]
    show (match (lookupLoop (norm_name name) etld1 els none
        (-(1000000000 : ℚ))).1 with
      | some best => if best = [] then none else normalize_url best
      | none => none) = _
    rw [lookupLoop_none_spec (norm_name name) etld1 els _ hgt]
  refine ⟨hmain, ?_⟩
  intro hz
  rw [hmain, hz]
  simp [specSelect]

/-- Claim C6 witness: the scorer statement at a one-element input. -/
theorem overpass_lookup_matches_spec_witness :
    overpass_lookup_website_by_name true (str "Cafe Blue")
      (some [⟨some (str "Cafe Blue"),
        ⟨some (str "https://cafeblue.ch"), none, none⟩, 0⟩])
      (fun s => if s = str "https://cafeblue.ch" then str "cafeblue.ch"
        else []) =
      (match specSelect (scoredElems (norm_name (str "Cafe Blue"))
          (fun s => if s = str "https://cafeblue.ch" then
            str "cafeblue.ch" else [])
          [⟨some (str "Cafe Blue"),
            ⟨some (str "https://cafeblue.ch"), none, none⟩, 0⟩]) with
       | some best => if best = [] then none else normalize_url best
       | none => none) ∧
    (scoredElems (norm_name (str "Cafe Blue"))
        (fun s => if s = str "https://cafeblue.ch" then
          str "cafeblue.ch" else [])
        [⟨some (str "Cafe Blue"),
          ⟨some (str "https://cafeblue.ch"), none, none⟩, 0⟩] = [] →
      overpass_lookup_website_by_name true (str "Cafe Blue")
        (some [⟨some (str "Cafe Blue"),
          ⟨some (str "https://cafeblue.ch"), none, none⟩, 0⟩])
        (fun s => if s = str "https://cafeblue.ch" then
          str "cafeblue.ch" else []) = none) :=
  overpass_lookup_matches_spec (str "Cafe Blue")
    [⟨some (str "Cafe Blue"),
      ⟨some (str "https://cafeblue.ch"), none, none⟩, 0⟩]
    (fun s => if s = str "https://cafeblue.ch" then str "cafeblue.ch"
      else [])
    (by decide) (by decide)

/- =====================================================================
   CLAIMS C3, C7, C8, C10: the filter gate and the SeenSet
   ===================================================================== -/

theorem processCandidate_seen_mono (cfg : GateCfg) (etld1 : Str → Str)
    (seen store : List Str) (c : GCand) :
    seen ⊆ (processCandidate cfg etld1 seen store c).2.1 := by
  unfold processCandidate
  split
  · exact List.Subset.refl seen
  · split
    · exact List.Subset.refl seen
    · split
      · exact List.Subset.refl seen
      · split
        · exact List.Subset.refl seen
        · split
          · exact List.Subset.refl seen
          · split
            · exact fun x hx => List.mem_cons_of_mem _ hx
            · exact List.Subset.refl seen

theorem processCandidate_dupe (cfg : GateCfg) (etld1 : Str → Str)
    (seen store : List Str) (c : GCand) (w : Str)
    (hw : c.website = some w) (hd : etld1 w ≠ []) (hm : etld1 w ∈ seen) :
    (processCandidate cfg etld1 seen store c).1 = Outcome.skipDupe := by
  simp only [processCandidate, hw]
  rw [if_pos ⟨hd, hm⟩]

theorem runGate_cons (cfg : GateCfg) (etld1 : Str → Str) (c : GCand)
    (rest : List GCand) (seen store : List Str) :
    runGate cfg etld1 (c :: rest) seen store =
      ((processCandidate cfg etld1 seen store c).1 ::
        (runGate cfg etld1 rest
          (processCandidate cfg etld1 seen store c).2.1
          (processCandidate cfg etld1 seen store c).2.2).1,
       (runGate cfg etld1 rest
          (processCandidate cfg etld1 seen store c).2.1
          (processCandidate cfg etld1 seen store c).2.2).2) := rfl

theorem runGate_seen_mono (cfg : GateCfg) (etld1 : Str → Str) :
    ∀ (cands : List GCand) (seen store : List Str),
      seen ⊆ (runGate cfg etld1 cands seen store).2.1 := by
  intro cands
  induction cands with
  | nil => intro seen store; exact List.Subset.refl seen
  | cons c rest ih =>
      intro seen store
      rw [runGate_cons]
      exact (processCandidate_seen_mono cfg etld1 seen store c).trans
        (ih _ _)

theorem runGate_zip_dupe (cfg : GateCfg) (etld1 : Str → Str) :
    ∀ (cands : List GCand) (seen store : List Str) (d : Str),
      d ≠ [] → d ∈ seen →
      ∀ p ∈ List.zip cands (runGate cfg etld1 cands seen store).1,
        ∀ w, p.1.website = some w → etld1 w = d →
          p.2 = Outcome.skipDupe := by
  intro cands
  induction cands with
  | nil => intro seen store d _ _ p hp; simp at hp
  | cons c rest ih =>
      intro seen store d hd hm p hp w hw hetld
      rw [runGate_cons] at hp
      rcases List.mem_cons.mp hp with h | h
      · subst h
        refine processCandidate_dupe cfg etld1 seen store c w ?_ ?_ ?_
        · exact hw
        · rw [hetld]; exact hd
        · rw [hetld]; exact hm
      · exact ih _ _ d hd
          (processCandidate_seen_mono cfg etld1 seen store c hm) p h w
          hw hetld

theorem mem_dedupKeepFirst :
    ∀ (l ks : List Str) (x : Str), x ∈ l → x ∉ ks →
      x ∈ dedupKeepFirst l ks := by
  intro l
  induction l with
  | nil => intro ks x hx _; simp at hx
  | cons y r ih =>
      intro ks x hx hks
      unfold dedupKeepFirst
      rcases List.mem_cons.mp hx with h | h
      · subst h
        rw [if_neg hks]
        exact List.mem_cons_self _ _
      · split
        · exact ih ks x h hks
        · by_cases hxy : x = y
          · subst hxy; exact List.mem_cons_self _ _
          · exact List.mem_cons_of_mem _
              (ih (y :: ks) x h (by simp [hxy, hks]))

theorem mem_load_seen {store : List Str} {d : Str} (hd : d ∈ store)
    (hne : d ≠ []) (hstrip : pyStrip d = d) (hlower : lowerStr d = d) :
    d ∈ load_seen store := by
  unfold load_seen
  refine mem_dedupKeepFirst _ [] d ?_ (by simp)
  rw [List.mem_map]
  refine ⟨d, List.mem_filter.mpr ⟨hd, by simp [hstrip, hne]⟩, ?_⟩
  rw [hstrip, hlower]

theorem mem_insertSorted {x y : Str} {l : List Str} (h : x ∈ l) :
    x ∈ insertSorted y l := by
  induction l with
  | nil => simp at h
  | cons z r ih =>
      unfold insertSorted
      split
      · exact List.mem_cons_of_mem _ h
      · rcases List.mem_cons.mp h with h2 | h2
        · rw [h2]; exact List.mem_cons_self _ _
        · exact List.mem_cons_of_mem _ (ih h2)

theorem mem_insertSorted_self (x : Str) (l : List Str) :
    x ∈ insertSorted x l := by
  induction l with
  | nil => simp [insertSorted]
  | cons z t ih =>
      unfold insertSorted
      split
      · exact List.mem_cons_self _ _
      · exact List.mem_cons_of_mem _ ih

theorem mem_sortStrs {x : Str} {l : List Str} (h : x ∈ l) :
    x ∈ sortStrs l := by
  unfold sortStrs
  induction l with
  | nil => simp at h
  | cons y r ih =>
      rcases List.mem_cons.mp h with h2 | h2
      · subst h2
        exact mem_insertSorted_self x (r.foldr insertSorted [])
      · exact mem_insertSorted (ih h2)

/-- Claim C3 (confirmed): acceptance of a lead with a non-empty
registrable domain records the domain in the seen set and appends it to
the store; a candidate whose domain is already seen is rejected at the
dedup check; from any state containing a domain, no later candidate of
the run with that domain escapes the dedup rejection; the seen set only
grows; and a recorded normalized domain is a member of the reloaded
store, both after the per-acceptance append and after the end-of-run
rewrite. -/
theorem dedup_invariant (cfg : GateCfg) (etld1 : Str → Str) :
    (∀ seen store (c : GCand) w, c.website = some w → etld1 w ≠ [] →
      (processCandidate cfg etld1 seen store c).1 = Outcome.accepted →
      etld1 w ∈ (processCandidate cfg etld1 seen store c).2.1) ∧
    (∀ seen store (c : GCand) w, c.website = some w → etld1 w ≠ [] →
      etld1 w ∈ seen →
      (processCandidate cfg etld1 seen store c).1 = Outcome.skipDupe) ∧
    (∀ cands seen store d, d ≠ [] → d ∈ seen →
      ∀ p ∈ List.zip cands (runGate cfg etld1 cands seen store).1,
        ∀ w, p.1.website = some w → etld1 w = d →
          p.2 = Outcome.skipDupe) ∧
    (∀ cands seen store,
      seen ⊆ (runGate cfg etld1 cands seen store).2.1) ∧
    (∀ store d, d ≠ [] → pyStrip d = d → lowerStr d = d →
      d ∈ load_seen (seen_domain_write d store)) ∧
    (∀ seen store d, d ∈ seen → d ≠ [] → pyStrip d = d →
      lowerStr d = d → d ∈ load_seen (save_seen seen store)) := by
  refine ⟨?_, ?_, runGate_zip_dupe cfg etld1, runGate_seen_mono cfg etld1,
    ?_, ?_⟩
  · intro seen store c w hw hd hacc
    simp only [processCandidate, hw] at hacc ⊢
    split at hacc
    · exact absurd hacc (by simp)
    · split at hacc
      · exact absurd hacc (by simp)
      · split at hacc
        · exact absurd hacc (by simp)
        · split at hacc
          · exact absurd hacc (by simp)
          · rename_i h1 h2 h3 h4
            rw [if_neg h1, if_neg h2, if_neg h3, if_neg h4, if_pos hd]
            exact List.mem_cons_self _ _
  · exact fun seen store c w hw hd hm =>
      processCandidate_dupe cfg etld1 seen store c w hw hd hm
  · intro store d hne hstrip hlower
    have h1 : seen_domain_write d store = store ++ [d] := by
      unfold seen_domain_write
      rw [if_neg hne, hstrip, hlower]
    rw [h1]
    exact mem_load_seen (List.mem_append.mpr (Or.inr (by simp))) hne
      hstrip hlower
  · intro seen store d hm hne hstrip hlower
    exact mem_load_seen (mem_sortStrs hm) hne hstrip hlower

/-- Claim C3 witness: the dedup rejection at a concrete state. -/
theorem dedup_invariant_witness :
    (processCandidate ⟨true, 600, 30⟩
      (fun u => if u = str "https://acme.com" then str "acme.com"
        else []) [str "acme.com"] []
      ⟨some (str "https://acme.com"), true, true, str "hi", none⟩).1 =
      Outcome.skipDupe :=
  (dedup_invariant ⟨true, 600, 30⟩
      (fun u => if u = str "https://acme.com" then str "acme.com"
        else [])).2.1
    [str "acme.com"] []
    ⟨some (str "https://acme.com"), true, true, str "hi", none⟩
    (str "https://acme.com") rfl (by decide) (by decide)

/-- Claim C7 counterexample: after two appends the store holds b then
a; the end-of-run save rewrites it sorted, so the new store is not an
extension of the old one — the file is rewritten, not appended to. -/
theorem seen_store_rewrite_cex :
    seen_domain_write (str "a") (seen_domain_write (str "b") []) =
      [str "b", str "a"] ∧
    save_seen [str "b", str "a"]
        (seen_domain_write (str "a") (seen_domain_write (str "b") [])) =
      [str "a", str "b"] ∧
    List.take 2 (save_seen [str "b", str "a"]
        (seen_domain_write (str "a") (seen_domain_write (str "b") []))) ≠
      seen_domain_write (str "a") (seen_domain_write (str "b") []) := by
  decide

/-- Claim C7 (corrected): the in-memory seen set only grows and each
acceptance appends exactly one normalized line to the store, but the
end-of-run save does not append: it writes the sorted set, ignoring the
store's previous content entirely. -/
theorem seen_monotone_store_rewrite (cfg : GateCfg) (etld1 : Str → Str) :
    (∀ seen store (c : GCand),
      seen ⊆ (processCandidate cfg etld1 seen store c).2.1) ∧
    (∀ cands seen store,
      seen ⊆ (runGate cfg etld1 cands seen store).2.1) ∧
    (∀ store, seen_domain_write [] store = store) ∧
    (∀ d store, d ≠ [] →
      seen_domain_write d store = store ++ [lowerStr (pyStrip d)]) ∧
    (∀ seen store store2, save_seen seen store = save_seen seen store2) := by
  refine ⟨processCandidate_seen_mono cfg etld1,
    runGate_seen_mono cfg etld1, fun store => rfl, ?_, ?_⟩
  · intro d store hd
    unfold seen_domain_write
    rw [if_neg hd]
  · intro seen store store2
    rfl

/-- Claim C7 witness: the append shape at a concrete domain. -/
theorem seen_monotone_store_rewrite_witness :
    seen_domain_write (str "Acme.COM ") [str "b.org"] =
      [str "b.org"] ++ [lowerStr (pyStrip (str "Acme.COM "))] :=
  (seen_monotone_store_rewrite ⟨true, 600, 30⟩ (fun _ => [])).2.2.2.1
    (str "Acme.COM ") [str "b.org"] (by decide)

/-- Claim C8 counterexample: a homepage that is explicitly French — a
fr Content-Language response header, an html lang attribute and French
body text — passes the gate and is accepted: no language check exists
anywhere on the acceptance path. -/
theorem language_gate_cex :
    (processCandidate ⟨true, 600, 30⟩
      (fun u => if u = str "https://exemple.fr" then str "exemple.fr"
        else []) [] []
      ⟨some (str "https://exemple.fr"), true, true,
        str "<html lang=\"fr\"><body>Bonjour et bienvenue sur notre site</body></html>",
        some (str "fr")⟩).1 = Outcome.accepted ∧
    isSubstr (str "lang=\"fr\"")
      (str "<html lang=\"fr\"><body>Bonjour et bienvenue sur notre site</body></html>") =
      true := by decide

/-- Claim C8 (corrected): the gate consults no language signal at all —
its decision is invariant under the response language header, and for a
candidate passing dedup, robots and fetch, acceptance is exactly the
size/script-count smallness check of is_probably_small_site. -/
theorem gate_language_blind (cfg : GateCfg) (etld1 : Str → Str) :
    (∀ seen store w rb fe ht l1 l2,
      processCandidate cfg etld1 seen store ⟨w, rb, fe, ht, l1⟩ =
        processCandidate cfg etld1 seen store ⟨w, rb, fe, ht, l2⟩) ∧
    (∀ seen store (c : GCand) w, c.website = some w →
      ¬(etld1 w ≠ [] ∧ etld1 w ∈ seen) → c.robotsOk = true →
      c.fetchOk = true →
      ((processCandidate cfg etld1 seen store c).1 = Outcome.accepted ↔
        is_probably_small_site cfg c.htmlText = true)) := by
  constructor
  · intro seen store w rb fe ht l1 l2
    rfl
  · intro seen store c w hw hnd hrb hfe
    simp only [processCandidate, hw]
    rw [if_neg hnd, if_neg (by rw [hrb]; simp),
      if_neg (by rw [hfe]; simp)]
    constructor
    · intro hacc
      by_contra hsmall
      rw [if_pos (by simpa using hsmall)] at hacc
      exact absurd hacc (by simp)
    · intro hsmall
      rw [if_neg (by rw [hsmall]; simp)]

/-- Claim C8 witness: header-independence and the smallness equivalence
at a concrete candidate. -/
theorem gate_language_blind_witness :
    ((processCandidate ⟨true, 600, 30⟩ (fun _ => []) [] []
      ⟨some (str "https://a.test"), true, true, str "hi", none⟩).1 =
        Outcome.accepted ↔
      is_probably_small_site ⟨true, 600, 30⟩ (str "hi") = true) :=
  (gate_language_blind ⟨true, 600, 30⟩ (fun _ => [])).2 [] []
    ⟨some (str "https://a.test"), true, true, str "hi", none⟩
    (str "https://a.test") rfl (by decide) rfl rfl

/-- Claim C10 (confirmed): when the registrable-domain extraction of a
resolved website is empty, the gate never reaches the dedup rejection
and records nothing — seen set and store are unchanged even on
acceptance — and two candidates with the same such website are both
accepted in one run. -/
theorem empty_domain_skips_dedup (cfg : GateCfg) (etld1 : Str → Str) :
    (∀ seen store (c : GCand) w, c.website = some w → etld1 w = [] →
      (processCandidate cfg etld1 seen store c).1 ≠ Outcome.skipDupe ∧
      (processCandidate cfg etld1 seen store c).2.1 = seen ∧
      (processCandidate cfg etld1 seen store c).2.2 = store) ∧
    runGate ⟨true, 600, 30⟩ (fun _ => [])
      [⟨some (str "https://x.test"), true, true, str "hi", none⟩,
       ⟨some (str "https://x.test"), true, true, str "hi", none⟩] [] [] =
      ([Outcome.accepted, Outcome.accepted], [], []) := by
  constructor
  · intro seen store c w hw hd
    simp only [processCandidate, hw]
    rw [if_neg (by simp [hd])]
    have hif : (if etld1 w ≠ [] then etld1 w :: seen else seen) = seen := by
      rw [if_neg (by simp [hd])]
    have hif2 : (if etld1 w ≠ [] then seen_domain_write (etld1 w) store
        else store) = store := by
      rw [if_neg (by simp [hd])]
    rw [hif, hif2]
    refine ⟨?_, ?_, ?_⟩
    · split
      · simp
      · split
        · simp
        · split
          · simp
          · simp
    · split
      · rfl
      · split
        · rfl
        · split
          · rfl
          · rfl
    · split
      · rfl
      · split
        · rfl
        · split
          · rfl
          · rfl
  · decide

/-- Claim C10 witness: the no-record behaviour at a concrete
empty-domain candidate. -/
theorem empty_domain_skips_dedup_witness :
    (processCandidate ⟨true, 600, 30⟩ (fun _ => []) [str "seen.org"] []
      ⟨some (str "https://x.test"), true, true, str "hi", none⟩).1 ≠
      Outcome.skipDupe ∧
    (processCandidate ⟨true, 600, 30⟩ (fun _ => []) [str "seen.org"] []
      ⟨some (str "https://x.test"), true, true, str "hi", none⟩).2.1 =
      [str "seen.org"] ∧
    (processCandidate ⟨true, 600, 30⟩ (fun _ => []) [str "seen.org"] []
      ⟨some (str "https://x.test"), true, true, str "hi", none⟩).2.2 =
      [] :=
  (empty_domain_skips_dedup ⟨true, 600, 30⟩ (fun _ => [])).1
    [str "seen.org"] []
    ⟨some (str "https://x.test"), true, true, str "hi", none⟩
    (str "https://x.test") rfl rfl

/- =====================================================================
   CLAIM C9: acquisition error behaviour
   ===================================================================== -/

theorem isJObj_exists {v : JVal} (h : isJObj v = true) :
    ∃ kvs, v = JVal.jobj kvs := by
  rcases v with _ | b | q | s | xs | kvs <;> simp [isJObj] at h
  exact ⟨kvs, rfl⟩

theorem jGetD_obj {v : JVal} (h : isJObj v = true) (k d : _) :
    jGetD v k d = Except.ok (jGetTot v k d) := by
  obtain ⟨kvs, rfl⟩ := isJObj_exists h
  rfl

theorem wtStrable_pyOrJ {a b : JVal} (ha : wtStrable a = true)
    (hb : wtStrable b = true) : wtStrable (pyOrJ a b) = true := by
  unfold pyOrJ
  split
  · exact ha
  · exact hb

theorem asStripped_ok {v : JVal} (h : wtStrable v = true) :
    ∃ s, asStripped v = Except.ok s := by
  unfold asStripped pyOrJ
  by_cases ht : jTruthy v = true
  · have hs : isJStr v = true := by
      unfold wtStrable at h
      rw [ht] at h
      simpa using h
    rcases v with _ | b | q | s | xs | kvs <;> simp [isJStr] at hs
    rw [if_pos ht]
    exact ⟨pyStrip s, rfl⟩
  · rw [if_neg ht]
    exact ⟨pyStrip [], rfl⟩

theorem asLowered_ok {v : JVal} (h : wtStrable v = true) :
    ∃ s, asLowered v = Except.ok s := by
  unfold asLowered pyOrJ
  by_cases ht : jTruthy v = true
  · have hs : isJStr v = true := by
      unfold wtStrable at h
      rw [ht] at h
      simpa using h
    rcases v with _ | b | q | s | xs | kvs <;> simp [isJStr] at hs
    rw [if_pos ht]
    exact ⟨lowerStr s, rfl⟩
  · rw [if_neg ht]
    exact ⟨lowerStr [], rfl⟩

theorem asStr_ok {v : JVal} (ht : jTruthy v = true)
    (h : wtStrable v = true) : ∃ s, asStr v = Except.ok s := by
  have hs : isJStr v = true := by
    unfold wtStrable at h
    rw [ht] at h
    simpa using h
  rcases v with _ | b | q | s | xs | kvs <;> simp [isJStr] at hs
  exact ⟨s, rfl⟩

theorem exBind_exists2 {α β : Type} {x : Except Unit α} {a : α}
    (ha : x = Except.ok a) {f : α → Except Unit β}
    (hf : ∃ b, f a = Except.ok b) :
    ∃ b, (x >>= f) = Except.ok b := by
  obtain ⟨b, hb⟩ := hf
  exact ⟨b, by rw [ha]; exact hb⟩

theorem exIfP {α : Type} (c : Prop) [Decidable c] {x y : Except Unit α}
    (hx : c → ∃ b, x = Except.ok b) (hy : ¬c → ∃ b, y = Except.ok b) :
    ∃ b, ((if c then x else y) : Except Unit α) = Except.ok b := by
  split
  · next h => exact hx h
  · next h => exact hy h

theorem exIfBindP {α β : Type} (c : Prop) [Decidable c]
    {x y : Except Unit α} {f : α → Except Unit β}
    (hx : c → ∃ b, (x >>= f) = Except.ok b)
    (hy : ¬c → ∃ b, (y >>= f) = Except.ok b) :
    ∃ b, (((if c then x else y) : Except Unit α) >>= f) =
      Except.ok b := by
  split
  · next h => exact hx h
  · next h => exact hy h

theorem ovRow_ok {el : JVal} (h : wtOvEl el = true) :
    ∃ r, ovRow el = Except.ok r := by
  unfold wtOvEl at h
  rw [Bool.and_eq_true] at h
  obtain ⟨h1, h2⟩ := h
  rw [Bool.and_eq_true] at h2
  obtain ⟨h21, h22⟩ := h2
  rw [Bool.and_eq_true] at h22
  obtain ⟨hname, hweb⟩ := h22
  obtain ⟨nm, hnm⟩ := asStripped_ok hname
  unfold ovRow
  refine exBind_exists2 (jGetD_obj h1 _ _) ?_
  refine exBind_exists2 (jGetD_obj h21 _ _) ?_
  refine exBind_exists2 hnm ?_
  refine exIfP (nm = []) (fun _ => ⟨none, rfl⟩) ?_
  intro _
  refine exBind_exists2 (jGetD_obj h21 _ _) ?_
  refine exBind_exists2 (jGetD_obj h21 _ _) ?_
  refine exBind_exists2 (jGetD_obj h21 _ _) ?_
  refine exBind_exists2 (jGetD_obj h21 _ _) ?_
  refine exBind_exists2 (jGetD_obj h1 _ _) ?_
  refine exBind_exists2 (jGetD_obj h1 _ _) ?_
  refine exBind_exists2 (jGetD_obj h1 _ _) ?_
  refine exIfP (((isJNull (jGetTot el (str "lat") JVal.jnull) ||
      isJNull (jGetTot el (str "lon") JVal.jnull)) &&
      isJObj (jGetTot el (str "center") JVal.jnull)) = true) ?_ ?_
  · intro hc
    have hc2 := hc
    rw [Bool.and_eq_true] at hc2
    have hce : isJObj (jGetTot el (str "center") JVal.jnull) = true :=
      hc2.2
    refine exBind_exists2 (jGetD_obj hce _ _) ?_
    refine exBind_exists2 (jGetD_obj hce _ _) ?_
    refine exBind_exists2 rfl ?_
    refine exIfP (jTruthy (pyOrJ (pyOrJ
        (jGetTot (pyOrJ (jGetTot el (str "tags") (JVal.jobj []))
          (JVal.jobj [])) (str "website") JVal.jnull)
        (jGetTot (pyOrJ (jGetTot el (str "tags") (JVal.jobj []))
          (JVal.jobj [])) (str "contact:website") JVal.jnull))
        (jGetTot (pyOrJ (jGetTot el (str "tags") (JVal.jobj []))
          (JVal.jobj [])) (str "url") JVal.jnull)) = true) ?_ ?_
    · intro ht
      obtain ⟨s, hs⟩ := asStr_ok ht hweb
      refine exBind_exists2 hs ?_
      refine exBind_exists2 rfl ?_
      exact ⟨_, rfl⟩
    · intro _
      refine exBind_exists2 rfl ?_
      exact ⟨_, rfl⟩
  · intro _
    refine exBind_exists2 rfl ?_
    refine exIfP (jTruthy (pyOrJ (pyOrJ
        (jGetTot (pyOrJ (jGetTot el (str "tags") (JVal.jobj []))
          (JVal.jobj [])) (str "website") JVal.jnull)
        (jGetTot (pyOrJ (jGetTot el (str "tags") (JVal.jobj []))
          (JVal.jobj [])) (str "contact:website") JVal.jnull))
        (jGetTot (pyOrJ (jGetTot el (str "tags") (JVal.jobj []))
          (JVal.jobj [])) (str "url") JVal.jnull)) = true) ?_ ?_
    · intro ht
      obtain ⟨s, hs⟩ := asStr_ok ht hweb
      refine exBind_exists2 hs ?_
      refine exBind_exists2 rfl ?_
      exact ⟨_, rfl⟩
    · intro _
      refine exBind_exists2 rfl ?_
      exact ⟨_, rfl⟩

theorem ovRowsLoop_ok :
    ∀ els : List JVal, (∀ el ∈ els, wtOvEl el = true) →
      ∃ rs, ovRowsLoop els = Except.ok rs := by
  intro els
  induction els with
  | nil => exact fun _ => ⟨[], rfl⟩
  | cons el rest ih =>
      intro h
      obtain ⟨r, hr⟩ := ovRow_ok (h el (List.mem_cons_self _ _))
      obtain ⟨rs, hrs⟩ := ih (fun x hx => h x (List.mem_cons_of_mem _ hx))
      unfold ovRowsLoop
      refine exBind_exists2 hr ?_
      refine exBind_exists2 hrs ?_
      cases r with
      | some row => exact ⟨row :: rs, rfl⟩
      | none => exact ⟨rs, rfl⟩

theorem overpass_local_businesses_ok (enabled : Bool)
    (attempts : List HResp) (etld1 : Str → Str)
    (shuffle : List Row → List Row)
    (hov : ∀ j, overpass_post attempts = some j →
      wtOverpassBody j = true) :
    ∃ rs, overpass_local_businesses enabled attempts etld1 shuffle =
      Except.ok rs := by
  unfold overpass_local_businesses
  split
  · exact ⟨[], rfl⟩
  · split
    · exact ⟨[], rfl⟩
    · next js hpost =>
        have hwt := hov js hpost
        split
        · exact ⟨[], rfl⟩
        · next hT =>
          have hT2 : jTruthy js = true := by
            rcases Bool.eq_false_or_eq_true (jTruthy js) with h | h
            · exact h
            · exact absurd h hT
          unfold wtOverpassBody at hwt
          rw [Bool.or_eq_true] at hwt
          rcases hwt with hwt | hwt
          · rw [hT2] at hwt; simp at hwt
          · rw [Bool.and_eq_true] at hwt
            obtain ⟨hobj, hmat⟩ := hwt
            refine exBind_exists2 (jGetD_obj hobj _ _) ?_
            rcases hel : jGetTot js (str "elements") (.jarr []) with
              _ | b | q | sx | xs | kvs
            · rw [hel] at hmat; simp at hmat
            · rw [hel] at hmat; simp at hmat
            · rw [hel] at hmat; simp at hmat
            · rw [hel] at hmat
              cases sx with
              | nil =>
                  refine exBind_exists2 (show jIterForGet (.jstr []) =
                    Except.ok [] from rfl) ?_
                  refine exBind_exists2 (show ovRowsLoop [] =
                    Except.ok [] from rfl) ?_
                  exact ⟨_, rfl⟩
              | cons a t => simp at hmat
            · rw [hel] at hmat
              have hall : ∀ x ∈ xs, wtOvEl x = true := by
                intro x hx
                have := List.all_eq_true.mp hmat x hx
                simpa using this
              obtain ⟨rs, hrs⟩ := ovRowsLoop_ok xs hall
              refine exBind_exists2 (show jIterForGet (.jarr xs) =
                Except.ok xs from rfl) ?_
              refine exBind_exists2 hrs ?_
              exact ⟨_, rfl⟩
            · rw [hel] at hmat
              cases kvs with
              | nil =>
                  refine exBind_exists2 (show jIterForGet (.jobj []) =
                    Except.ok [] from rfl) ?_
                  refine exBind_exists2 (show ovRowsLoop [] =
                    Except.ok [] from rfl) ?_
                  exact ⟨_, rfl⟩
              | cons a t => simp at hmat

theorem guessName_ok {it : JVal} (hobj : isJObj it = true)
    (hnd : isJObj (pyOrJ (jGetTot it (str "namedetails") JVal.jnull)
      (JVal.jobj [])) = true)
    (hndname : wtStrable (jGetTot
      (pyOrJ (jGetTot it (str "namedetails") JVal.jnull) (JVal.jobj []))
      (str "name") JVal.jnull) = true)
    (hitname : wtStrable (jGetTot it (str "name") JVal.jnull) = true)
    (hdisp : wtStrable (jGetTot it (str "display_name") JVal.jnull) =
      true) :
    ∃ g, guessName it = Except.ok g := by
  obtain ⟨nm0, hnm0⟩ := asStripped_ok (wtStrable_pyOrJ hndname hitname)
  obtain ⟨dn, hdn⟩ := asStripped_ok hdisp
  unfold guessName
  refine exBind_exists2 (jGetD_obj hobj _ _) ?_
  refine exBind_exists2 (jGetD_obj hnd _ _) ?_
  refine exBind_exists2 (jGetD_obj hobj _ _) ?_
  refine exBind_exists2 hnm0 ?_
  refine exIfP (nm0 ≠ []) (fun _ => ⟨nm0, rfl⟩) ?_
  intro _
  refine exBind_exists2 (jGetD_obj hobj _ _) ?_
  refine exBind_exists2 hdn ?_
  exact exIfP (dn ≠ [] ∧ (',' : Char) ∈ dn) (fun _ => ⟨_, rfl⟩)
    (fun _ => ⟨dn, rfl⟩)

theorem nomItem_ok {it : JVal} (etld1 : Str → Str)
    (pyFloat : JVal → Option ℚ) (h : wtNomIt it = true) :
    ∃ o, nomItem etld1 pyFloat it = Except.ok o := by
  unfold wtNomIt at h
  simp only [Bool.and_eq_true] at h
  obtain ⟨⟨⟨⟨⟨⟨hobj, hnd, hndname⟩, hitname⟩, hdisp⟩, hklass⟩, htyp⟩,
    hxt, hchain⟩ := h
  obtain ⟨g, hg⟩ := guessName_ok hobj hnd hndname hitname hdisp
  obtain ⟨klass, hklassE⟩ := asLowered_ok hklass
  obtain ⟨typ, htypE⟩ := asLowered_ok htyp
  unfold nomItem
  refine exBind_exists2 hg ?_
  refine exIfP (pyStrip g = []) (fun _ => ⟨none, rfl⟩) ?_
  intro _
  refine exBind_exists2 (jGetD_obj hobj _ _) ?_
  refine exBind_exists2 hklassE ?_
  refine exBind_exists2 (jGetD_obj hobj _ _) ?_
  refine exBind_exists2 htypE ?_
  refine exIfP (klass ≠ [] ∧ klass ∉ [str "office", str "shop",
      str "amenity", str "tourism", str "leisure", str "craft"])
    (fun _ => ⟨none, rfl⟩) ?_
  intro _
  refine exIfP (typ ∈ [str "house", str "residential", str "road",
      str "yes", str "city", str "town", str "village", str "suburb",
      str "neighbourhood"]) (fun _ => ⟨none, rfl⟩) ?_
  intro _
  refine exBind_exists2 (jGetD_obj hobj _ _) ?_
  refine exBind_exists2 (jGetD_obj hxt _ _) ?_
  refine exBind_exists2 (jGetD_obj hxt _ _) ?_
  refine exBind_exists2 (jGetD_obj hxt _ _) ?_
  refine exBind_exists2 (jGetD_obj hobj _ _) ?_
  refine exBind_exists2 (jGetD_obj hobj _ _) ?_
  refine exIfP (jTruthy (pyOrJ (pyOrJ
      (jGetTot (pyOrJ (jGetTot it (str "extratags") JVal.jnull)
        (JVal.jobj [])) (str "website") JVal.jnull)
      (jGetTot (pyOrJ (jGetTot it (str "extratags") JVal.jnull)
        (JVal.jobj [])) (str "contact:website") JVal.jnull))
      (jGetTot (pyOrJ (jGetTot it (str "extratags") JVal.jnull)
        (JVal.jobj [])) (str "url") JVal.jnull)) = true) ?_ ?_
  · intro ht
    obtain ⟨s, hs⟩ := asStr_ok ht hchain
    refine exBind_exists2 hs ?_
    refine exBind_exists2 rfl ?_
    refine exBind_exists2 (jGetD_obj hxt _ _) ?_
    exact ⟨_, rfl⟩
  · intro _
    refine exBind_exists2 rfl ?_
    refine exBind_exists2 (jGetD_obj hxt _ _) ?_
    exact ⟨_, rfl⟩

theorem nomItemsLoop_ok (etld1 : Str → Str) (pyFloat : JVal → Option ℚ) :
    ∀ (its : List JVal) (sk : List NKeyT) (acc : List NRow),
      (∀ it ∈ its, wtNomIt it = true) →
      ∃ r, nomItemsLoop etld1 pyFloat its sk acc = Except.ok r := by
  intro its
  induction its with
  | nil => exact fun sk acc _ => ⟨_, rfl⟩
  | cons it rest ih =>
      intro sk acc h
      obtain ⟨o, ho⟩ := nomItem_ok etld1 pyFloat
        (h it (List.mem_cons_self _ _))
      unfold nomItemsLoop
      refine exBind_exists2 ho ?_
      cases o with
      | none =>
          exact ih sk acc (fun x hx => h x (List.mem_cons_of_mem _ hx))
      | some rk =>
          refine exIfP (keyMem rk.2 sk = true) ?_ ?_
          · intro _
            exact ih sk acc (fun x hx => h x (List.mem_cons_of_mem _ hx))
          · intro _
            exact ih (rk.2 :: sk) (acc ++ [rk.1])
              (fun x hx => h x (List.mem_cons_of_mem _ hx))

theorem nomQueriesLoop_ok (etld1 : Str → Str)
    (pyFloat : JVal → Option ℚ) :
    ∀ (qresps : List (Option JVal)) (sk : List NKeyT) (acc : List NRow),
      (∀ j, some j ∈ qresps → wtNomBody j = true) →
      ∃ r, nomQueriesLoop etld1 pyFloat qresps sk acc = Except.ok r := by
  intro qresps
  induction qresps with
  | nil => exact fun sk acc _ => ⟨_, rfl⟩
  | cons q rest ih =>
      intro sk acc h
      cases q with
      | none =>
          exact ih sk acc (fun j hj => h j (List.mem_cons_of_mem _ hj))
      | some j =>
          have hwt := h j (List.mem_cons_self _ _)
          unfold wtNomBody at hwt
          unfold nomQueriesLoop
          rcases hit : (if jTruthy j then j else JVal.jarr []) with
            _ | b | qq | sx | xs | kvs
          all_goals rw [hit] at hwt
          · simp at hwt
          · simp at hwt
          · simp at hwt
          · cases sx with
            | nil =>
                refine exBind_exists2 (show jIterForGet (.jstr []) =
                  Except.ok [] from rfl) ?_
                refine exBind_exists2 (show nomItemsLoop etld1 pyFloat []
                  sk acc = Except.ok (sk, acc) from rfl) ?_
                exact ih sk acc
                  (fun x hx => h x (List.mem_cons_of_mem _ hx))
            | cons a t => simp at hwt
          · have hall : ∀ x ∈ xs, wtNomIt x = true := by
              intro x hx
              have := List.all_eq_true.mp hwt x hx
              simpa using this
            obtain ⟨r2, hr2⟩ := nomItemsLoop_ok etld1 pyFloat xs sk acc
              hall
            refine exBind_exists2 (show jIterForGet (.jarr xs) =
              Except.ok xs from rfl) ?_
            refine exBind_exists2 hr2 ?_
            exact ih r2.1 r2.2
              (fun x hx => h x (List.mem_cons_of_mem _ hx))
          · cases kvs with
            | nil =>
                refine exBind_exists2 (show jIterForGet (.jobj []) =
                  Except.ok [] from rfl) ?_
                refine exBind_exists2 (show nomItemsLoop etld1 pyFloat []
                  sk acc = Except.ok (sk, acc) from rfl) ?_
                exact ih sk acc
                  (fun x hx => h x (List.mem_cons_of_mem _ hx))
            | cons a t => simp at hwt

theorem nominatim_poi_candidates_ok (enabled : Bool)
    (qresps : List (Option JVal)) (etld1 : Str → Str)
    (pyFloat : JVal → Option ℚ) (shuffle : List NRow → List NRow)
    (h : ∀ j, some j ∈ qresps → wtNomBody j = true) :
    ∃ rs, nominatim_poi_candidates enabled qresps etld1 pyFloat
      shuffle = Except.ok rs := by
  unfold nominatim_poi_candidates
  split
  · exact ⟨[], rfl⟩
  · obtain ⟨r, hr⟩ := nomQueriesLoop_ok etld1 pyFloat qresps [] [] h
    refine exBind_exists2 hr ?_
    exact ⟨_, rfl⟩

/-- Claim C9 counterexample: a 200 response whose body is the JSON
array [1] — valid JSON, wrong shape — makes both acquisition functions
raise (the `.get` calls run outside any try block), instead of
returning an empty list. -/
theorem acquisition_raises_cex :
    overpass_local_businesses true
      [HResp.resp 200 (some (JVal.jarr [JVal.jnum 1]))]
      (fun _ => []) id = Except.error () ∧
    nominatim_poi_candidates true [some (JVal.jarr [JVal.jnum 1])]
      (fun _ => []) (fun _ => none) id = Except.error () :=
  ⟨rfl, rfl⟩

/-- Claim C9 (corrected): the acquisition functions return a list
rather than raising only for response bodies of the expected shape;
under well-typedness of every 200 body (wtOverpassBody, wtNomBody) both
functions succeed for every area, endpoint-retry outcome and
shuffle/number-parsing behaviour. -/
theorem acquisition_ok_of_welltyped (enabled1 enabled2 : Bool)
    (attempts : List HResp) (qresps : List (Option JVal))
    (etld1 : Str → Str) (pyFloat : JVal → Option ℚ)
    (shuffleO : List Row → List Row) (shuffleN : List NRow → List NRow)
    (hov : ∀ j, overpass_post attempts = some j →
      wtOverpassBody j = true)
    (hnom : ∀ j, some j ∈ qresps → wtNomBody j = true) :
    exOk (overpass_local_businesses enabled1 attempts etld1 shuffleO) =
      true ∧
    exOk (nominatim_poi_candidates enabled2 qresps etld1 pyFloat
      shuffleN) = true := by
  constructor
  · obtain ⟨rs, hrs⟩ := overpass_local_businesses_ok enabled1 attempts
      etld1 shuffleO hov
    rw [hrs]
    rfl
  · obtain ⟨rs, hrs⟩ := nominatim_poi_candidates_ok enabled2 qresps
      etld1 pyFloat shuffleN hnom
    rw [hrs]
    rfl

/-- Claim C9 witness: both functions succeed on concrete well-typed
responses. -/
theorem acquisition_ok_of_welltyped_witness :
    exOk (overpass_local_businesses true
      [HResp.resp 200 (some (JVal.jobj
        [(str "elements", JVal.jarr [])]))]
      (fun _ => []) id) = true ∧
    exOk (nominatim_poi_candidates true [some (JVal.jarr [])]
      (fun _ => []) (fun _ => none) id) = true :=
  acquisition_ok_of_welltyped true true
    [HResp.resp 200 (some (JVal.jobj [(str "elements", JVal.jarr [])]))]
    [some (JVal.jarr [])] (fun _ => []) (fun _ => none) id id
    (by
      intro j hj
      injection hj with h2
      subst h2
      decide)
    (by
      intro j hj
      rcases List.mem_cons.mp hj with h2 | h2
      · injection h2 with h3
        subst h3
        decide
      · simp at h2)
